import Mathlib

/-!
# kagent: the SSE stream decoder and the ModelConfig handlers

A shallow embedding of

* `go/autogen/client/types.go`: `SseEvent` and `streamSseResponse`, together
  with the part of Go's `bufio.Scanner` that `streamSseResponse` drives
  (`Scan`, `ScanLines`, the read buffer and its growth);
* `go/controller/internal/httpserver/handlers/modelconfig.go`: the create and
  update handlers of `ModelConfigHandler`.
-/

set_option autoImplicit false

namespace SseClient

/-! ## Bytes -/

/-- A Go `byte`. -/
abbrev Byte := UInt8

/-- The newline byte `'\n'`. -/
def LF : Byte := 10

/-- The carriage return byte `'\r'`. -/
def CR : Byte := 13

/-- The literal `[]byte("event:")`. -/
def eventPrefix : List Byte := [101, 118, 101, 110, 116, 58]

/-- The literal `[]byte("data:")`. -/
def dataPrefix : List Byte := [100, 97, 116, 97, 58]

/-- Go `bytes.HasPrefix(s, prefix)`. -/
def HasPrefix (s pre : List Byte) : Bool := pre.isPrefixOf s

/-- Go `bytes.TrimPrefix(s, prefix)`: `s[len(prefix):]` when `s` starts with
`prefix`, otherwise `s` itself. -/
def TrimPrefix (s pre : List Byte) : List Byte :=
  if HasPrefix s pre then s.drop pre.length else s

/-- Go `bytes.IndexByte(b, c)`: the index of the first `c` in `b`, `none` for
Go's `-1`. -/
def IndexByte : List Byte → Byte → Option Nat
  | [], _ => none
  | x :: xs, c => if x = c then some 0 else (IndexByte xs c).map (· + 1)

/-- Go `bufio.dropCR`: drops one terminal `'\r'` from the data. -/
def dropCR (data : List Byte) : List Byte :=
  if data.getLast? = some CR then data.dropLast else data

/-- Go `bufio.ScanLines`, the default split function of a `Scanner`. The
result is `(advance, token)`; `token = none` is Go's `nil` token (a request
for more data). `ScanLines` never returns an error. -/
def ScanLines (data : List Byte) (atEOF : Bool) : Nat × Option (List Byte) :=
  if atEOF && data.isEmpty then (0, none)
  else
    match IndexByte data LF with
    | some i => (i + 1, some (dropCR (data.take i)))
    | none => if atEOF then (data.length, some (dropCR data)) else (0, none)

/-! ## The input stream -/

/-- The errors that occur: `io.EOF`, `bufio.ErrTooLong`, `io.ErrNoProgress`,
and any other error a `Read` may return. -/
inductive Err where
  | EOF
  | ErrTooLong
  | ErrNoProgress
  | other (code : Nat)
  deriving DecidableEq, Repr

/-- What one call of `Read` returns: the bytes it delivered and its error. -/
structure ReadResult where
  data : List Byte
  err : Option Err
  deriving DecidableEq, Repr

/-- An `io.ReadCloser`, given by the results its successive `Read` calls will
return. When the list is used up the stream is at its end and `Read` returns
`(0, io.EOF)`. -/
abbrev Reader := List ReadResult

/-- The call `r.Read(p)` with `len(p) = k`: the bytes read, the error, and the
stream afterwards. A result holding more than `k` bytes is delivered in pieces,
its error with the last piece, so that the count a call returns is always
within `0..len(p)`. -/
def Read : Reader → Nat → List Byte × Option Err × Reader
  | [], _ => ([], some Err.EOF, [])
  | ⟨d, e⟩ :: rest, k =>
    if k < d.length then (d.take k, none, ⟨d.drop k, e⟩ :: rest)
    else (d, e, rest)

/-- Go `bufio.maxConsecutiveEmptyReads`. -/
def maxConsecutiveEmptyReads : Nat := 100

/-- The read loop of `Scan` (`for loop := 0; ; { n, err := s.r.Read(...) ... }`)
with `len(s.buf) - s.end = k`: it ends with the first read that reports an
error or delivers a byte, and a read of `(0, nil)` is repeated;
`left` is `maxConsecutiveEmptyReads - loop`, the number of empty reads the loop
still accepts before it gives up with `io.ErrNoProgress`. The result is what
the loop adds to the buffer, the error it sets, and the stream afterwards. -/
def readLoop : Nat → Reader → Nat → List Byte × Option Err × Reader
  | 0, r, k =>
    match Read r k with
    | (d, some e, r') => (d, some e, r')
    | (d, none, r') =>
      if 0 < d.length then (d, none, r') else (d, some Err.ErrNoProgress, r')
  | left + 1, r, k =>
    match Read r k with
    | (d, some e, r') => (d, some e, r')
    | (d, none, r') => if 0 < d.length then (d, none, r') else readLoop left r' k

/-- A bound on the number of read loops a stream can serve before it reports
an error: every loop that ends without an error uses up a byte. -/
def readBudget : Reader → Nat
  | [] => 0
  | ⟨d, _⟩ :: rest => d.length + 1 + readBudget rest

/-- The bytes a scanner gets from a stream whose first reads have been `left`
short of `maxConsecutiveEmptyReads` empty reads in a row: see `delivered`. -/
def deliveredFrom : Nat → Reader → List Byte
  | _, [] => []
  | left, ⟨d, e⟩ :: rest =>
    if e.isSome then d
    else if 0 < d.length then d ++ deliveredFrom maxConsecutiveEmptyReads rest
    else
      match left with
      | 0 => []
      | left + 1 => deliveredFrom left rest

/-- The input of `streamSseResponse`, the bytes a stream delivers to the
scanner: those of its reads up to and including the first read that reports an
error, or up to the first run of more than `maxConsecutiveEmptyReads` reads of
`(0, nil)`, at which the scanner gives up. -/
def delivered (r : Reader) : List Byte := deliveredFrom maxConsecutiveEmptyReads r

/-! ## `bufio.Scanner` -/

/-- Go `bufio.MaxScanTokenSize`. -/
def MaxScanTokenSize : Nat := 64 * 1024

/-- Go `bufio.startBufSize`. -/
def startBufSize : Nat := 4096

/-- The largest `int` of a 64-bit platform. -/
def maxInt : Nat := 2 ^ 63 - 1

/-- The state of a `bufio.Scanner`. The backing array `s.buf` is kept as `buf`,
the part of it that has been written so far, and `cap`, its length `len(s.buf)`;
the bytes beyond `buf` have never been written or read. `gen` counts the
allocations of a backing array: two slices share storage only when they were
taken from the array of the same `gen`. `tokAt` is the offset in the backing
array at which the last token `s.tok` starts. `old` holds the backing arrays
the scanner has given up, as they were left, the array of `gen = g` at index
`g`; a slice taken from one of them still reads its bytes there. -/
structure Scanner where
  r : Reader
  maxTokenSize : Nat
  buf : List Byte
  cap : Nat
  start : Nat
  stop : Nat
  err : Option Err
  gen : Nat
  tokAt : Nat
  old : List (List Byte)
  deriving Repr

/-- Go `bufio.NewScanner(r)`. -/
def NewScanner (r : Reader) : Scanner :=
  { r := r, maxTokenSize := MaxScanTokenSize, buf := [], cap := 0,
    start := 0, stop := 0, err := none, gen := 0, tokAt := 0, old := [] }

namespace Scanner

/-- The unprocessed bytes `s.buf[s.start:s.end]`. -/
def window (s : Scanner) : List Byte := (s.buf.drop s.start).take (s.stop - s.start)

/-- Go `Scanner.setErr`: records the first non-EOF error. -/
def setErr (s : Scanner) (e : Err) : Scanner :=
  if s.err = none ∨ s.err = some Err.EOF then { s with err := some e } else s

/-- The shift of `Scan`: `copy(s.buf, s.buf[s.start:s.end])` when there is a lot
of empty space or space is needed. -/
def compact (s : Scanner) : Scanner :=
  if 0 < s.start ∧ (s.stop = s.cap ∨ s.cap / 2 < s.start) then
    { s with buf := s.window ++ s.buf.drop s.window.length,
             stop := s.stop - s.start, start := 0 }
  else s

/-- The resize of `Scan`: a new backing array of twice the length, at most
`maxTokenSize`, holding the unprocessed bytes. -/
def grow (s : Scanner) : Scanner :=
  let newSize := if s.cap * 2 = 0 then startBufSize else s.cap * 2
  let newSize := min newSize s.maxTokenSize
  { s with buf := s.window, cap := newSize, stop := s.stop - s.start, start := 0,
           gen := s.gen + 1, old := s.old ++ [s.buf] }

/-- The read of `Scan`: the loop around `s.r.Read(s.buf[s.end:len(s.buf)])`,
which adds the bytes read to the buffer and sets the error. -/
def fill (s : Scanner) : Scanner :=
  match readLoop maxConsecutiveEmptyReads s.r (s.cap - s.stop) with
  | (d, e, r') =>
    let s1 := { s with r := r', buf := s.buf.take s.stop ++ d ++ s.buf.drop (s.stop + d.length),
                       stop := s.stop + d.length }
    match e with
    | some err => s1.setErr err
    | none => s1

/-- The loop of Go `Scanner.Scan` with the split function `ScanLines`; `fuel`
bounds the number of iterations. The result is the token of a `Scan` that
returned `true` (`none` when it returned `false`) and the scanner afterwards. -/
def scanLoop : Nat → Scanner → Option (List Byte) × Scanner
  | 0, s => (none, s)
  | fuel + 1, s =>
    let atEOF := s.err.isSome
    let split := if s.start < s.stop ∨ atEOF then ScanLines s.window atEOF else (0, none)
    let s1 := { s with start := s.start + split.1, tokAt := s.start }
    match split.2 with
    | some token => (some token, s1)
    | none =>
      if s1.err.isSome then (none, { s1 with start := 0, stop := 0 })
      else
        let s2 := s1.compact
        if s2.stop = s2.cap then
          if s2.maxTokenSize ≤ s2.cap ∨ maxInt / 2 < s2.cap then
            (none, s2.setErr Err.ErrTooLong)
          else scanLoop fuel s2.grow.fill
        else scanLoop fuel s2.fill

/-- Go `Scanner.Scan`. Every iteration of its loop that does not return reads
a byte from the stream or sets an error, so `readBudget s.r + 2` iterations
are enough. -/
def Scan (s : Scanner) : Option (List Byte) × Scanner :=
  scanLoop (readBudget s.r + 2) s

end Scanner

/-! ## `streamSseResponse` -/

/-- Go `SseEvent`. `Event` is a Go string, an immutable copy. `Data` is a byte
slice: `Data` holds its bytes at the moment the record is sent, and `dataGen`,
`dataOff` say where the slice lives (backing array and offset). -/
structure SseEvent where
  Event : List Byte
  Data : List Byte
  dataGen : Nat
  dataOff : Nat
  deriving DecidableEq, Repr

/-- Go `&SseEvent{}`. -/
def SseEvent.empty : SseEvent := { Event := [], Data := [], dataGen := 0, dataOff := 0 }

/-- The event type and payload of a record, as the consumer receives them. -/
def SseEvent.fields (e : SseEvent) : List Byte × List Byte := (e.Event, e.Data)

/-- What the producer goroutine of `streamSseResponse` does that others can
observe: sending a record on the channel, closing the stream, closing the
channel. -/
inductive Effect where
  | send (e : SseEvent)
  | closeReader
  | closeChan
  deriving DecidableEq, Repr

/-- The `for scanner.Scan()` loop of `streamSseResponse`: the records sent, in
order, and the scanner when the loop ends. `fuel` bounds the number of
iterations. -/
def streamLoop : Nat → Scanner → SseEvent → List SseEvent × Scanner
  | 0, s, _ => ([], s)
  | fuel + 1, s, currentEvent =>
    match s.Scan with
    | (none, s') => ([], s')
    | (some line, s') =>
      let currentEvent :=
        if HasPrefix line eventPrefix then
          { currentEvent with Event := TrimPrefix line eventPrefix }
        else currentEvent
      if HasPrefix line dataPrefix then
        let currentEvent :=
          { currentEvent with Data := TrimPrefix line dataPrefix,
                              dataGen := s'.gen,
                              dataOff := s'.tokAt + dataPrefix.length }
        let rest := streamLoop fuel s' SseEvent.empty
        (currentEvent :: rest.1, rest.2)
      else streamLoop fuel s' currentEvent

/-- The loop of `streamSseResponse` on the stream `r`: every `Scan` that
returns `true` uses up at least one byte of the stream, so `readBudget r + 1`
iterations are enough. -/
def runLoop (r : Reader) : List SseEvent × Scanner :=
  streamLoop (readBudget r + 1) (NewScanner r) SseEvent.empty

/-- The goroutine of `streamSseResponse(r)` with a consumer that receives every
record: the sends of the loop, then the deferred calls in the order Go runs
them, last deferred first (`r.Close()`, then `close(ch)`). -/
def streamSseResponse (r : Reader) : List Effect :=
  let deferred := [Effect.closeChan]
  let deferred := Effect.closeReader :: deferred
  (runLoop r).1.map Effect.send ++ deferred

/-- The records the consumer of `streamSseResponse(r)` receives: the event
type and payload of every send, in order. -/
def records (r : Reader) : List (List Byte × List Byte) :=
  (streamSseResponse r).filterMap fun
    | Effect.send e => some e.fields
    | _ => none

end SseClient

namespace SseClient

/-! ## Lines and records, as the specification describes them -/

/-- The lines of a byte sequence: the lines that end in a newline, without it,
and the bytes after the last newline. -/
def splitLines : List Byte → List (List Byte) × List Byte
  | [] => ([], [])
  | b :: bs =>
    if b = LF then ([] :: (splitLines bs).1, (splitLines bs).2)
    else
      match (splitLines bs).1 with
      | [] => ([], b :: (splitLines bs).2)
      | l :: ls => ((b :: l) :: ls, (splitLines bs).2)

/-- All lines of a byte sequence as the newlines delimit them, a last line
without a newline included (when it is not empty). -/
def rawLines (B : List Byte) : List (List Byte) :=
  (splitLines B).1 ++ (if (splitLines B).2 = [] then [] else [(splitLines B).2])

/-- The lines of a text as the scanner cuts them: the lines the newlines
delimit, each without the one carriage return that may end it (directly
before the newline, or at the end of a last line without a newline). -/
def lines (B : List Byte) : List (List Byte) := (rawLines B).map dropCR

/-- The text made of the lines `ls`, each ended by a newline. -/
def joinLines (ls : List (List Byte)) : List Byte := ls.flatMap (· ++ [LF])

/-- The text made of the lines `ls`, each ended by the bytes `term`. -/
def joinWith (term : List Byte) (ls : List (List Byte)) : List Byte :=
  ls.flatMap (· ++ term)

/-- A line that starts with `event:` or with `data:`; all other lines are
ignored. -/
def isField (l : List Byte) : Bool := HasPrefix l eventPrefix || HasPrefix l dataPrefix

/-- The records of a sequence of lines, `ev` being the event type of the
pending record: an `event:` line sets the pending event type, a `data:` line
completes the pending record and a new empty one begins. -/
def decode (ev : List Byte) : List (List Byte) → List (List Byte × List Byte)
  | [] => []
  | line :: rest =>
    let ev := if HasPrefix line eventPrefix then TrimPrefix line eventPrefix else ev
    if HasPrefix line dataPrefix then (ev, TrimPrefix line dataPrefix) :: decode [] rest
    else decode ev rest

/-- The payloads of the `data:` lines among `ls`: what follows the prefix. -/
def dataPayloads (ls : List (List Byte)) : List (List Byte) :=
  (ls.filter fun l => HasPrefix l dataPrefix).map fun l => l.drop dataPrefix.length

/-- The event type that is pending after some lines, given most recent line
first: the bytes after the prefix of the most recent `event:` line that comes
after the last `data:` line; `ev` when there is no such line and no `data:`
line either, empty when there is no such line after the last `data:` line. -/
def pendingFrom (ev : List Byte) : List (List Byte) → List Byte
  | [] => ev
  | l :: before =>
    if HasPrefix l dataPrefix then []
    else if HasPrefix l eventPrefix then l.drop eventPrefix.length
    else pendingFrom ev before

/-- The event type that is pending after the lines `before` of a stream, the
most recent line first. -/
def pendingEvent (before : List (List Byte)) : List Byte := pendingFrom [] before

/-- Every `event:` line among the lines is immediately followed by a `data:`
line. -/
def eventsPaired : List (List Byte) → Bool
  | [] => true
  | [l] => !HasPrefix l eventPrefix
  | l :: next :: rest =>
    (!HasPrefix l eventPrefix || HasPrefix next dataPrefix) && eventsPaired (next :: rest)

/-- The records of lines in which each `data:` line takes its event type from
the line immediately before it, `before`: what follows `event:` when that line
is an `event:` line, nothing otherwise. -/
def pairedRecords (before : List Byte) : List (List Byte) → List (List Byte × List Byte)
  | [] => []
  | l :: rest =>
    if HasPrefix l dataPrefix then
      (if HasPrefix before eventPrefix then before.drop eventPrefix.length else [],
        l.drop dataPrefix.length) :: pairedRecords l rest
    else pairedRecords l rest

/-! ## The lines the scanner finds -/

/-- The lines that the loop of `streamSseResponse` reads: the tokens of the
successive calls of `scanner.Scan()`, up to the first call that returns
`false`. -/
def scannedLines : Nat → Scanner → List (List Byte)
  | 0, _ => []
  | fuel + 1, s =>
    match s.Scan with
    | (none, _) => []
    | (some line, s') => line :: scannedLines fuel s'

/-- The tokens a scanner with token limit `M` produces for the lines `ls`
followed by the unterminated bytes `fin`: each line without its end-of-line
marker, up to the first line that does not fit. -/
def scanSpec (M : Nat) : List (List Byte) → List Byte → List (List Byte)
  | [], fin => if fin = [] ∨ M ≤ fin.length then [] else [dropCR fin]
  | l :: ls, fin => if l.length < M then dropCR l :: scanSpec M ls fin else []

/-- The next token of the bytes `R` that are still to be processed, and the
bytes that remain after it, for a scanner whose tokens are limited to `M`
bytes; `none` when scanning stops. -/
def nextTok (M : Nat) (R : List Byte) : Option (List Byte × List Byte) :=
  match IndexByte R LF with
  | some i => if i < M then some (dropCR (R.take i), R.drop (i + 1)) else none
  | none => if R = [] ∨ M ≤ R.length then none else some (dropCR R, [])

/-! ## Scanner states -/

/-- The stream `r` with every error it reports replaced by its image under
`f`; with `f := fun _ => Err.EOF` the stream that ends normally where `r`
fails. -/
def mapErrors (f : Err → Err) (r : Reader) : Reader :=
  r.map fun x => ⟨x.data, x.err.map f⟩

/-- The bytes of the payload of the record `e` as they are in memory when the
scanner is in the state `s`: the slice `e.Data` read in the backing array it
was taken from, which is the scanner's buffer or one of the arrays the scanner
has given up. -/
def SseEvent.dataNow (e : SseEvent) (s : Scanner) : List Byte :=
  if e.dataGen = s.gen then (s.buf.drop e.dataOff).take e.Data.length
  else ((s.old.getD e.dataGen []).drop e.dataOff).take e.Data.length

namespace Scanner

/-- The well-formedness of a scanner state that `Scan` maintains. -/
structure Inv (s : Scanner) : Prop where
  start_le : s.start ≤ s.stop
  stop_le : s.stop ≤ s.buf.length
  buf_le : s.buf.length ≤ s.cap
  cap_le : s.cap ≤ s.maxTokenSize
  max_pos : 0 < s.maxTokenSize
  max_le : s.maxTokenSize ≤ maxInt / 2

/-- The bytes the scanner has still to process: those in its buffer and, as
long as no read has failed, those the stream has still to deliver. -/
def rest (s : Scanner) : List Byte :=
  s.window ++ (if s.err.isSome then [] else delivered s.r)

/-- The number of iterations of the loop of `Scan` that are enough. -/
def need (s : Scanner) : Nat := if s.err.isSome then 1 else readBudget s.r + 2

/-- Two scanner states that differ only in which errors their streams report
and which error they have recorded. -/
structure Sim (f : Err → Err) (s t : Scanner) : Prop where
  r_eq : t.r = mapErrors f s.r
  max_eq : t.maxTokenSize = s.maxTokenSize
  buf_eq : t.buf = s.buf
  cap_eq : t.cap = s.cap
  start_eq : t.start = s.start
  stop_eq : t.stop = s.stop
  err_eq : t.err.isSome = s.err.isSome
  gen_eq : t.gen = s.gen
  tokAt_eq : t.tokAt = s.tokAt
  old_eq : t.old = s.old

end Scanner

/-! ## Streams and texts of the examples -/

/-- The text `data: a`, `data: b`, each line ended by a newline. -/
def dataAdataB : List Byte :=
  [100, 97, 116, 97, 58, 32, 97, 10, 100, 97, 116, 97, 58, 32, 98, 10]

/-- The text `event: ping`, `data: hello`, each line ended by a newline. -/
def pingHello : List Byte :=
  [101, 118, 101, 110, 116, 58, 32, 112, 105, 110, 103, 10,
   100, 97, 116, 97, 58, 32, 104, 101, 108, 108, 111, 10]

/-- The text `event: x` ended by a newline. -/
def eventX : List Byte := [101, 118, 101, 110, 116, 58, 32, 120, 10]

/-- The text `data: a`, a newline, `data: b`, the last line without a
newline, delivered by one read. -/
def twoDataLines : Reader :=
  [⟨[100, 97, 116, 97, 58, 32, 97, 10, 100, 97, 116, 97, 58, 32, 98], none⟩]

/-- A stream of two lines, `data:` followed by 2100 times `a` and `data:`
followed by 2100 times `b`, each delivered by a read of its own. -/
def twoReads : Reader :=
  [⟨dataPrefix ++ List.replicate 2100 97 ++ [LF], none⟩,
   ⟨dataPrefix ++ List.replicate 2100 98 ++ [LF], none⟩]

/-- A `data:` line of 65535 bytes. -/
def longestDataLine : List Byte := dataPrefix ++ List.replicate 65530 120

/-- A stream whose first line has 65536 bytes and whose second line is
`data: a`. -/
def longLineThenData : Reader :=
  [⟨joinLines [List.replicate MaxScanTokenSize 120, [100, 97, 116, 97, 58, 32, 97]], none⟩]

/-- A stream whose first line has 65536 bytes, followed by the lines
`event: ping` and `data: hello`. -/
def longLineThenPair : Reader :=
  [⟨joinLines [List.replicate MaxScanTokenSize 120,
      [101, 118, 101, 110, 116, 58, 32, 112, 105, 110, 103],
      [100, 97, 116, 97, 58, 32, 104, 101, 108, 108, 111]], none⟩]

/-- A stream of three lines: a line of 65536 bytes, `data: a`, and a line of
65537 bytes. -/
def boundaryLineFirst : Reader :=
  [⟨joinLines [List.replicate MaxScanTokenSize 120, [100, 97, 116, 97, 58, 32, 97],
      List.replicate (MaxScanTokenSize + 1) 120], none⟩]

/-- A stream of three lines: `data: a`, a line of 65536 bytes, and `data: b`. -/
def dataLongData : Reader :=
  [⟨joinLines [[100, 97, 116, 97, 58, 32, 97], List.replicate MaxScanTokenSize 120,
      [100, 97, 116, 97, 58, 32, 98]], none⟩]

/-- A stream whose only line is `data: a` followed by a carriage return, with
no newline. -/
def dataCRAtEnd : Reader := [⟨[100, 97, 116, 97, 58, 32, 97, 13], none⟩]

/-- A `data:` line of 65536 bytes. -/
def fullDataLine : List Byte := dataPrefix ++ List.replicate 65531 120

/-- A stream whose only line is `fullDataLine`, without a newline, and which
reports its end with the read that delivers the last bytes. -/
def fullLineAtEnd : Reader := [⟨fullDataLine, some Err.EOF⟩]

/-- The stream `fullLineAtEnd` with the line `event: x` appended: the lines
`fullDataLine` and `event: x`, each ended by a newline. -/
def fullLineThenEvent : Reader :=
  [⟨joinLines [fullDataLine, [101, 118, 101, 110, 116, 58, 32, 120]], some Err.EOF⟩]

end SseClient

namespace Handlers

/-! ## The ModelConfig handlers: data -/

/-- Modelled from the spec: the constant `v1alpha1.OpenAI` of type
`ModelProvider` (a string), whose declaration is not among the sources. -/
def OpenAI : String := "OpenAI"

/-- Modelled from the spec: the constant `v1alpha1.Anthropic`, whose
declaration is not among the sources. -/
def Anthropic : String := "Anthropic"

/-- Modelled from the spec: the constant `v1alpha1.AzureOpenAI`, whose
declaration is not among the sources. -/
def AzureOpenAI : String := "AzureOpenAI"

/-- Modelled from the spec: the constant `v1alpha1.Ollama`, whose declaration
is not among the sources. -/
def Ollama : String := "Ollama"

/-- Modelled from the spec: the constant `v1alpha1.GeminiVertexAI`, whose
declaration is not among the sources. -/
def GeminiVertexAI : String := "GeminiVertexAI"

/-- Modelled from the spec: the constant `v1alpha1.AnthropicVertexAI`, whose
declaration is not among the sources. -/
def AnthropicVertexAI : String := "AnthropicVertexAI"

/-- Modelled from the spec: `v1alpha1.OpenAIConfig`, whose declaration is not
among the sources; the handlers only pass it on. -/
structure OpenAIConfig where
  params : List (String × String)
  deriving DecidableEq, Repr

/-- Modelled from the spec: `v1alpha1.AnthropicConfig`, whose declaration is
not among the sources; the handlers only pass it on. -/
structure AnthropicConfig where
  params : List (String × String)
  deriving DecidableEq, Repr

/-- Modelled from the spec: `v1alpha1.OllamaConfig`, whose declaration is not
among the sources; the handlers only pass it on. -/
structure OllamaConfig where
  params : List (String × String)
  deriving DecidableEq, Repr

/-- Modelled from the spec: `v1alpha1.AzureOpenAIConfig`, whose declaration is
not among the sources; the fields the handlers read, and the rest. -/
structure AzureOpenAIConfig where
  Endpoint : String
  APIVersion : String
  params : List (String × String)
  deriving DecidableEq, Repr

/-- Modelled from the spec: `v1alpha1.GeminiVertexAIConfig`, whose declaration
is not among the sources; the fields the handlers read, and the rest. -/
structure GeminiVertexAIConfig where
  ProjectID : String
  Location : String
  params : List (String × String)
  deriving DecidableEq, Repr

/-- Modelled from the spec: `v1alpha1.AnthropicVertexAIConfig`, whose
declaration is not among the sources; the fields the handlers read, and the
rest. -/
structure AnthropicVertexAIConfig where
  ProjectID : String
  Location : String
  params : List (String × String)
  deriving DecidableEq, Repr

/-- Modelled from the spec: `v1alpha1.ModelConfigSpec`, whose declaration is
not among the sources; the fields the handlers read and write. -/
structure ModelConfigSpec where
  Model : String
  Provider : String
  APIKeySecretRef : String
  APIKeySecretKey : String
  OpenAI : Option OpenAIConfig
  Anthropic : Option AnthropicConfig
  AzureOpenAI : Option AzureOpenAIConfig
  Ollama : Option OllamaConfig
  GeminiVertexAI : Option GeminiVertexAIConfig
  AnthropicVertexAI : Option AnthropicVertexAIConfig
  deriving DecidableEq, Repr

/-- Modelled from the spec: `v1alpha1.ModelConfig`, whose declaration is not
among the sources. All objects live in the one resource namespace
(`common.GetResourceNamespace()`), which is left out. -/
structure ModelConfig where
  Name : String
  Spec : ModelConfigSpec
  deriving DecidableEq, Repr

/-- A `corev1.Secret`: its name and its `StringData`. -/
structure Secret where
  Name : String
  StringData : List (String × String)
  deriving DecidableEq, Repr

/-- Go `Provider`; `Type_` is its field `Type`. -/
structure Provider where
  Name : String
  Type_ : String
  deriving DecidableEq, Repr

/-- Go `CreateModelConfigRequest`. -/
structure CreateModelConfigRequest where
  Name : String
  Provider : Provider
  Model : String
  APIKey : String
  OpenAIParams : Option OpenAIConfig
  AnthropicParams : Option AnthropicConfig
  AzureParams : Option AzureOpenAIConfig
  OllamaParams : Option OllamaConfig
  GeminiParams : Option GeminiVertexAIConfig
  AnthropicVertexParams : Option AnthropicVertexAIConfig
  deriving DecidableEq, Repr

/-- Go `UpdateModelConfigRequest`; `APIKey` is a `*string`. -/
structure UpdateModelConfigRequest where
  Provider : Provider
  Model : String
  APIKey : Option String
  OpenAIParams : Option OpenAIConfig
  AnthropicParams : Option AnthropicConfig
  AzureParams : Option AzureOpenAIConfig
  OllamaParams : Option OllamaConfig
  GeminiParams : Option GeminiVertexAIConfig
  AnthropicVertexParams : Option AnthropicVertexAIConfig
  deriving DecidableEq, Repr

/-! ## The Kubernetes client -/

/-- The kinds of objects the handlers store. -/
inductive Kind where
  | modelConfig
  | secret
  deriving DecidableEq, Repr

/-- The calls of `h.KubeClient`. -/
inductive Call where
  | get (kind : Kind) (name : String)
  | create (kind : Kind) (name : String)
  | update (kind : Kind) (name : String)
  | delete (kind : Kind) (name : String)
  deriving DecidableEq, Repr

/-- The errors of a client call: `IsNotFound`, `IsAlreadyExists`, any other. -/
inductive KubeErr where
  | notFound
  | alreadyExists
  | other
  deriving DecidableEq, Repr

/-- Modelled from the spec: the key-value resource store behind
`h.KubeClient`, whose implementation is not among the sources: the objects of
the resource namespace by name, and `failing`, the calls that the store
answers with an error other than NotFound and AlreadyExists and without any
effect. -/
structure Kube where
  modelConfigs : List ModelConfig
  secrets : List Secret
  failing : List Call
  deriving DecidableEq, Repr

namespace Kube

/-- The call `KubeClient.Get` for a ModelConfig. -/
def getModelConfig (k : Kube) (name : String) : Except KubeErr ModelConfig :=
  if Call.get Kind.modelConfig name ∈ k.failing then Except.error KubeErr.other
  else
    match k.modelConfigs.find? (fun c => c.Name = name) with
    | some c => Except.ok c
    | none => Except.error KubeErr.notFound

/-- The call `KubeClient.Get` for a Secret. -/
def getSecret (k : Kube) (name : String) : Except KubeErr Secret :=
  if Call.get Kind.secret name ∈ k.failing then Except.error KubeErr.other
  else
    match k.secrets.find? (fun s => s.Name = name) with
    | some s => Except.ok s
    | none => Except.error KubeErr.notFound

/-- The call `KubeClient.Create` for a ModelConfig. -/
def createModelConfig (k : Kube) (c : ModelConfig) : Except KubeErr Kube :=
  if Call.create Kind.modelConfig c.Name ∈ k.failing then Except.error KubeErr.other
  else if k.modelConfigs.any (fun x => x.Name = c.Name) then Except.error KubeErr.alreadyExists
  else Except.ok { k with modelConfigs := c :: k.modelConfigs }

/-- The call `KubeClient.Create` for a Secret. -/
def createSecret (k : Kube) (s : Secret) : Except KubeErr Kube :=
  if Call.create Kind.secret s.Name ∈ k.failing then Except.error KubeErr.other
  else if k.secrets.any (fun x => x.Name = s.Name) then Except.error KubeErr.alreadyExists
  else Except.ok { k with secrets := s :: k.secrets }

/-- The call `KubeClient.Update` for a ModelConfig. -/
def updateModelConfig (k : Kube) (c : ModelConfig) : Except KubeErr Kube :=
  if Call.update Kind.modelConfig c.Name ∈ k.failing then Except.error KubeErr.other
  else if k.modelConfigs.any (fun x => x.Name = c.Name) then
    Except.ok { k with modelConfigs := k.modelConfigs.map fun x => if x.Name = c.Name then c else x }
  else Except.error KubeErr.notFound

/-- The call `KubeClient.Update` for a Secret. -/
def updateSecret (k : Kube) (s : Secret) : Except KubeErr Kube :=
  if Call.update Kind.secret s.Name ∈ k.failing then Except.error KubeErr.other
  else if k.secrets.any (fun x => x.Name = s.Name) then
    Except.ok { k with secrets := k.secrets.map fun x => if x.Name = s.Name then s else x }
  else Except.error KubeErr.notFound

/-- The call `KubeClient.Delete` for a Secret. -/
def deleteSecret (k : Kube) (s : Secret) : Except KubeErr Kube :=
  if Call.delete Kind.secret s.Name ∈ k.failing then Except.error KubeErr.other
  else if k.secrets.any (fun x => x.Name = s.Name) then
    Except.ok { k with secrets := k.secrets.filter fun x => x.Name ≠ s.Name }
  else Except.error KubeErr.notFound

end Kube

/-! ## The handlers -/

/-- What a handler answers: `w.RespondWithError` with one of the errors of the
package `errors`, or `RespondWithJSON` with a status and a ModelConfig. -/
inductive Response where
  | badRequest (message : String)
  | notFound (message : String)
  | conflict (message : String)
  | internalServerError (message : String)
  | created (c : ModelConfig)
  | ok (c : ModelConfig)
  deriving DecidableEq, Repr

/-- Whether the answer is a bad-request error. -/
def Response.isBadRequest : Response → Bool
  | Response.badRequest _ => true
  | _ => false

/-- What a handler has done when it returns: its answer, the store, and the
calls it made to the client, in order. -/
structure Outcome where
  response : Response
  kube : Kube
  calls : List Call
  deriving DecidableEq, Repr

/-- Go `fmt.Sprintf("%s_API_KEY", strings.ToUpper(providerType))`. Lean's
`toUpper` maps the ASCII letters only: it agrees with `strings.ToUpper` on the
provider types made of ASCII characters, the six providers among them; for a
provider type with other letters, which the handlers reject, the key Go
builds may differ. -/
def secretKeyOf (providerType : String) : String := providerType.toUpper ++ "_API_KEY"

/-- Modelled from the spec: the helper `CreateSecret(kubeClient, name,
namespace, data)`, whose definition is not among the sources: it creates the
secret `name` holding `data` through the client and returns it. -/
def CreateSecret (k : Kube) (name : String) (data : List (String × String)) :
    Except KubeErr (Secret × Kube) :=
  match k.createSecret { Name := name, StringData := data } with
  | Except.ok k' => Except.ok ({ Name := name, StringData := data }, k')
  | Except.error e => Except.error e

/-- The state of `HandleCreateModelConfig` after its first part: the store, the
spec built so far, the variable `secret`, and the calls made. -/
structure CreateState where
  kube : Kube
  spec : ModelConfigSpec
  secret : Secret
  calls : List Call
  deriving DecidableEq, Repr

/-- The first part of `HandleCreateModelConfig` for a decoded request (lines
200 to 241): the existence check and the creation of the secret. The result is
the answer when the handler returns here. -/
def createPrelude (k : Kube) (req : CreateModelConfigRequest) : Except Outcome CreateState :=
  let calls := [Call.get Kind.modelConfig req.Name]
  match k.getModelConfig req.Name with
  | Except.ok _ =>
    Except.error ⟨Response.conflict "Model config already exists", k, calls⟩
  | Except.error e =>
    if e ≠ KubeErr.notFound then
      Except.error
        ⟨Response.internalServerError "Failed to check if model config exists", k, calls⟩
    else
      let providerTypeEnum := req.Provider.Type_
      let modelConfigSpec : ModelConfigSpec :=
        { Model := req.Model, Provider := providerTypeEnum,
          APIKeySecretRef := "", APIKeySecretKey := "",
          OpenAI := none, Anthropic := none, AzureOpenAI := none, Ollama := none,
          GeminiVertexAI := none, AnthropicVertexAI := none }
      let secret : Secret := { Name := "", StringData := [] }
      if providerTypeEnum = Ollama ∨ req.APIKey = "" then
        Except.ok ⟨k, modelConfigSpec, secret, calls⟩
      else
        let apiKey := req.APIKey
        let secretName := req.Name
        let secretKey := secretKeyOf req.Provider.Type_
        let calls := calls ++ [Call.create Kind.secret secretName]
        match CreateSecret k secretName [(secretKey, apiKey)] with
        | Except.error _ =>
          Except.error
            ⟨Response.internalServerError "Failed to create API key secret", k, calls⟩
        | Except.ok (secret, k') =>
          Except.ok ⟨k', { modelConfigSpec with APIKeySecretRef := secretName,
                                                 APIKeySecretKey := secretKey }, secret, calls⟩

/-- The `switch providerTypeEnum` of `HandleCreateModelConfig` (lines 251 to
312): the spec with the provider's parameters assigned, or the message of
`providerConfigErr`. -/
def createProviderConfig (req : CreateModelConfigRequest) (spec : ModelConfigSpec) :
    Except String ModelConfigSpec :=
  let providerTypeEnum := req.Provider.Type_
  if providerTypeEnum = OpenAI then
    match req.OpenAIParams with
    | some p => Except.ok { spec with OpenAI := some p }
    | none => Except.ok spec
  else if providerTypeEnum = Anthropic then
    match req.AnthropicParams with
    | some p => Except.ok { spec with Anthropic := some p }
    | none => Except.ok spec
  else if providerTypeEnum = AzureOpenAI then
    match req.AzureParams with
    | none => Except.error "azureOpenAI parameters are required for AzureOpenAI provider"
    | some p =>
      if p.Endpoint = "" ∨ p.APIVersion = "" then
        Except.error "missing required AzureOpenAI parameters: azureEndpoint, apiVersion"
      else Except.ok { spec with AzureOpenAI := some p }
  else if providerTypeEnum = Ollama then
    match req.OllamaParams with
    | some p => Except.ok { spec with Ollama := some p }
    | none => Except.ok spec
  else if providerTypeEnum = GeminiVertexAI then
    match req.GeminiParams with
    | none => Except.error "geminiVertexAI parameters are required for GeminiVertexAI provider"
    | some p =>
      if p.ProjectID = "" ∨ p.Location = "" then
        Except.error "missing required GeminiVertexAI parameters: projectID, location"
      else Except.ok { spec with GeminiVertexAI := some p }
  else if providerTypeEnum = AnthropicVertexAI then
    match req.AnthropicVertexParams with
    | none =>
      Except.error "anthropicVertexAI parameters are required for AnthropicVertexAI provider"
    | some p =>
      if p.ProjectID = "" ∨ p.Location = "" then
        Except.error "missing required AnthropicVertexAI parameters: projectID, location"
      else Except.ok { spec with AnthropicVertexAI := some p }
  else Except.error ("unsupported provider type: " ++ req.Provider.Type_)

/-- The cleanup of `HandleCreateModelConfig`: unless the provider is Ollama,
`h.KubeClient.Delete(r.Context(), secret)`, whose error is only logged. -/
def createCleanup (req : CreateModelConfigRequest) (st : CreateState) : Kube × List Call :=
  if req.Provider.Type_ ≠ Ollama then
    match st.kube.deleteSecret st.secret with
    | Except.ok k' => (k', st.calls ++ [Call.delete Kind.secret st.secret.Name])
    | Except.error _ => (st.kube, st.calls ++ [Call.delete Kind.secret st.secret.Name])
  else (st.kube, st.calls)

/-- Go `ModelConfigHandler.HandleCreateModelConfig`; `body` is the decoded
request body, `none` when decoding fails. -/
def HandleCreateModelConfig (k : Kube) (body : Option CreateModelConfigRequest) : Outcome :=
  match body with
  | none => ⟨Response.badRequest "Invalid request body", k, []⟩
  | some req =>
    match createPrelude k req with
    | Except.error out => out
    | Except.ok st =>
      match createProviderConfig req st.spec with
      | Except.error providerConfigErr =>
        let cleaned := createCleanup req st
        ⟨Response.badRequest providerConfigErr, cleaned.1, cleaned.2⟩
      | Except.ok spec =>
        let modelConfig : ModelConfig := { Name := req.Name, Spec := spec }
        let calls := st.calls ++ [Call.create Kind.modelConfig req.Name]
        match st.kube.createModelConfig modelConfig with
        | Except.error _ =>
          let cleaned := createCleanup req { st with calls := calls }
          ⟨Response.internalServerError "Failed to create model config", cleaned.1, cleaned.2⟩
        | Except.ok k' => ⟨Response.created modelConfig, k', calls⟩

/-- The state of `HandleUpdateModelConfig` after its first part: the store, the
ModelConfig with its new spec, and the calls made. -/
structure UpdateState where
  kube : Kube
  modelConfig : ModelConfig
  calls : List Call
  deriving DecidableEq, Repr

/-- Setting `m[key] = value` in the `StringData` of a secret. -/
def setStringData (m : List (String × String)) (key value : String) : List (String × String) :=
  (key, value) :: m.filter fun kv => kv.1 ≠ key

/-- The first part of `HandleUpdateModelConfig` for a decoded request (lines
378 to 444): reading the ModelConfig, replacing its spec, and updating the
secret. The result is the answer when the handler returns here. -/
def updatePrelude (k : Kube) (configName : String) (req : UpdateModelConfigRequest) :
    Except Outcome UpdateState :=
  let calls := [Call.get Kind.modelConfig configName]
  match k.getModelConfig configName with
  | Except.error e =>
    if e = KubeErr.notFound then
      Except.error ⟨Response.notFound "Model config not found", k, calls⟩
    else Except.error ⟨Response.internalServerError "Failed to get model config", k, calls⟩
  | Except.ok modelConfig =>
    let spec : ModelConfigSpec :=
      { Model := req.Model, Provider := req.Provider.Type_,
        APIKeySecretRef := "", APIKeySecretKey := "",
        OpenAI := none, Anthropic := none, AzureOpenAI := none, Ollama := none,
        GeminiVertexAI := none, AnthropicVertexAI := none }
    let modelConfig := { modelConfig with Spec := spec }
    match req.APIKey with
    | none => Except.ok ⟨k, modelConfig, calls⟩
    | some apiKey =>
      let shouldUpdateSecret := apiKey ≠ "" ∧ spec.Provider ≠ Ollama
      if ¬ shouldUpdateSecret then Except.ok ⟨k, modelConfig, calls⟩
      else
        let secretName := configName
        let secretKey := secretKeyOf req.Provider.Type_
        let calls := calls ++ [Call.get Kind.secret secretName]
        let withRef : ModelConfig :=
          { modelConfig with Spec := { spec with APIKeySecretRef := secretName,
                                                 APIKeySecretKey := secretKey } }
        match k.getSecret secretName with
        | Except.error KubeErr.notFound =>
          let calls := calls ++ [Call.create Kind.secret secretName]
          match k.createSecret { Name := secretName, StringData := [(secretKey, apiKey)] } with
          | Except.error _ =>
            Except.error
              ⟨Response.internalServerError "Failed to create API key secret", k, calls⟩
          | Except.ok k' => Except.ok ⟨k', withRef, calls⟩
        | Except.error _ =>
          Except.error ⟨Response.internalServerError "Failed to get API key secret", k, calls⟩
        | Except.ok existingSecret =>
          let calls := calls ++ [Call.update Kind.secret secretName]
          let existingSecret :=
            { existingSecret with
              StringData := setStringData existingSecret.StringData secretKey apiKey }
          match k.updateSecret existingSecret with
          | Except.error _ =>
            Except.error
              ⟨Response.internalServerError "Failed to update API key secret", k, calls⟩
          | Except.ok k' => Except.ok ⟨k', withRef, calls⟩

/-- The `switch modelConfig.Spec.Provider` of `HandleUpdateModelConfig` (lines
446 to 509): the spec with the provider's parameters assigned, or the message
of `providerConfigErr`. -/
def updateProviderConfig (req : UpdateModelConfigRequest) (spec : ModelConfigSpec) :
    Except String ModelConfigSpec :=
  if spec.Provider = OpenAI then
    match req.OpenAIParams with
    | some p => Except.ok { spec with OpenAI := some p }
    | none => Except.ok spec
  else if spec.Provider = Anthropic then
    match req.AnthropicParams with
    | some p => Except.ok { spec with Anthropic := some p }
    | none => Except.ok spec
  else if spec.Provider = AzureOpenAI then
    match req.AzureParams with
    | none => Except.error "azureOpenAI parameters are required when provider is AzureOpenAI"
    | some p =>
      if p.Endpoint = "" ∨ p.APIVersion = "" then
        Except.error "missing required AzureOpenAI parameters: azureEndpoint, apiVersion"
      else Except.ok { spec with AzureOpenAI := some p }
  else if spec.Provider = Ollama then
    match req.OllamaParams with
    | some p => Except.ok { spec with Ollama := some p }
    | none => Except.ok spec
  else if spec.Provider = GeminiVertexAI then
    match req.GeminiParams with
    | none => Except.error "geminiVertexAI parameters are required for GeminiVertexAI provider"
    | some p =>
      if p.ProjectID = "" ∨ p.Location = "" then
        Except.error "missing required GeminiVertexAI parameters: projectID, location"
      else Except.ok { spec with GeminiVertexAI := some p }
  else if spec.Provider = AnthropicVertexAI then
    match req.AnthropicVertexParams with
    | none =>
      Except.error "anthropicVertexAI parameters are required for AnthropicVertexAI provider"
    | some p =>
      if p.ProjectID = "" ∨ p.Location = "" then
        Except.error "missing required AnthropicVertexAI parameters: projectID, location"
      else Except.ok { spec with AnthropicVertexAI := some p }
  else Except.error ("unsupported provider type specified: " ++ req.Provider.Type_)

/-- Go `ModelConfigHandler.HandleUpdateModelConfig`; `configName` is the path
parameter and `body` the decoded request body, each `none` when it cannot be
obtained. The answer to a successful update is given as the stored ModelConfig
(the response item repeats its name and spec). -/
def HandleUpdateModelConfig (k : Kube) (configName : Option String)
    (body : Option UpdateModelConfigRequest) : Outcome :=
  match configName with
  | none => ⟨Response.badRequest "Failed to get config name from path", k, []⟩
  | some configName =>
    match body with
    | none => ⟨Response.badRequest "Invalid request body", k, []⟩
    | some req =>
      match updatePrelude k configName req with
      | Except.error out => out
      | Except.ok st =>
        match updateProviderConfig req st.modelConfig.Spec with
        | Except.error providerConfigErr =>
          ⟨Response.badRequest providerConfigErr, st.kube, st.calls⟩
        | Except.ok spec =>
          let modelConfig := { st.modelConfig with Spec := spec }
          let calls := st.calls ++ [Call.update Kind.modelConfig modelConfig.Name]
          match st.kube.updateModelConfig modelConfig with
          | Except.error _ =>
            ⟨Response.internalServerError "Failed to update model config", st.kube, calls⟩
          | Except.ok k' => ⟨Response.ok modelConfig, k', calls⟩

/-! ## Provider validation, as the claims describe it -/

/-- The provider configurations that are rejected: the provider type is none
of the six providers, or it is AzureOpenAI with its parameters absent or with
an empty Endpoint or APIVersion, or it is GeminiVertexAI or AnthropicVertexAI
with the matching parameters absent or with an empty ProjectID or Location. -/
def invalidProviderConfig (providerType : String) (azure : Option AzureOpenAIConfig)
    (gemini : Option GeminiVertexAIConfig) (anthropicVertex : Option AnthropicVertexAIConfig) :
    Prop :=
  providerType ∉ [OpenAI, Anthropic, AzureOpenAI, Ollama, GeminiVertexAI, AnthropicVertexAI] ∨
  (providerType = AzureOpenAI ∧
    (azure = none ∨ ∃ p, azure = some p ∧ (p.Endpoint = "" ∨ p.APIVersion = ""))) ∨
  (providerType = GeminiVertexAI ∧
    (gemini = none ∨ ∃ p, gemini = some p ∧ (p.ProjectID = "" ∨ p.Location = ""))) ∨
  (providerType = AnthropicVertexAI ∧
    (anthropicVertex = none ∨
      ∃ p, anthropicVertex = some p ∧ (p.ProjectID = "" ∨ p.Location = "")))

/-! ## Secrets and failures, as the claims describe them -/

/-- Whether the answer is an error (any answer but `created` and `ok`). -/
def Response.isError : Response → Bool
  | Response.created _ => false
  | Response.ok _ => false
  | _ => true

/-- A call that creates a secret. -/
def Call.isCreateSecret : Call → Bool
  | Call.create Kind.secret _ => true
  | _ => false

/-- A call that reads or writes a secret. -/
def Call.isSecretCall : Call → Bool
  | Call.get Kind.secret _ => true
  | Call.create Kind.secret _ => true
  | Call.update Kind.secret _ => true
  | Call.delete Kind.secret _ => true
  | _ => false

/-- The spec `HandleCreateModelConfig` starts from: model and provider of the
request, nothing else set. -/
def createSpec (req : CreateModelConfigRequest) : ModelConfigSpec :=
  { Model := req.Model, Provider := req.Provider.Type_,
    APIKeySecretRef := "", APIKeySecretKey := "",
    OpenAI := none, Anthropic := none, AzureOpenAI := none, Ollama := none,
    GeminiVertexAI := none, AnthropicVertexAI := none }

/-- The spec `HandleUpdateModelConfig` puts in the place of the stored one:
model and provider of the request, nothing else set. -/
def updateSpec (req : UpdateModelConfigRequest) : ModelConfigSpec :=
  { Model := req.Model, Provider := req.Provider.Type_,
    APIKeySecretRef := "", APIKeySecretKey := "",
    OpenAI := none, Anthropic := none, AzureOpenAI := none, Ollama := none,
    GeminiVertexAI := none, AnthropicVertexAI := none }

/-- The update requests for which `shouldUpdateSecret` is false: no apiKey, an
empty apiKey, or the provider Ollama. -/
def UpdateModelConfigRequest.keepsSecret (req : UpdateModelConfigRequest) : Prop :=
  req.APIKey = none ∨ req.APIKey = some "" ∨ req.Provider.Type_ = Ollama

instance (req : UpdateModelConfigRequest) : Decidable req.keepsSecret := by
  unfold UpdateModelConfigRequest.keepsSecret
  infer_instance

/-- The provider types whose params block is set in a spec. -/
def ModelConfigSpec.paramsSet (s : ModelConfigSpec) : List String :=
  (if s.OpenAI.isSome then [Handlers.OpenAI] else []) ++
  (if s.Anthropic.isSome then [Handlers.Anthropic] else []) ++
  (if s.AzureOpenAI.isSome then [Handlers.AzureOpenAI] else []) ++
  (if s.Ollama.isSome then [Handlers.Ollama] else []) ++
  (if s.GeminiVertexAI.isSome then [Handlers.GeminiVertexAI] else []) ++
  (if s.AnthropicVertexAI.isSome then [Handlers.AnthropicVertexAI] else [])

/-- The secret `HandleCreateModelConfig` creates for a request: named after
the request, holding the API key under the key of the provider type. -/
def createdSecret (req : CreateModelConfigRequest) : Secret :=
  { Name := req.Name, StringData := [(secretKeyOf req.Provider.Type_, req.APIKey)] }

/-- Whether the switch rejects the configuration (`providerConfigErr != nil`). -/
def rejected : Except String ModelConfigSpec → Bool
  | Except.error _ => true
  | Except.ok _ => false

/-- A store that holds nothing and never fails. -/
def emptyKube : Kube := { modelConfigs := [], secrets := [], failing := [] }

/-- A create request for the provider AzureOpenAI without `azureOpenAI`
parameters. -/
def azureWithoutParams : CreateModelConfigRequest :=
  { Name := "m", Provider := { Name := "azure", Type_ := "AzureOpenAI" }, Model := "gpt",
    APIKey := "", OpenAIParams := none, AnthropicParams := none, AzureParams := none,
    OllamaParams := none, GeminiParams := none, AnthropicVertexParams := none }

/-- The state of `HandleCreateModelConfig` for `azureWithoutParams` on the
empty store when it reaches the provider switch: no secret was created. -/
def azureState : CreateState :=
  { kube := emptyKube,
    spec := { Model := "gpt", Provider := "AzureOpenAI", APIKeySecretRef := "",
              APIKeySecretKey := "", OpenAI := none, Anthropic := none, AzureOpenAI := none,
              Ollama := none, GeminiVertexAI := none, AnthropicVertexAI := none },
    secret := { Name := "", StringData := [] },
    calls := [Call.get Kind.modelConfig "m"] }

/-- A create request for the provider OpenAI with an API key. -/
def openAIWithKey : CreateModelConfigRequest :=
  { Name := "m", Provider := { Name := "openai", Type_ := "OpenAI" }, Model := "gpt",
    APIKey := "sk-1", OpenAIParams := none, AnthropicParams := none, AzureParams := none,
    OllamaParams := none, GeminiParams := none, AnthropicVertexParams := none }

/-- A create request for the provider Ollama that carries an API key. -/
def ollamaWithKey : CreateModelConfigRequest :=
  { Name := "m", Provider := { Name := "ollama", Type_ := "Ollama" }, Model := "llama",
    APIKey := "sk-1", OpenAIParams := none, AnthropicParams := none, AzureParams := none,
    OllamaParams := none, GeminiParams := none, AnthropicVertexParams := none }

/-- A create request for the provider AzureOpenAI with an API key and without
`azureOpenAI` parameters. -/
def azureWithKey : CreateModelConfigRequest :=
  { azureWithoutParams with APIKey := "sk-1" }

/-- A store that never fails and holds the ModelConfig `m` of provider OpenAI,
which refers to the secret `m`, and that secret. -/
def storeWithM : Kube :=
  { modelConfigs :=
      [{ Name := "m",
         Spec := { Model := "gpt", Provider := "OpenAI", APIKeySecretRef := "m",
                   APIKeySecretKey := "OPENAI_API_KEY", OpenAI := none, Anthropic := none,
                   AzureOpenAI := none, Ollama := none, GeminiVertexAI := none,
                   AnthropicVertexAI := none } }],
    secrets := [{ Name := "m", StringData := [] }],
    failing := [] }

/-- An update request for the provider AzureOpenAI with an API key and without
`azureOpenAI` parameters. -/
def azureUpdateWithKey : UpdateModelConfigRequest :=
  { Provider := { Name := "azure", Type_ := "AzureOpenAI" }, Model := "gpt",
    APIKey := some "sk-2", OpenAIParams := none, AnthropicParams := none, AzureParams := none,
    OllamaParams := none, GeminiParams := none, AnthropicVertexParams := none }

/-- An update request for the provider OpenAI without an API key. -/
def openAIUpdateWithoutKey : UpdateModelConfigRequest :=
  { Provider := { Name := "openai", Type_ := "OpenAI" }, Model := "gpt-4",
    APIKey := none, OpenAIParams := none, AnthropicParams := none, AzureParams := none,
    OllamaParams := none, GeminiParams := none, AnthropicVertexParams := none }

/-- The ModelConfig `m` after the update with `openAIUpdateWithoutKey`. -/
def updatedM : ModelConfig :=
  { Name := "m",
    Spec := { Model := "gpt-4", Provider := "OpenAI", APIKeySecretRef := "",
              APIKeySecretKey := "", OpenAI := none, Anthropic := none,
              AzureOpenAI := none, Ollama := none, GeminiVertexAI := none,
              AnthropicVertexAI := none } }

end Handlers

namespace SseClient

/-! ## Lemmas: `IndexByte` -/

theorem IndexByte_eq_none {l : List Byte} {c : Byte} : IndexByte l c = none ↔ c ∉ l := by
  induction l with
  | nil => simp [IndexByte]
  | cons x xs ih =>
    simp only [IndexByte]
    by_cases h : x = c
    · simp [h]
    · simp [h, ih, Ne.symm h]

theorem IndexByte_append_cons (a b : List Byte) (c : Byte) (h : c ∉ a) :
    IndexByte (a ++ c :: b) c = some a.length := by
  induction a with
  | nil => simp [IndexByte]
  | cons x xs ih =>
    simp only [List.mem_cons, not_or] at h
    simp [IndexByte, Ne.symm h.1, ih h.2]

theorem IndexByte_eq_some {l : List Byte} {c : Byte} {i : Nat} (h : IndexByte l c = some i) :
    l = l.take i ++ c :: l.drop (i + 1) ∧ c ∉ l.take i ∧ i < l.length := by
  induction l generalizing i with
  | nil => simp [IndexByte] at h
  | cons x xs ih =>
    simp only [IndexByte] at h
    by_cases hx : x = c
    · simp [hx] at h
      subst h
      simp [hx]
    · simp only [hx, if_false, Option.map_eq_some'] at h
      obtain ⟨j, hj, rfl⟩ := h
      obtain ⟨h1, h2, h3⟩ := ih hj
      refine ⟨?_, ?_, ?_⟩
      · simp only [List.take_succ_cons, List.drop_succ_cons, List.cons_append]
        rw [← h1]
      · simp [List.take_succ_cons, Ne.symm hx, h2]
      · simp; omega

theorem IndexByte_append_of_some {w x : List Byte} {c : Byte} {i : Nat}
    (h : IndexByte w c = some i) : IndexByte (w ++ x) c = some i := by
  obtain ⟨h1, h2, h3⟩ := IndexByte_eq_some h
  have : w ++ x = w.take i ++ c :: (w.drop (i + 1) ++ x) := by
    conv_lhs => rw [h1]
    simp
  rw [this, IndexByte_append_cons _ _ _ h2]
  simp [List.length_take, Nat.min_eq_left (Nat.le_of_lt h3)]

end SseClient

namespace SseClient

/-! ## Lemmas: reading from the stream -/

theorem Read_cons_lt (d : List Byte) (e : Option Err) (rest : Reader) (k : Nat)
    (h : k < d.length) : Read (⟨d, e⟩ :: rest) k = (d.take k, none, ⟨d.drop k, e⟩ :: rest) := by
  simp [Read, h]

theorem Read_cons_whole (d : List Byte) (e : Option Err) (rest : Reader) (k : Nat)
    (h : d.length ≤ k) : Read (⟨d, e⟩ :: rest) k = (d, e, rest) := by
  simp only [Read, Nat.not_lt.mpr h, if_false]

/-- The read loop on a stream whose next result has more bytes than fit. -/
theorem readLoop_cons_lt (left : Nat) (d : List Byte) (e : Option Err) (rest : Reader) (k : Nat)
    (hk : 0 < k) (h : k < d.length) :
    readLoop left (⟨d, e⟩ :: rest) k = (d.take k, none, ⟨d.drop k, e⟩ :: rest) := by
  have hl : 0 < (d.take k).length := by rw [List.length_take]; omega
  cases left <;> simp only [readLoop, Read_cons_lt d e rest k h, if_pos hl]

/-- The read loop on a stream whose next result fits and reports an error. -/
theorem readLoop_cons_err (left : Nat) (d : List Byte) (e : Err) (rest : Reader) (k : Nat)
    (h : d.length ≤ k) : readLoop left (⟨d, some e⟩ :: rest) k = (d, some e, rest) := by
  cases left <;> simp only [readLoop, Read_cons_whole d (some e) rest k h]

/-- The read loop on a stream whose next result fits and holds bytes. -/
theorem readLoop_cons_data (left : Nat) (d : List Byte) (rest : Reader) (k : Nat)
    (h : d.length ≤ k) (hd : 0 < d.length) :
    readLoop left (⟨d, none⟩ :: rest) k = (d, none, rest) := by
  cases left <;> simp only [readLoop, Read_cons_whole d none rest k h, if_pos hd]

/-- The read loop on a stream whose next result is `(0, nil)`, when the loop
still accepts an empty read. -/
theorem readLoop_cons_skip (left : Nat) (rest : Reader) (k : Nat) :
    readLoop (left + 1) (⟨[], none⟩ :: rest) k = readLoop left rest k := by
  simp [readLoop, Read]

/-- The read loop on a stream whose next result is `(0, nil)`, when that is one
empty read too many. -/
theorem readLoop_cons_stall (rest : Reader) (k : Nat) :
    readLoop 0 (⟨[], none⟩ :: rest) k = ([], some Err.ErrNoProgress, rest) := by
  simp [readLoop, Read]

theorem readLoop_nil (left k : Nat) : readLoop left [] k = ([], some Err.EOF, []) := by
  cases left <;> simp [readLoop, Read]

theorem readLoop_cases (left : Nat) (d : List Byte) (e : Option Err) (rest : Reader) (k : Nat)
    (hk : 0 < k) :
    (k < d.length ∧
      readLoop left (⟨d, e⟩ :: rest) k = (d.take k, none, ⟨d.drop k, e⟩ :: rest)) ∨
    (d.length ≤ k ∧ e.isSome ∧ readLoop left (⟨d, e⟩ :: rest) k = (d, e, rest)) ∨
    (d.length ≤ k ∧ e = none ∧ 0 < d.length ∧
      readLoop left (⟨d, e⟩ :: rest) k = (d, none, rest)) ∨
    (d = [] ∧ e = none ∧ left = 0 ∧
      readLoop left (⟨d, e⟩ :: rest) k = ([], some Err.ErrNoProgress, rest)) ∨
    (d = [] ∧ e = none ∧ ∃ n, left = n + 1 ∧
      readLoop left (⟨d, e⟩ :: rest) k = readLoop n rest k) := by
  by_cases h1 : k < d.length
  · exact Or.inl ⟨h1, readLoop_cons_lt left d e rest k hk h1⟩
  · have h1 : d.length ≤ k := Nat.not_lt.mp h1
    rcases e with _ | e
    · by_cases hd : 0 < d.length
      · exact Or.inr (Or.inr (Or.inl ⟨h1, rfl, hd, readLoop_cons_data left d rest k h1 hd⟩))
      · have hd : d = [] := List.length_eq_zero.mp (by omega)
        subst hd
        rcases left with _ | n
        · exact Or.inr (Or.inr (Or.inr (Or.inl ⟨rfl, rfl, rfl, readLoop_cons_stall rest k⟩)))
        · exact Or.inr (Or.inr (Or.inr (Or.inr ⟨rfl, rfl, n, rfl,
            readLoop_cons_skip n rest k⟩)))
    · exact Or.inr (Or.inl ⟨h1, rfl, readLoop_cons_err left d e rest k h1⟩)

theorem readLoop_length (r : Reader) (k : Nat) (hk : 0 < k) :
    ∀ left, (readLoop left r k).1.length ≤ k := by
  induction r with
  | nil => intro left; simp [readLoop_nil]
  | cons x rest ih =>
    intro left
    obtain ⟨d, e⟩ := x
    rcases readLoop_cases left d e rest k hk with ⟨h, hr⟩ | ⟨h, _, hr⟩ | ⟨h, _, _, hr⟩ |
      ⟨_, _, _, hr⟩ | ⟨_, _, n, _, hr⟩ <;> rw [hr]
    · simp [List.length_take]
    · exact h
    · exact h
    · simp
    · exact ih n

theorem deliveredFrom_cons_data (left : Nat) (d : List Byte) (e : Option Err) (rest : Reader)
    (hd : 0 < d.length) :
    deliveredFrom left (⟨d, e⟩ :: rest) = delivered (⟨d, e⟩ :: rest) := by
  cases e <;> simp [delivered, deliveredFrom, hd]

/-- The bytes of a stream are those the next read loop delivers and, when the
loop sets no error, those of the stream it leaves. -/
theorem readLoop_deliveredFrom (r : Reader) (k : Nat) (hk : 0 < k) : ∀ left,
    deliveredFrom left r = (readLoop left r k).1 ++
      (if (readLoop left r k).2.1.isSome then [] else delivered (readLoop left r k).2.2) := by
  induction r with
  | nil => intro left; simp [readLoop_nil, deliveredFrom]
  | cons x rest ih =>
    intro left
    obtain ⟨d, e⟩ := x
    rcases readLoop_cases left d e rest k hk with ⟨h, hr⟩ | ⟨h, he, hr⟩ | ⟨h, rfl, hd, hr⟩ |
      ⟨rfl, rfl, rfl, hr⟩ | ⟨rfl, rfl, n, rfl, hr⟩ <;> rw [hr]
    · have h0 : 0 < d.length := by omega
      have h2 : 0 < (d.drop k).length := by rw [List.length_drop]; omega
      rw [deliveredFrom_cons_data left d e rest h0]
      have h3 : k < d.length := h
      cases e
      · simp only [delivered, deliveredFrom, h0, h2, if_true, Option.isSome_none,
          Bool.false_eq_true, if_false]
        rw [← List.append_assoc, List.take_append_drop]
      · simp only [delivered, deliveredFrom, Option.isSome_some, if_true, Option.isSome_none,
          Bool.false_eq_true, if_false]
        rw [List.take_append_drop]
    · rcases e with _ | e
      · simp at he
      · simp [deliveredFrom]
    · simp [deliveredFrom, hd, delivered]
    · simp [deliveredFrom]
    · simpa [deliveredFrom] using ih n

theorem readLoop_delivered (r : Reader) (k : Nat) (hk : 0 < k) :
    delivered r = (readLoop maxConsecutiveEmptyReads r k).1 ++
      (if (readLoop maxConsecutiveEmptyReads r k).2.1.isSome then []
        else delivered (readLoop maxConsecutiveEmptyReads r k).2.2) :=
  readLoop_deliveredFrom r k hk _

/-- A stream of one read delivers the bytes of that read. -/
theorem delivered_single (d : List Byte) (e : Option Err) : delivered [⟨d, e⟩] = d := by
  rcases e with _ | e
  · by_cases hd : 0 < d.length
    · simp [delivered, deliveredFrom, hd]
    · have hd : d = [] := List.length_eq_zero.mp (by omega)
      subst hd
      rfl
  · simp [delivered, deliveredFrom]

theorem readLoop_budget (r : Reader) (k : Nat) (hk : 0 < k) : ∀ left,
    (readLoop left r k).2.1 = none → readBudget (readLoop left r k).2.2 < readBudget r := by
  induction r with
  | nil => intro left h; simp [readLoop_nil] at h
  | cons x rest ih =>
    intro left h
    obtain ⟨d, e⟩ := x
    rcases readLoop_cases left d e rest k hk with ⟨h1, hr⟩ | ⟨h1, he, hr⟩ | ⟨h1, _, _, hr⟩ |
      ⟨_, _, _, hr⟩ | ⟨rfl, rfl, n, rfl, hr⟩ <;> rw [hr] at h ⊢
    · simp [readBudget, List.length_drop]; omega
    · simp only at h
      rw [h] at he
      simp at he
    · simp [readBudget]
    · simp at h
    · have := ih n h
      simp [readBudget]; omega

end SseClient

namespace SseClient

/-! ## Lemmas: the buffer operations keep the scanner well-formed -/
namespace Scanner

theorem window_length {s : Scanner} (h : Inv s) : s.window.length = s.stop - s.start := by
  have := h.start_le
  have := h.stop_le
  simp [window, List.length_take, List.length_drop]
  omega

theorem Inv_NewScanner (r : Reader) : Inv (NewScanner r) := by
  constructor <;> simp [NewScanner, MaxScanTokenSize, maxInt]

theorem window_compact {s : Scanner} (h : Inv s) : s.compact.window = s.window := by
  unfold compact
  split_ifs with hc
  · have hl := window_length h
    simp only [window, Nat.sub_zero, List.drop_zero]
    simp only [window] at hl
    rw [List.take_append_of_le_length (by omega)]
    rw [List.take_of_length_le (by omega)]
  · rfl

theorem Inv_compact {s : Scanner} (h : Inv s) : Inv s.compact := by
  unfold compact
  split_ifs with hc
  · have hl := window_length h
    obtain ⟨h1, h2, h3, h4, h5, h6⟩ := h
    constructor <;> simp only [List.length_append, List.length_drop, hl] <;> omega
  · exact h

theorem compact_full {s : Scanner} (h : Inv s) (hfull : s.compact.stop = s.compact.cap) :
    s.compact.start = 0 := by
  unfold compact at hfull ⊢
  obtain ⟨h1, h2, h3, h4, h5, h6⟩ := h
  split_ifs at hfull ⊢ with hc
  · simp at hfull
    omega
  · simp only [not_and, not_or] at hc
    by_contra h0
    exact (hc (by omega)).1 hfull

theorem compact_fields (s : Scanner) : s.compact.r = s.r ∧ s.compact.err = s.err ∧
    s.compact.maxTokenSize = s.maxTokenSize ∧ s.compact.cap = s.cap := by
  unfold compact
  split_ifs <;> simp

theorem window_grow {s : Scanner} (h : Inv s) : s.grow.window = s.window := by
  have hl := window_length h
  simp only [grow, window, Nat.sub_zero, List.drop_zero]
  simp only [window] at hl
  rw [List.take_of_length_le (by omega)]

theorem Inv_grow {s : Scanner} (h : Inv s) (hfull : s.stop = s.cap)
    (hlt : s.cap < s.maxTokenSize) : Inv s.grow ∧ s.grow.stop < s.grow.cap := by
  have hl := window_length h
  obtain ⟨h1, h2, h3, h4, h5, h6⟩ := h
  have hcap : s.cap < min (if s.cap * 2 = 0 then startBufSize else s.cap * 2) s.maxTokenSize := by
    split_ifs with h0
    · simp [startBufSize]; omega
    · simp; omega
  refine ⟨?_, ?_⟩
  · constructor <;> simp only [grow, hl] <;> omega
  · simp only [grow]; omega

theorem window_fill {s : Scanner} (h : Inv s) : s.fill.window = s.window ++ (readLoop maxConsecutiveEmptyReads s.r (s.cap - s.stop)).1 := by
  obtain ⟨h1, h2, h3, h4, h5, h6⟩ := h
  have key : ∀ (d : List Byte),
      (List.drop s.start (List.take s.stop s.buf ++ d ++ List.drop (s.stop + d.length) s.buf)).take
        (s.stop + d.length - s.start) = (s.buf.drop s.start).take (s.stop - s.start) ++ d := by
    intro d
    have e1 : List.take s.stop s.buf = List.take s.start s.buf ++ (s.buf.drop s.start).take (s.stop - s.start) := by
      have : s.stop = s.start + (s.stop - s.start) := by omega
      conv_lhs => rw [this, List.take_add]
    rw [e1]
    have l1 : (List.take s.start s.buf).length = s.start := by simp [List.length_take]; omega
    have l2 : ((s.buf.drop s.start).take (s.stop - s.start)).length = s.stop - s.start := by
      simp [List.length_take, List.length_drop]; omega
    rw [List.append_assoc, List.append_assoc, List.drop_left' l1, ← List.append_assoc]
    rw [List.take_left']
    simp [l2]; omega
  unfold fill
  rcases hr : readLoop maxConsecutiveEmptyReads s.r (s.cap - s.stop) with ⟨d, e, r'⟩
  cases e with
  | none => simpa [window] using key d
  | some err =>
    simp only [setErr]
    split_ifs <;> simpa [window] using key d

end Scanner
end SseClient

namespace SseClient

/-! ## Lemmas: reading into the buffer, advancing past a token -/
namespace Scanner

theorem fill_spec {s : Scanner} (h : Inv s) (herr : s.err = none) (hlt : s.stop < s.cap) :
    Inv s.fill ∧ rest s.fill = rest s ∧ need s.fill < need s ∧
      s.fill.maxTokenSize = s.maxTokenSize := by
  have hw := window_fill h
  have hlen := readLoop_length s.r (s.cap - s.stop) (by omega) maxConsecutiveEmptyReads
  have hdel := readLoop_delivered s.r (s.cap - s.stop) (by omega)
  have hbud := readLoop_budget s.r (s.cap - s.stop) (by omega) maxConsecutiveEmptyReads
  obtain ⟨h1, h2, h3, h4, h5, h6⟩ := h
  have hrest : rest s = s.window ++ delivered s.r := by simp [rest, herr]
  unfold rest at *
  unfold need
  unfold fill at *
  rcases hr : readLoop maxConsecutiveEmptyReads s.r (s.cap - s.stop) with ⟨d, e, r'⟩
  rw [hr] at hw hlen hdel hbud
  simp only at hw hlen hdel hbud
  cases e with
  | none =>
    simp only [herr] at hw ⊢
    refine ⟨?_, ?_, ?_, trivial⟩
    · constructor <;> simp <;> omega
    · rw [hw, hdel]; simp
    · have := hbud rfl
      simp; omega
  | some err =>
    simp only [setErr, herr, true_or, if_true] at hw ⊢
    refine ⟨?_, ?_, ?_, trivial⟩
    · constructor <;> simp <;> omega
    · rw [hw, hdel]; simp
    · simp

theorem window_advance {s : Scanner} (h : Inv s) (a t : Nat) (_ha : a ≤ s.window.length) :
    ({ s with start := s.start + a, tokAt := t } : Scanner).window = s.window.drop a := by
  have hl := window_length h
  simp only [window]
  rw [List.drop_take, List.drop_drop]
  rw [Nat.sub_add_eq]

theorem Inv_advance {s : Scanner} (h : Inv s) (a t : Nat) (ha : a ≤ s.window.length) :
    Inv ({ s with start := s.start + a, tokAt := t } : Scanner) := by
  have hl := window_length h
  obtain ⟨h1, h2, h3, h4, h5, h6⟩ := h
  constructor <;> simp only <;> omega

end Scanner
end SseClient

namespace SseClient

/-! ## Lemmas: `ScanLines` and one iteration of the loop of `Scan` -/

theorem ScanLines_of_index {d : List Byte} {i : Nat} (b : Bool) (h : IndexByte d LF = some i) :
    ScanLines d b = (i + 1, some (dropCR (d.take i))) := by
  have hd : d ≠ [] := by rintro rfl; simp [IndexByte] at h
  simp [ScanLines, h, hd]

theorem ScanLines_eof_rest {d : List Byte} (h : IndexByte d LF = none) (hd : d ≠ []) :
    ScanLines d true = (d.length, some (dropCR d)) := by
  simp [ScanLines, h, hd]

theorem ScanLines_more {d : List Byte} (h : IndexByte d LF = none) :
    ScanLines d false = (0, none) := by
  simp [ScanLines, h]

theorem ScanLines_eof_nil : ScanLines [] true = (0, none) := by
  simp [ScanLines]

theorem IndexByte_append_ge {w x : List Byte} {c : Byte} (hw : c ∉ w) :
    ∀ {i : Nat}, IndexByte (w ++ x) c = some i → w.length ≤ i := by
  induction w with
  | nil => intro i _; simp
  | cons a w ih =>
    intro i h
    simp only [List.mem_cons, not_or] at hw
    simp only [List.cons_append, IndexByte, if_neg (Ne.symm hw.1), Option.map_eq_some'] at h
    obtain ⟨j, hj, rfl⟩ := h
    have := ih hw.2 hj
    simp only [List.length_cons]
    omega

namespace Scanner

theorem scanLoop_token (n : Nat) (s : Scanner) (a : Nat) (t : List Byte)
    (h : (if s.start < s.stop ∨ s.err.isSome then ScanLines s.window s.err.isSome else (0, none))
      = (a, some t)) :
    scanLoop (n + 1) s = (some t, { s with start := s.start + a, tokAt := s.start }) := by
  simp only [scanLoop, h]

theorem scanLoop_stop (n : Nat) (s : Scanner) (a : Nat)
    (h : (if s.start < s.stop ∨ s.err.isSome then ScanLines s.window s.err.isSome else (0, none))
      = (a, none)) (he : s.err.isSome) :
    (scanLoop (n + 1) s).1 = none := by
  simp only [scanLoop, h]
  simp [he]

theorem scanLoop_read (n : Nat) (s : Scanner) (a : Nat)
    (h : (if s.start < s.stop ∨ s.err.isSome then ScanLines s.window s.err.isSome else (0, none))
      = (a, none)) (he : s.err = none) :
    scanLoop (n + 1) s =
      (let s2 := ({ s with start := s.start + a, tokAt := s.start } : Scanner).compact
       if s2.stop = s2.cap then
         if s2.maxTokenSize ≤ s2.cap ∨ maxInt / 2 < s2.cap then (none, s2.setErr Err.ErrTooLong)
         else scanLoop n s2.grow.fill
       else scanLoop n s2.fill) := by
  simp only [scanLoop, h]
  simp [he]

end Scanner
end SseClient

namespace SseClient

/-! ## One call of `Scan` finds the next line of the stream -/
namespace Scanner

theorem need_pos (s : Scanner) : 0 < need s := by
  unfold need; split_ifs <;> omega

theorem nextTok_full {M : Nat} {w x : List Byte} (hw : LF ∉ w) (hlen : M ≤ w.length) :
    nextTok M (w ++ x) = none := by
  unfold nextTok
  rcases h : IndexByte (w ++ x) LF with _ | i
  · simp only [List.length_append]
    rw [if_pos (Or.inr (by omega))]
  · have := IndexByte_append_ge hw h
    simp only
    rw [if_neg (by omega)]

theorem scanLoop_spec (n : Nat) : ∀ (s : Scanner), Inv s → need s ≤ n →
    (nextTok s.maxTokenSize (rest s) = none ∧ (scanLoop n s).1 = none) ∨
    (∃ t R' s', nextTok s.maxTokenSize (rest s) = some (t, R') ∧ scanLoop n s = (some t, s') ∧
       Inv s' ∧ rest s' = R' ∧ s'.maxTokenSize = s.maxTokenSize ∧ need s' ≤ need s) ∨
    (IndexByte (rest s) LF = none ∧ (rest s).length = s.maxTokenSize ∧
      ∃ s', scanLoop n s = (some (dropCR (rest s)), s') ∧
       Inv s' ∧ rest s' = [] ∧ s'.maxTokenSize = s.maxTokenSize ∧ need s' ≤ need s) := by
  induction n with
  | zero =>
    intro s _ hn
    have := need_pos s
    omega
  | succ n ih =>
    intro s hI hn
    have hwl := window_length hI
    rcases hidx : IndexByte s.window LF with _ | i
    · rcases herr : s.err with _ | e
      · -- no complete line in the buffer and no error: read more
        have hsplit : (if s.start < s.stop ∨ s.err.isSome then ScanLines s.window s.err.isSome
            else (0, none)) = (0, none) := by
          by_cases h : s.start < s.stop <;> simp [herr, h, ScanLines_more hidx]
        rw [scanLoop_read n s 0 hsplit herr]
        have hI1 : Inv ({ s with start := s.start + 0, tokAt := s.start } : Scanner) :=
          Inv_advance hI 0 _ (Nat.zero_le _)
        have hw1 : ({ s with start := s.start + 0, tokAt := s.start } : Scanner).window
            = s.window := by
          rw [window_advance hI 0 _ (Nat.zero_le _)]; simp
        have hf1 : ({ s with start := s.start + 0, tokAt := s.start } : Scanner).r = s.r ∧
          ({ s with start := s.start + 0, tokAt := s.start } : Scanner).err = none ∧
          ({ s with start := s.start + 0, tokAt := s.start } : Scanner).maxTokenSize
            = s.maxTokenSize := ⟨rfl, herr, rfl⟩
        generalize ({ s with start := s.start + 0, tokAt := s.start } : Scanner) = s1 at *
        obtain ⟨g1, g2, g3⟩ := hf1
        have hI2 := Inv_compact hI1
        have hw2 := window_compact hI1
        obtain ⟨f1, f2, f3, f4⟩ := compact_fields s1
        have hfull := compact_full hI1
        have hw2l := window_length hI2
        generalize s1.compact = s2 at *
        have hr2 : rest s2 = rest s := by simp [rest, hw2, hw1, f1, f2, g1, g2, herr]
        have hn2 : need s2 = need s := by simp [need, f1, f2, g1, g2, herr]
        have he2 : s2.err = none := by rw [f2, g2]
        have hm2 : s2.maxTokenSize = s.maxTokenSize := by rw [f3, g3]
        have hnoLF : LF ∉ s.window := IndexByte_eq_none.mp hidx
        simp only
        by_cases hc : s2.stop = s2.cap
        · rw [if_pos hc]
          have h0 := hfull hc
          by_cases hbig : s2.maxTokenSize ≤ s2.cap ∨ maxInt / 2 < s2.cap
          · rw [if_pos hbig]
            left
            refine ⟨?_, rfl⟩
            have hcap : s.maxTokenSize ≤ s.window.length := by
              have := hI2.cap_le
              have := hI2.max_le
              rw [← hw1, ← hw2, hw2l, ← hm2]
              omega
            have hrs : rest s = s.window ++ delivered s.r := by simp [rest, herr]
            rw [hrs]
            exact nextTok_full hnoLF hcap
          · rw [if_neg hbig]
            push_neg at hbig
            obtain ⟨hG, hlt⟩ := Inv_grow hI2 hc hbig.1
            have hwg := window_grow hI2
            have heg : s2.grow.err = none := by simp [grow, he2]
            obtain ⟨k1, k2, k3, k4⟩ := fill_spec hG heg hlt
            have hrg : rest s2.grow = rest s := by
              rw [← hr2]; unfold rest; rw [hwg]; simp [grow]
            have hng : need s2.grow = need s := by
              rw [← hn2]; simp [need, grow]
            have hmg : s2.grow.maxTokenSize = s.maxTokenSize := by rw [← hm2]; simp [grow]
            have := ih s2.grow.fill k1 (by omega)
            rw [k2, k4, hrg, hmg] at this
            rcases this with h | ⟨t, R', s', h1, h2, h3, h4, h5, h6⟩ |
              ⟨h0, h1, s', h2, h3, h4, h5, h6⟩
            · exact Or.inl h
            · exact Or.inr (Or.inl ⟨t, R', s', h1, h2, h3, h4, h5, by omega⟩)
            · exact Or.inr (Or.inr ⟨h0, h1, s', h2, h3, h4, h5, by omega⟩)
        · rw [if_neg hc]
          have hlt : s2.stop < s2.cap := by
            have := hI2.stop_le
            have := hI2.buf_le
            omega
          obtain ⟨k1, k2, k3, k4⟩ := fill_spec hI2 he2 hlt
          have := ih s2.fill k1 (by omega)
          rw [k2, k4, hr2, hm2] at this
          rcases this with h | ⟨t, R', s', h1, h2, h3, h4, h5, h6⟩ |
            ⟨h0, h1, s', h2, h3, h4, h5, h6⟩
          · exact Or.inl h
          · exact Or.inr (Or.inl ⟨t, R', s', h1, h2, h3, h4, h5, by omega⟩)
          · exact Or.inr (Or.inr ⟨h0, h1, s', h2, h3, h4, h5, by omega⟩)
      · -- a read has failed: what is left in the buffer is the last token
        have hrs : rest s = s.window := by simp [rest, herr]
        by_cases hnil : s.window = []
        · left
          have hsplit : (if s.start < s.stop ∨ s.err.isSome then ScanLines s.window s.err.isSome
              else (0, none)) = (0, none) := by
            simp [herr, hnil, ScanLines_eof_nil]
          refine ⟨?_, scanLoop_stop n s 0 hsplit (by simp [herr])⟩
          rw [hrs, hnil]
          simp [nextTok, IndexByte]
        · right
          have hsplit : (if s.start < s.stop ∨ s.err.isSome then ScanLines s.window s.err.isSome
              else (0, none)) = (s.window.length, some (dropCR s.window)) := by
            simp [herr, ScanLines_eof_rest hidx hnil]
          have hrest' : rest
              ({ s with start := s.start + s.window.length, tokAt := s.start } : Scanner) = [] := by
            unfold rest
            rw [window_advance hI _ _ (Nat.le_refl _)]
            simp [herr]
          by_cases hlen : s.window.length = s.maxTokenSize
          · right
            rw [hrs]
            exact ⟨hidx, hlen, _, scanLoop_token n s _ _ hsplit,
              Inv_advance hI _ _ (Nat.le_refl _), hrest', rfl, by simp [need, herr]⟩
          · left
            refine ⟨dropCR s.window, [], _, ?_, scanLoop_token n s _ _ hsplit,
              Inv_advance hI _ _ (Nat.le_refl _), hrest', rfl, by simp [need, herr]⟩
            rw [hrs]
            have := hI.stop_le
            have := hI.buf_le
            have := hI.cap_le
            simp only [nextTok, hidx, hnil, false_or]
            rw [if_neg (by omega)]
    · -- a complete line is in the buffer
      right
      left
      obtain ⟨e1, e2, e3⟩ := IndexByte_eq_some hidx
      have hsplit : (if s.start < s.stop ∨ s.err.isSome then ScanLines s.window s.err.isSome
          else (0, none)) = (i + 1, some (dropCR (s.window.take i))) := by
        rw [if_pos (Or.inl (by omega))]
        exact ScanLines_of_index _ hidx
      refine ⟨dropCR (s.window.take i), _, _, ?_, scanLoop_token n s _ _ hsplit,
        Inv_advance hI _ _ (by omega), rfl, rfl, ?_⟩
      · have := hI.stop_le
        have := hI.buf_le
        have := hI.cap_le
        unfold rest nextTok
        rw [IndexByte_append_of_some hidx]
        simp only
        rw [if_pos (by omega), List.take_append_of_le_length (by omega)]
        rw [window_advance hI _ _ (by omega), List.drop_append_of_le_length (by omega)]
      · simp [need]

end Scanner
end SseClient

namespace SseClient

/-! ## The lines the loop of `streamSseResponse` reads -/

theorem joinLines_cons (l : List Byte) (ls : List (List Byte)) (fin : List Byte) :
    joinLines (l :: ls) ++ fin = l ++ LF :: (joinLines ls ++ fin) := by
  simp [joinLines]

theorem joinLines_nil : joinLines [] = [] := rfl

namespace Scanner

theorem need_le (s : Scanner) : need s ≤ readBudget s.r + 2 := by
  unfold need; split_ifs <;> omega

theorem Scan_spec (s : Scanner) (hI : Inv s) :
    (nextTok s.maxTokenSize (rest s) = none ∧ (Scan s).1 = none) ∨
    (∃ t R' s', nextTok s.maxTokenSize (rest s) = some (t, R') ∧ Scan s = (some t, s') ∧
       Inv s' ∧ rest s' = R' ∧ s'.maxTokenSize = s.maxTokenSize) ∨
    (IndexByte (rest s) LF = none ∧ (rest s).length = s.maxTokenSize ∧
      ∃ s', Scan s = (some (dropCR (rest s)), s') ∧
       Inv s' ∧ rest s' = [] ∧ s'.maxTokenSize = s.maxTokenSize) := by
  rcases scanLoop_spec _ s hI (need_le s) with h | ⟨t, R', s', h1, h2, h3, h4, h5, _⟩ |
    ⟨h0, h1, s', h2, h3, h4, h5, _⟩
  · exact Or.inl h
  · exact Or.inr (Or.inl ⟨t, R', s', h1, h2, h3, h4, h5⟩)
  · exact Or.inr (Or.inr ⟨h0, h1, s', h2, h3, h4, h5⟩)

theorem Scan_of_rest_nil (s : Scanner) (hI : Inv s) (h : rest s = []) : (Scan s).1 = none := by
  rcases Scan_spec s hI with ⟨_, h2⟩ | ⟨t, R', s'', h1, _⟩ | ⟨_, h1, _⟩
  · exact h2
  · rw [h] at h1
    simp [nextTok, IndexByte] at h1
  · rw [h] at h1
    have := hI.max_pos
    simp at h1
    omega

end Scanner

open Scanner

theorem streamLoop_none (n : Nat) (s : Scanner) (cur : SseEvent) (h : (Scan s).1 = none) :
    (streamLoop (n + 1) s cur).1 = [] := by
  rcases hs : Scan s with ⟨t, s'⟩
  rw [hs] at h
  simp only at h
  subst h
  simp [streamLoop, hs]

theorem streamLoop_some (n : Nat) (s s' : Scanner) (cur : SseEvent) (line : List Byte)
    (h : Scan s = (some line, s')) :
    (streamLoop (n + 1) s cur).1.map SseEvent.fields =
      if HasPrefix line dataPrefix then
        ((if HasPrefix line eventPrefix then TrimPrefix line eventPrefix else cur.Event),
          TrimPrefix line dataPrefix) :: (streamLoop n s' SseEvent.empty).1.map SseEvent.fields
      else (streamLoop n s' (if HasPrefix line eventPrefix then
          { cur with Event := TrimPrefix line eventPrefix } else cur)).1.map SseEvent.fields := by
  simp only [streamLoop, h]
  by_cases hd : HasPrefix line dataPrefix = true
  · by_cases he : HasPrefix line eventPrefix = true <;> simp [hd, he, SseEvent.fields]
  · simp [hd]

theorem streamLoop_step (n : Nat) (s s' : Scanner) (cur : SseEvent) (line : List Byte)
    (T : List (List Byte)) (h : Scan s = (some line, s'))
    (hT : ∀ cur', (streamLoop n s' cur').1.map SseEvent.fields = decode cur'.Event T) :
    (streamLoop (n + 1) s cur).1.map SseEvent.fields = decode cur.Event (line :: T) := by
  rw [streamLoop_some n s s' cur line h]
  simp only [decode]
  by_cases hd : HasPrefix line dataPrefix = true
  · rw [if_pos hd, if_pos hd, hT]
    rfl
  · rw [if_neg hd, if_neg hd, hT]
    by_cases he : HasPrefix line eventPrefix = true
    · simp [he]
    · simp [he]

theorem scannedLines_none (n : Nat) (s : Scanner) (h : (Scan s).1 = none) :
    scannedLines (n + 1) s = [] := by
  rcases hs : Scan s with ⟨t, s'⟩
  rw [hs] at h
  simp only at h
  subst h
  simp [scannedLines, hs]

theorem scannedLines_some (n : Nat) (s s' : Scanner) (line : List Byte)
    (h : Scan s = (some line, s')) :
    scannedLines (n + 1) s = line :: scannedLines n s' := by
  simp [scannedLines, h]

/-- The records of the loop are those of the lines the scanner hands to it. -/
theorem streamLoop_decode (n : Nat) : ∀ (s : Scanner) (cur : SseEvent),
    (streamLoop n s cur).1.map SseEvent.fields = decode cur.Event (scannedLines n s) := by
  induction n with
  | zero => intro s cur; rfl
  | succ n ih =>
    intro s cur
    rcases hs : Scan s with ⟨_ | line, s'⟩
    · rw [streamLoop_none n s cur (by rw [hs]), scannedLines_none n s (by rw [hs])]
      rfl
    · rw [scannedLines_some n s s' line hs]
      exact streamLoop_step n s s' cur line _ hs (fun cur' => ih s' cur')

theorem scannedLines_spec (ls : List (List Byte)) : ∀ (fin : List Byte) (n : Nat) (s : Scanner),
    Inv s → rest s = joinLines ls ++ fin → (∀ l ∈ ls, LF ∉ l) → LF ∉ fin →
    (rest s).length < n →
    scannedLines n s = scanSpec s.maxTokenSize ls fin ∨
    (fin.length = s.maxTokenSize ∧ (∀ l ∈ ls, l.length < s.maxTokenSize) ∧
      scannedLines n s = (ls ++ [fin]).map dropCR) := by
  induction ls with
  | nil =>
    intro fin n s hI hR _ hfin hn
    rw [joinLines_nil, List.nil_append] at hR
    have hidx : IndexByte fin LF = none := IndexByte_eq_none.mpr hfin
    obtain ⟨n, rfl⟩ : ∃ m, n = m + 1 := ⟨n - 1, by omega⟩
    rcases Scan_spec s hI with ⟨h1, h2⟩ | ⟨t, R', s', h1, h2, h3, h4, h5⟩ |
      ⟨_, h1, s', h2, h3, h4, h5⟩
    · left
      rw [scannedLines_none n s h2]
      rw [hR] at h1
      simp only [nextTok, hidx] at h1
      simp only [scanSpec]
      by_cases hc : fin = [] ∨ s.maxTokenSize ≤ fin.length
      · rw [if_pos hc]
      · rw [if_neg hc] at h1; cases h1
    · left
      rw [hR] at h1
      simp only [nextTok, hidx] at h1
      simp only [scanSpec]
      by_cases hc : fin = [] ∨ s.maxTokenSize ≤ fin.length
      · rw [if_pos hc] at h1; cases h1
      · rw [if_neg hc] at h1 ⊢
        simp only [Option.some.injEq, Prod.mk.injEq] at h1
        obtain ⟨rfl, rfl⟩ := h1
        have hlen : 0 < fin.length := by
          rcases fin with _ | ⟨b, bs⟩
          · simp at hc
          · simp
        rw [hR] at hn
        obtain ⟨n, rfl⟩ : ∃ m, n = m + 1 := ⟨n - 1, by omega⟩
        rw [scannedLines_some _ s s' _ h2, scannedLines_none n s' (Scan_of_rest_nil s' h3 h4)]
    · right
      rw [hR] at h1 h2 hn
      have := hI.max_pos
      obtain ⟨n, rfl⟩ : ∃ m, n = m + 1 := ⟨n - 1, by omega⟩
      refine ⟨h1, by simp, ?_⟩
      rw [scannedLines_some _ s s' _ h2, scannedLines_none n s' (Scan_of_rest_nil s' h3 h4)]
      rfl
  | cons l ls ih =>
    intro fin n s hI hR hls hfin hn
    rw [joinLines_cons] at hR
    have hl : LF ∉ l := hls l (List.mem_cons_self _ _)
    have hidx : IndexByte (rest s) LF = some l.length := by
      rw [hR]; exact IndexByte_append_cons _ _ _ hl
    obtain ⟨n, rfl⟩ : ∃ m, n = m + 1 := ⟨n - 1, by omega⟩
    rcases Scan_spec s hI with ⟨h1, h2⟩ | ⟨t, R', s', h1, h2, h3, h4, h5⟩ | ⟨h0, _⟩
    · left
      rw [scannedLines_none n s h2]
      simp only [nextTok, hidx] at h1
      simp only [scanSpec]
      by_cases hc : l.length < s.maxTokenSize
      · rw [if_pos hc] at h1; cases h1
      · rw [if_neg hc]
    · simp only [nextTok, hidx] at h1
      simp only [scanSpec]
      by_cases hc : l.length < s.maxTokenSize
      · rw [if_pos hc] at h1 ⊢
        simp only [Option.some.injEq, Prod.mk.injEq] at h1
        obtain ⟨rfl, rfl⟩ := h1
        have e1 : List.take l.length (rest s) = l := by rw [hR]; simp
        have e2 : List.drop (l.length + 1) (rest s) = joinLines ls ++ fin := by
          rw [hR]; simp
        rw [e1] at h2
        rw [e2] at h4
        rw [scannedLines_some _ s s' _ h2]
        have hn' : (rest s').length < n := by
          rw [h4]
          rw [hR] at hn
          simp at hn ⊢
          omega
        rcases ih fin n s' h3 h4 (fun x hx => hls x (List.mem_cons_of_mem _ hx)) hfin hn' with
          h | ⟨k1, k2, k3⟩
        · left
          rw [h, h5]
        · right
          rw [h5] at k1 k2
          refine ⟨k1, ?_, by rw [k3]; rfl⟩
          intro x hx
          rcases List.mem_cons.mp hx with rfl | hx
          · exact hc
          · exact k2 x hx
      · rw [if_neg hc] at h1; cases h1
    · rw [hidx] at h0; cases h0

end SseClient

namespace SseClient

/-! ## The records of a stream in terms of its lines -/
open Scanner

theorem splitLines_join (B : List Byte) :
    joinLines (splitLines B).1 ++ (splitLines B).2 = B ∧
    (∀ l ∈ (splitLines B).1, LF ∉ l) ∧ LF ∉ (splitLines B).2 := by
  induction B with
  | nil => simp [splitLines, joinLines]
  | cons b bs ih =>
    obtain ⟨h1, h2, h3⟩ := ih
    simp only [splitLines]
    by_cases hb : b = LF
    · rw [if_pos hb]
      refine ⟨?_, ?_, h3⟩
      · rw [joinLines_cons, h1, hb]; rfl
      · intro l hl
        rcases List.mem_cons.mp hl with rfl | hl
        · simp
        · exact h2 l hl
    · rw [if_neg hb]
      rcases hs : (splitLines bs).1 with _ | ⟨l, ls⟩
      · rw [hs] at h1 h2
        simp only [joinLines_nil, List.nil_append] at h1 ⊢
        refine ⟨by rw [h1], by simp, ?_⟩
        simp only [List.mem_cons, not_or]
        exact ⟨fun h => hb h.symm, h3⟩
      · rw [hs] at h1 h2
        simp only
        refine ⟨?_, ?_, h3⟩
        · rw [joinLines_cons] at h1 ⊢
          rw [List.cons_append, h1]
        · intro x hx
          rcases List.mem_cons.mp hx with rfl | hx
          · simp only [List.mem_cons, not_or]
            exact ⟨fun h => hb h.symm, h2 l (List.mem_cons_self _ _)⟩
          · exact h2 x (List.mem_cons_of_mem _ hx)

theorem splitLines_of_join (ls : List (List Byte)) (fin : List Byte)
    (hls : ∀ l ∈ ls, LF ∉ l) (hfin : LF ∉ fin) :
    splitLines (joinLines ls ++ fin) = (ls, fin) := by
  have noLF : ∀ (l : List Byte), LF ∉ l → ∀ (R : List Byte),
      splitLines (l ++ LF :: R) = (l :: (splitLines R).1, (splitLines R).2) := by
    intro l
    induction l with
    | nil => intro _ R; simp [splitLines]
    | cons b bs ih =>
      intro h R
      simp only [List.mem_cons, not_or] at h
      have := ih h.2 R
      simp only [List.cons_append, splitLines, if_neg (Ne.symm h.1), List.append_eq, this]
  have tail : ∀ (l : List Byte), LF ∉ l → splitLines l = ([], l) := by
    intro l
    induction l with
    | nil => intro _; rfl
    | cons b bs ih =>
      intro h
      simp only [List.mem_cons, not_or] at h
      simp only [splitLines, if_neg (Ne.symm h.1), ih h.2]
  induction ls with
  | nil => simpa [joinLines] using tail fin hfin
  | cons l ls ih =>
    rw [joinLines_cons, noLF l (hls l (List.mem_cons_self _ _)),
      ih (fun x hx => hls x (List.mem_cons_of_mem _ hx))]

theorem deliveredFrom_length_le (r : Reader) :
    ∀ left, (deliveredFrom left r).length ≤ readBudget r := by
  induction r with
  | nil => intro left; simp [deliveredFrom, readBudget]
  | cons x rest ih =>
    intro left
    obtain ⟨d, e⟩ := x
    simp only [deliveredFrom, readBudget]
    split_ifs
    · omega
    · have := ih maxConsecutiveEmptyReads
      simp only [List.length_append]
      omega
    · rcases left with _ | n
      · simp
      · have := ih n
        simp only
        omega

theorem delivered_length_le (r : Reader) : (delivered r).length ≤ readBudget r :=
  deliveredFrom_length_le r _

theorem records_eq (r : Reader) : records r = (runLoop r).1.map SseEvent.fields := by
  simp only [records, streamSseResponse]
  rw [List.filterMap_append]
  simp [List.filterMap_map, Function.comp_def]
  induction (runLoop r).1 with
  | nil => rfl
  | cons x xs ih => simp [List.filterMap_cons, ih]

theorem rest_NewScanner (r : Reader) : rest (NewScanner r) = delivered r := by
  simp [rest, NewScanner, window]

/-- The lines the loop of `streamSseResponse(r)` reads. -/
theorem records_eq_scanned (r : Reader) :
    records r = decode [] (scannedLines (readBudget r + 1) (NewScanner r)) := by
  rw [records_eq, runLoop, streamLoop_decode]
  rfl

/-- The lines the loop reads are the lines of the delivered bytes up to the
first that does not fit the buffer; a last line of exactly the maximal size is
read or not, depending on how the stream reports its end. -/
theorem scanned_cases (r : Reader) :
    scannedLines (readBudget r + 1) (NewScanner r) =
      scanSpec MaxScanTokenSize (splitLines (delivered r)).1 (splitLines (delivered r)).2 ∨
    ((splitLines (delivered r)).2.length = MaxScanTokenSize ∧
      (∀ l ∈ (splitLines (delivered r)).1, l.length < MaxScanTokenSize) ∧
      scannedLines (readBudget r + 1) (NewScanner r) =
        ((splitLines (delivered r)).1 ++ [(splitLines (delivered r)).2]).map dropCR) := by
  obtain ⟨h1, h2, h3⟩ := splitLines_join (delivered r)
  exact scannedLines_spec (splitLines (delivered r)).1 (splitLines (delivered r)).2
    (readBudget r + 1) (NewScanner r) (Inv_NewScanner r)
    (by rw [rest_NewScanner, h1]) h2 h3
    (by rw [rest_NewScanner]; have := delivered_length_le r; omega)

/-- The records of a stream are those of the tokens that the scanner finds in
the bytes the stream delivers. -/
theorem records_eq_decode (r : Reader)
    (h : (splitLines (delivered r)).2.length ≠ MaxScanTokenSize) :
    records r = decode [] (scanSpec MaxScanTokenSize (splitLines (delivered r)).1
      (splitLines (delivered r)).2) := by
  rw [records_eq_scanned]
  rcases scanned_cases r with h1 | ⟨h1, _⟩
  · rw [h1]
  · exact absurd h1 h

theorem scanSpec_short (M : Nat) (ls : List (List Byte)) (fin : List Byte)
    (hls : ∀ l ∈ ls, l.length < M) (hfin : fin.length < M) :
    scanSpec M ls fin = (ls ++ (if fin = [] then [] else [fin])).map dropCR := by
  induction ls with
  | nil =>
    simp only [scanSpec, List.nil_append]
    by_cases hf : fin = []
    · simp [hf]
    · rw [if_neg (by simp [hf]; omega), if_neg hf]; rfl
  | cons l ls ih =>
    simp only [scanSpec, if_pos (hls l (List.mem_cons_self _ _)), List.cons_append, List.map_cons]
    rw [ih (fun x hx => hls x (List.mem_cons_of_mem _ hx))]

/-- When every line is shorter than the token limit, the records of a stream
are those of all its lines. -/
theorem records_of_short_lines (r : Reader)
    (h : ∀ l ∈ rawLines (delivered r), l.length < MaxScanTokenSize) :
    records r = decode [] (lines (delivered r)) := by
  have hfin : (splitLines (delivered r)).2.length < MaxScanTokenSize := by
    by_cases hf : (splitLines (delivered r)).2 = []
    · rw [hf]; simp [MaxScanTokenSize]
    · exact h _ (by simp [rawLines, hf])
  rw [records_eq_decode r (by omega), scanSpec_short _ _ _ _ hfin]
  · rfl
  · intro l hl
    exact h l (by simp [rawLines, hl])

end SseClient

namespace SseClient

/-! ## Payloads; a stream with a line that does not fit the buffer -/
open Scanner

theorem TrimPrefix_of_HasPrefix {l p : List Byte} (h : HasPrefix l p = true) :
    TrimPrefix l p = l.drop p.length := by
  simp [TrimPrefix, h]

theorem decode_payloads (T : List (List Byte)) : ∀ (ev : List Byte),
    (decode ev T).map Prod.snd = dataPayloads T := by
  induction T with
  | nil => intro ev; rfl
  | cons l T ih =>
    intro ev
    simp only [decode, dataPayloads, List.filter_cons]
    by_cases hd : HasPrefix l dataPrefix = true
    · rw [if_pos hd, if_pos hd, List.map_cons, List.map_cons, ih,
        TrimPrefix_of_HasPrefix hd]
      rfl
    · rw [if_neg hd, if_neg hd, ih]
      rfl

theorem no_records_after_long_line (l : List Byte) (ls : List (List Byte)) (r : Reader)
    (hl : LF ∉ l) (hls : ∀ x ∈ ls, LF ∉ x) (hlen : MaxScanTokenSize ≤ l.length)
    (hr : delivered r = joinLines (l :: ls)) : records r = [] := by
  have hs : splitLines (delivered r) = (l :: ls, []) := by
    rw [hr]
    have := splitLines_of_join (l :: ls) [] (by
      intro x hx
      rcases List.mem_cons.mp hx with rfl | hx
      · exact hl
      · exact hls x hx) (by simp)
    simpa using this
  rw [records_eq_decode r (by rw [hs]; simp [MaxScanTokenSize]), hs]
  simp only [scanSpec]
  rw [if_neg (by omega)]
  rfl

theorem longLineThenData_records : records longLineThenData = [] := by
  apply no_records_after_long_line (List.replicate MaxScanTokenSize 120)
    [[100, 97, 116, 97, 58, 32, 97]]
  · intro h
    have := List.eq_of_mem_replicate h
    revert this
    decide
  · decide
  · simp
  · simp [longLineThenData, delivered_single]

theorem longLineThenData_lines : [32, 97] ∈ dataPayloads (lines (delivered longLineThenData)) := by
  have hs : splitLines (delivered longLineThenData)
      = ([List.replicate MaxScanTokenSize 120, [100, 97, 116, 97, 58, 32, 97]], []) := by
    have := splitLines_of_join [List.replicate MaxScanTokenSize 120, [100, 97, 116, 97, 58, 32, 97]]
      [] (by
        intro x hx
        simp only [List.mem_cons, List.mem_singleton, List.not_mem_nil, or_false] at hx
        rcases hx with rfl | rfl
        · intro h
          have := List.eq_of_mem_replicate h
          revert this
          decide
        · decide) (by simp)
    simpa [longLineThenData, delivered_single] using this
  simp only [lines, rawLines, hs, dataPayloads]
  simp only [List.mem_map, List.mem_filter]
  refine ⟨[100, 97, 116, 97, 58, 32, 97], ⟨⟨[100, 97, 116, 97, 58, 32, 97], by simp, by decide⟩, by decide⟩, by decide⟩

end SseClient

namespace SseClient

/-! ## The loop reads an initial segment of the lines; event types -/

theorem scanSpec_prefix (M : Nat) (ls : List (List Byte)) (fin : List Byte) :
    ∃ k, scanSpec M ls fin
      = ((ls ++ (if fin = [] then [] else [fin])).map dropCR).take k := by
  induction ls with
  | nil =>
    simp only [scanSpec, List.nil_append]
    by_cases hc : fin = [] ∨ M ≤ fin.length
    · exact ⟨0, by rw [if_pos hc]; simp⟩
    · have hf : fin ≠ [] := fun h => hc (Or.inl h)
      exact ⟨1, by rw [if_neg hc, if_neg hf]; rfl⟩
  | cons l ls ih =>
    obtain ⟨k, hk⟩ := ih
    simp only [scanSpec]
    by_cases hc : l.length < M
    · exact ⟨k + 1, by rw [if_pos hc, hk]; rfl⟩
    · exact ⟨0, by rw [if_neg hc]; simp⟩

/-- The lines the loop reads are the first lines of the stream. -/
theorem scanned_prefix (r : Reader) :
    ∃ k, scannedLines (readBudget r + 1) (NewScanner r) = (lines (delivered r)).take k := by
  rcases scanned_cases r with h | ⟨h1, _, h3⟩
  · rw [h]
    exact scanSpec_prefix _ _ _
  · refine ⟨(lines (delivered r)).length, ?_⟩
    have hf : (splitLines (delivered r)).2 ≠ [] := by
      intro h
      rw [h] at h1
      simp [MaxScanTokenSize] at h1
    rw [h3, List.take_length]
    simp [lines, rawLines, hf]

theorem records_prefix (r : Reader) :
    ∃ k, records r = decode [] ((lines (delivered r)).take k) := by
  obtain ⟨k, hk⟩ := scanned_prefix r
  exact ⟨k, by rw [records_eq_scanned, hk]⟩

theorem not_event_of_data {l : List Byte} (h : HasPrefix l dataPrefix = true) :
    HasPrefix l eventPrefix = false := by
  rcases l with _ | ⟨b, bs⟩
  · simp [HasPrefix, dataPrefix, List.isPrefixOf] at h
  · simp only [HasPrefix, dataPrefix, eventPrefix, List.isPrefixOf, Bool.and_eq_true,
      beq_iff_eq] at h ⊢
    obtain ⟨h1, -⟩ := h
    subst h1
    simp

theorem pendingFrom_append (ev : List Byte) (l : List Byte) (X : List (List Byte)) :
    pendingFrom ev (X ++ [l]) = pendingFrom (pendingFrom ev [l]) X := by
  induction X with
  | nil => rfl
  | cons x X ih =>
    simp only [List.cons_append, pendingFrom, List.append_eq] at ih ⊢
    rw [ih]

theorem decode_getElem (T : List (List Byte)) : ∀ (ev : List Byte) (i : Nat)
    (rec : List Byte × List Byte), (decode ev T)[i]? = some rec →
    ∃ T1 d T2, T = T1 ++ d :: T2 ∧ HasPrefix d dataPrefix = true ∧
      (dataPayloads T1).length = i ∧
      rec = (pendingFrom ev T1.reverse, d.drop dataPrefix.length) := by
  induction T with
  | nil => intro ev i rec h; simp [decode] at h
  | cons l T ih =>
    intro ev i rec h
    simp only [decode] at h
    by_cases hd : HasPrefix l dataPrefix = true
    · rw [if_pos hd, if_neg (by rw [not_event_of_data hd]; simp),
        TrimPrefix_of_HasPrefix hd] at h
      rcases i with _ | j
      · simp only [List.getElem?_cons_zero, Option.some.injEq] at h
        exact ⟨[], l, T, rfl, hd, rfl, h.symm⟩
      · simp only [List.getElem?_cons_succ] at h
        obtain ⟨T1, d, T2, e1, e2, e3, e4⟩ := ih [] j rec h
        refine ⟨l :: T1, d, T2, by rw [e1]; rfl, e2, ?_, ?_⟩
        · simp only [dataPayloads, List.filter_cons, hd, if_true, List.map_cons,
            List.length_cons] at e3 ⊢
          omega
        · rw [e4, List.reverse_cons, pendingFrom_append]
          simp [pendingFrom, hd]
    · rw [if_neg hd] at h
      obtain ⟨T1, d, T2, e1, e2, e3, e4⟩ := ih _ i rec h
      refine ⟨l :: T1, d, T2, by rw [e1]; rfl, e2, ?_, ?_⟩
      · simpa [dataPayloads, List.filter_cons, hd] using e3
      · rw [e4, List.reverse_cons, pendingFrom_append]
        congr 2
        simp only [pendingFrom, if_neg hd]
        by_cases he : HasPrefix l eventPrefix = true
        · rw [if_pos he, if_pos he, TrimPrefix_of_HasPrefix he]
        · rw [if_neg he, if_neg he]

end SseClient

namespace SseClient

/-! ## Carriage returns and the two prefixes -/

theorem HasPrefix_dropCR (l p : List Byte) (hp : CR ∉ p) :
    HasPrefix (dropCR l) p = HasPrefix l p := by
  unfold dropCR
  split_ifs with h
  · obtain ⟨ys, rfl⟩ := List.getLast?_eq_some_iff.mp h
    rw [List.dropLast_concat, Bool.eq_iff_iff]
    simp only [HasPrefix, List.isPrefixOf_iff_prefix]
    rw [List.prefix_concat_iff]
    constructor
    · exact Or.inr
    · rintro (rfl | h)
      · simp at hp
      · exact h
  · rfl

theorem CR_not_mem_dataPrefix : CR ∉ dataPrefix := by decide

theorem CR_not_mem_eventPrefix : CR ∉ eventPrefix := by decide

theorem dropCR_eq_self (l : List Byte) (h : CR ∉ l) : dropCR l = l := by
  unfold dropCR
  rw [if_neg]
  intro hl
  exact h (List.mem_of_mem_getLast? hl)


end SseClient

namespace SseClient

/-! ## Streams of `event:`/`data:` pairs -/

theorem eventsPaired_cons {a b : List Byte} {T : List (List Byte)}
    (h : eventsPaired (a :: b :: T) = true) :
    (HasPrefix a eventPrefix = true → HasPrefix b dataPrefix = true) ∧
      eventsPaired (b :: T) = true := by
  simp only [eventsPaired, Bool.and_eq_true, Bool.or_eq_true, Bool.not_eq_true'] at h
  refine ⟨fun ha => ?_, h.2⟩
  rcases h.1 with h1 | h1
  · rw [ha] at h1; cases h1
  · exact h1

theorem decode_paired (T : List (List Byte)) : ∀ (before ev : List Byte),
    ev = (if HasPrefix before eventPrefix then before.drop eventPrefix.length else []) →
    eventsPaired (before :: T) = true → decode ev T = pairedRecords before T := by
  induction T with
  | nil => intro _ _ _ _; rfl
  | cons l T ih =>
    intro before ev hev hp
    obtain ⟨h1, h2⟩ := eventsPaired_cons hp
    simp only [decode, pairedRecords]
    by_cases hd : HasPrefix l dataPrefix = true
    · have hne := not_event_of_data hd
      rw [if_pos hd, if_pos hd, if_neg (by rw [hne]; simp), TrimPrefix_of_HasPrefix hd, ← hev,
        ih l [] (by rw [hne]; simp) h2]
    · rw [if_neg hd, if_neg hd]
      apply ih l _ _ h2
      by_cases he : HasPrefix l eventPrefix = true
      · rw [if_pos he, if_pos he, TrimPrefix_of_HasPrefix he]
      · rw [if_neg he, if_neg he, hev, if_neg]
        intro hb
        exact hd (h1 hb)

theorem decode_of_eventsPaired (T : List (List Byte)) (h : eventsPaired T = true) :
    decode [] T = pairedRecords [] T := by
  apply decode_paired T [] [] (by decide)
  rcases T with _ | ⟨l, T⟩
  · rfl
  · simp only [eventsPaired, Bool.and_eq_true, Bool.or_eq_true, Bool.not_eq_true']
    exact ⟨Or.inl (by decide), h⟩

theorem decode_length (T : List (List Byte)) (ev : List Byte) :
    (decode ev T).length = (dataPayloads T).length := by
  rw [← decode_payloads T ev, List.length_map]

theorem replicate_no_LF (n : Nat) : LF ∉ List.replicate n (120 : Byte) := by
  intro h
  have := List.eq_of_mem_replicate h
  revert this
  decide

theorem longLineThenPair_records : records longLineThenPair = [] := by
  apply no_records_after_long_line (List.replicate MaxScanTokenSize 120)
    [[101, 118, 101, 110, 116, 58, 32, 112, 105, 110, 103],
      [100, 97, 116, 97, 58, 32, 104, 101, 108, 108, 111]]
  · exact replicate_no_LF _
  · decide
  · simp
  · simp [longLineThenPair, delivered_single]

theorem longLineThenPair_lines : lines (delivered longLineThenPair) =
    [dropCR (List.replicate MaxScanTokenSize 120),
      [101, 118, 101, 110, 116, 58, 32, 112, 105, 110, 103],
      [100, 97, 116, 97, 58, 32, 104, 101, 108, 108, 111]] := by
  have hs : splitLines (delivered longLineThenPair)
      = ([List.replicate MaxScanTokenSize 120,
          [101, 118, 101, 110, 116, 58, 32, 112, 105, 110, 103],
          [100, 97, 116, 97, 58, 32, 104, 101, 108, 108, 111]], []) := by
    have := splitLines_of_join [List.replicate MaxScanTokenSize 120,
          [101, 118, 101, 110, 116, 58, 32, 112, 105, 110, 103],
          [100, 97, 116, 97, 58, 32, 104, 101, 108, 108, 111]]
      [] (by
        intro x hx
        simp only [List.mem_cons, List.mem_singleton, List.not_mem_nil, or_false] at hx
        rcases hx with rfl | rfl | rfl
        · exact replicate_no_LF _
        · decide
        · decide) (by simp)
    simpa [longLineThenPair, delivered_single] using this
  simp only [lines, rawLines, hs]
  simp only [if_true, List.append_nil, List.map_cons, List.map_nil]
  congr 1

theorem long_not_event : HasPrefix (dropCR (List.replicate MaxScanTokenSize 120)) eventPrefix
    = false := by
  rw [HasPrefix_dropCR _ _ CR_not_mem_eventPrefix]
  decide

theorem long_not_data : HasPrefix (dropCR (List.replicate MaxScanTokenSize 120)) dataPrefix
    = false := by
  rw [HasPrefix_dropCR _ _ CR_not_mem_dataPrefix]
  decide

end SseClient

namespace SseClient

/-! ## Appending lines without `data:` -/

/-- The records of a stream that consists of complete lines. -/
theorem records_of_joinLines (r : Reader) (ls : List (List Byte)) (hls : ∀ l ∈ ls, LF ∉ l)
    (hr : delivered r = joinLines ls) :
    records r = decode [] (scanSpec MaxScanTokenSize ls []) := by
  have hs : splitLines (delivered r) = (ls, []) := by
    rw [hr]
    simpa using splitLines_of_join ls [] hls (by simp)
  rw [records_eq_decode r (by rw [hs]; simp [MaxScanTokenSize]), hs]

theorem scanSpec_terminate (M : Nat) (ls : List (List Byte)) (fin : List Byte)
    (hfin : fin ≠ []) : scanSpec M (ls ++ [fin]) [] = scanSpec M ls fin := by
  induction ls with
  | nil =>
    simp only [List.nil_append, scanSpec]
    by_cases hc : fin.length < M
    · have h2 : ¬ (fin = [] ∨ M ≤ fin.length) := by
        rintro (h | h)
        · exact hfin h
        · omega
      simp [hc, h2]
    · have h2 : fin = [] ∨ M ≤ fin.length := Or.inr (by omega)
      simp [hc, h2]
  | cons l ls ih =>
    simp only [List.cons_append, scanSpec, List.append_eq]
    rw [ih]

theorem decode_append_no_data (T T' : List (List Byte))
    (h : ∀ l ∈ T', HasPrefix l dataPrefix = false) : ∀ ev : List Byte,
    decode ev (T ++ T') = decode ev T := by
  induction T with
  | nil =>
    intro ev
    rw [List.nil_append]
    induction T' generalizing ev with
    | nil => rfl
    | cons l T' ih =>
      simp only [decode, h l (List.mem_cons_self _ _), Bool.false_eq_true, if_false]
      rw [ih (fun x hx => h x (List.mem_cons_of_mem _ hx))]
      rfl
  | cons l T ih =>
    intro ev
    simp only [List.cons_append, decode, List.append_eq]
    rw [ih, ih]

theorem decode_scanSpec_tail (M : Nat) (ls extra : List (List Byte)) (fin : List Byte)
    (h : ∀ l ∈ extra, HasPrefix l dataPrefix = false) (hfin : HasPrefix fin dataPrefix = false) :
    ∀ ev : List Byte,
    decode ev (scanSpec M (ls ++ extra) fin) = decode ev (scanSpec M ls []) := by
  have base : ∀ (extra : List (List Byte)), (∀ l ∈ extra, HasPrefix l dataPrefix = false) →
      ∀ ev : List Byte, decode ev (scanSpec M extra fin) = [] := by
    intro extra
    induction extra with
    | nil =>
      intro _ ev
      simp only [scanSpec]
      split_ifs
      · rfl
      · simp [decode, HasPrefix_dropCR _ _ CR_not_mem_dataPrefix, hfin]
    | cons l extra ih =>
      intro h ev
      simp only [scanSpec]
      by_cases hc : l.length < M
      · have hl : HasPrefix (dropCR l) dataPrefix = false := by
          rw [HasPrefix_dropCR _ _ CR_not_mem_dataPrefix]
          exact h l (List.mem_cons_self _ _)
        rw [if_pos hc]
        simp only [decode, hl, Bool.false_eq_true, if_false]
        exact ih (fun x hx => h x (List.mem_cons_of_mem _ hx)) _
      · rw [if_neg hc]; rfl
  induction ls with
  | nil =>
    intro ev
    rw [List.nil_append, base extra h]
    simp [scanSpec, decode]
  | cons l ls ih =>
    intro ev
    simp only [List.cons_append, scanSpec, List.append_eq]
    by_cases hc : l.length < M
    · rw [if_pos hc, if_pos hc]
      simp only [decode]
      rw [ih, ih]
    · rw [if_neg hc, if_neg hc]

/-- The records of a stream whose delivered bytes are known by their lines. -/
theorem records_cases_of_join (r : Reader) (ls : List (List Byte)) (fin : List Byte)
    (hls : ∀ l ∈ ls, LF ∉ l) (hfin : LF ∉ fin) (hr : delivered r = joinLines ls ++ fin) :
    records r = decode [] (scanSpec MaxScanTokenSize ls fin) ∨
    (fin.length = MaxScanTokenSize ∧ (∀ l ∈ ls, l.length < MaxScanTokenSize) ∧
      records r = decode [] ((ls ++ [fin]).map dropCR)) := by
  have hs : splitLines (delivered r) = (ls, fin) := by
    rw [hr]
    exact splitLines_of_join ls fin hls hfin
  rw [records_eq_scanned]
  rcases scanned_cases r with h | ⟨h1, h2, h3⟩
  · left
    rw [h, hs]
  · right
    rw [hs] at h1 h2 h3
    exact ⟨h1, h2, by rw [h3]⟩

/-- Lines without `data:` after the lines `L` give no record, whether or not
the last of them ends in a newline. -/
theorem records_with_tail (r : Reader) (L extra : List (List Byte)) (fin : List Byte)
    (hL : ∀ l ∈ L, LF ∉ l) (hex : ∀ l ∈ extra, LF ∉ l ∧ HasPrefix l dataPrefix = false)
    (hfin : LF ∉ fin) (hfd : HasPrefix fin dataPrefix = false)
    (hr : delivered r = joinLines (L ++ extra) ++ fin) :
    records r = decode [] (scanSpec MaxScanTokenSize L []) := by
  have hall : ∀ l ∈ L ++ extra, LF ∉ l := by
    intro l hl
    rcases List.mem_append.mp hl with h | h
    · exact hL l h
    · exact (hex l h).1
  rcases records_cases_of_join r (L ++ extra) fin hall hfin hr with h | ⟨_, h2, h3⟩
  · rw [h]
    exact decode_scanSpec_tail _ L extra fin (fun l hl => (hex l hl).2) hfd []
  · rw [h3, scanSpec_short _ L [] (fun l hl => h2 l (List.mem_append_left _ hl))
      (by simp [MaxScanTokenSize])]
    simp only [if_true, List.append_nil, List.map_append]
    rw [List.append_assoc, decode_append_no_data]
    intro l hl
    simp only [List.mem_append, List.mem_map, List.mem_singleton, List.map_cons,
      List.map_nil] at hl
    rcases hl with ⟨x, hx, rfl⟩ | rfl
    · rw [HasPrefix_dropCR _ _ CR_not_mem_dataPrefix]
      exact (hex x hx).2
    · rw [HasPrefix_dropCR _ _ CR_not_mem_dataPrefix]
      exact hfd

end SseClient

namespace SseClient

/-! ## Lines with neither prefix -/

theorem decode_ignored (ev l : List Byte) (T : List (List Byte)) (h : isField l = false) :
    decode ev (l :: T) = decode ev T := by
  simp only [isField, Bool.or_eq_false_iff] at h
  simp [decode, h.1, h.2]

theorem isField_dropCR (l : List Byte) : isField (dropCR l) = isField l := by
  simp only [isField, HasPrefix_dropCR _ _ CR_not_mem_eventPrefix,
    HasPrefix_dropCR _ _ CR_not_mem_dataPrefix]

theorem decode_scanSpec_filter (M : Nat) (ls : List (List Byte))
    (h : ∀ l ∈ ls, isField l = false → l.length < M) : ∀ ev : List Byte,
    decode ev (scanSpec M (ls.filter isField) []) = decode ev (scanSpec M ls []) := by
  induction ls with
  | nil => intro ev; rfl
  | cons l ls ih =>
    intro ev
    have ih' := ih (fun x hx => h x (List.mem_cons_of_mem _ hx))
    by_cases hf : isField l = true
    · rw [List.filter_cons_of_pos hf]
      simp only [scanSpec]
      by_cases hc : l.length < M
      · rw [if_pos hc, if_pos hc]
        simp only [decode]
        rw [ih', ih']
      · rw [if_neg hc, if_neg hc]
    · rw [List.filter_cons_of_neg hf]
      have hf' : isField l = false := by simpa using hf
      simp only [scanSpec]
      rw [if_pos (h l (List.mem_cons_self _ _) hf'),
        decode_ignored _ _ _ (by rw [isField_dropCR]; exact hf')]
      exact ih' ev

end SseClient

namespace SseClient

/-! ## Line endings; bytes that never occur in a record -/

theorem joinWith_LF (ls : List (List Byte)) : joinWith [LF] ls = joinLines ls := rfl

theorem joinWith_CRLF (ls : List (List Byte)) :
    joinWith [CR, LF] ls = joinLines (ls.map (· ++ [CR])) := by
  induction ls with
  | nil => rfl
  | cons l ls ih =>
    simp only [joinWith, joinLines, List.flatMap_cons, List.map_cons] at ih ⊢
    rw [ih]
    simp

theorem dropCR_append_CR (l : List Byte) : dropCR (l ++ [CR]) = l := by
  simp [dropCR]

theorem map_dropCR_self (ls : List (List Byte)) (h : ∀ l ∈ ls, CR ∉ l) :
    ls.map dropCR = ls := by
  induction ls with
  | nil => rfl
  | cons l ls ih =>
    rw [List.map_cons, dropCR_eq_self l (h l (List.mem_cons_self _ _)),
      ih (fun x hx => h x (List.mem_cons_of_mem _ hx))]

theorem map_dropCR_append_CR (ls : List (List Byte)) :
    (ls.map (· ++ [CR])).map dropCR = ls := by
  induction ls with
  | nil => rfl
  | cons l ls ih =>
    rw [List.map_cons, List.map_cons, ih, dropCR_append_CR]

theorem not_mem_TrimPrefix {c : Byte} {l : List Byte} (p : List Byte) (h : c ∉ l) :
    c ∉ TrimPrefix l p := by
  unfold TrimPrefix
  split_ifs
  · exact fun hc => h (List.mem_of_mem_drop hc)
  · exact h

theorem decode_fields_free (c : Byte) (T : List (List Byte)) (hT : ∀ l ∈ T, c ∉ l) :
    ∀ (ev : List Byte), c ∉ ev → ∀ rec ∈ decode ev T, c ∉ rec.1 ∧ c ∉ rec.2 := by
  induction T with
  | nil => intro ev _ rec h; simp [decode] at h
  | cons l T ih =>
    intro ev hev rec h
    have hl := hT l (List.mem_cons_self _ _)
    have hT' : ∀ x ∈ T, c ∉ x := fun x hx => hT x (List.mem_cons_of_mem _ hx)
    have hev' : c ∉ (if HasPrefix l eventPrefix = true then TrimPrefix l eventPrefix
        else ev) := by
      split_ifs
      · exact not_mem_TrimPrefix _ hl
      · exact hev
    simp only [decode] at h
    by_cases hd : HasPrefix l dataPrefix = true
    · rw [if_pos hd] at h
      rcases List.mem_cons.mp h with rfl | h
      · exact ⟨hev', not_mem_TrimPrefix _ hl⟩
      · exact ih hT' [] (by simp) rec h
    · rw [if_neg hd] at h
      exact ih hT' _ hev' rec h

theorem not_mem_dropCR {c : Byte} {l : List Byte} (h : c ∉ l) : c ∉ dropCR l := by
  unfold dropCR
  split_ifs
  · exact fun hc => h (List.mem_of_mem_dropLast hc)
  · exact h

theorem lines_no_LF (B : List Byte) : ∀ l ∈ lines B, LF ∉ l := by
  obtain ⟨_, h2, h3⟩ := splitLines_join B
  intro l hl
  simp only [lines, rawLines, List.mem_map, List.mem_append] at hl
  obtain ⟨x, hx, rfl⟩ := hl
  apply not_mem_dropCR
  rcases hx with hx | hx
  · exact h2 x hx
  · split_ifs at hx
    · simp at hx
    · simp only [List.mem_singleton] at hx
      rw [hx]; exact h3

/-- No record of any stream holds a newline. -/
theorem records_no_LF (r : Reader) : ∀ rec ∈ records r, LF ∉ rec.1 ∧ LF ∉ rec.2 := by
  obtain ⟨k, hk⟩ := records_prefix r
  rw [hk]
  exact decode_fields_free LF _
    (fun l hl => lines_no_LF _ l (List.mem_of_mem_take hl)) [] (by simp)

end SseClient

namespace SseClient

/-! ## Streams that differ in their errors only -/

theorem Read_mapErrors (f : Err → Err) (r : Reader) (k : Nat) :
    (Read (mapErrors f r) k).1 = (Read r k).1 ∧
    (Read (mapErrors f r) k).2.1.isSome = (Read r k).2.1.isSome ∧
    (Read (mapErrors f r) k).2.2 = mapErrors f (Read r k).2.2 := by
  rcases r with _ | ⟨⟨d, e⟩, rest⟩
  · simp [mapErrors, Read]
  · have hm : mapErrors f (⟨d, e⟩ :: rest) = ⟨d, e.map f⟩ :: mapErrors f rest := rfl
    rw [hm]
    by_cases h : k < d.length
    · rw [Read_cons_lt _ _ _ _ h, Read_cons_lt _ _ _ _ h]
      exact ⟨rfl, rfl, rfl⟩
    · rw [Read_cons_whole _ _ _ _ (Nat.not_lt.mp h), Read_cons_whole _ _ _ _ (Nat.not_lt.mp h)]
      exact ⟨rfl, by cases e <;> rfl, rfl⟩

theorem readLoop_mapErrors (f : Err → Err) (k : Nat) : ∀ (left : Nat) (r : Reader),
    (readLoop left (mapErrors f r) k).1 = (readLoop left r k).1 ∧
    (readLoop left (mapErrors f r) k).2.1.isSome = (readLoop left r k).2.1.isSome ∧
    (readLoop left (mapErrors f r) k).2.2 = mapErrors f (readLoop left r k).2.2 := by
  intro left
  induction left with
  | zero =>
    intro r
    obtain ⟨k1, k2, k3⟩ := Read_mapErrors f r k
    rcases hr : Read r k with ⟨d, e, r'⟩
    rcases hr' : Read (mapErrors f r) k with ⟨d', e', r''⟩
    rw [hr, hr'] at k1 k2 k3
    simp only at k1 k2 k3
    subst k1 k3
    rcases e with _ | e <;> rcases e' with _ | e' <;> simp at k2
    · simp only [readLoop, hr, hr']
      split_ifs <;> simp
    · simp only [readLoop, hr, hr']
      simp
  | succ n ih =>
    intro r
    obtain ⟨k1, k2, k3⟩ := Read_mapErrors f r k
    rcases hr : Read r k with ⟨d, e, r'⟩
    rcases hr' : Read (mapErrors f r) k with ⟨d', e', r''⟩
    rw [hr, hr'] at k1 k2 k3
    simp only at k1 k2 k3
    subst k1 k3
    rcases e with _ | e <;> rcases e' with _ | e' <;> simp at k2
    · simp only [readLoop, hr, hr']
      split_ifs
      · simp
      · exact ih r'
    · simp only [readLoop, hr, hr']
      simp

theorem readBudget_mapErrors (f : Err → Err) (r : Reader) :
    readBudget (mapErrors f r) = readBudget r := by
  induction r with
  | nil => rfl
  | cons x rest ih =>
    obtain ⟨d, e⟩ := x
    have hm : mapErrors f (⟨d, e⟩ :: rest) = ⟨d, e.map f⟩ :: mapErrors f rest := rfl
    rw [hm]
    simp only [readBudget, ih]

namespace Scanner

variable {f : Err → Err}

theorem Sim.window {s t : Scanner} (h : Sim f s t) : t.window = s.window := by
  simp only [Scanner.window, h.buf_eq, h.start_eq, h.stop_eq]

theorem Sim.err_none {s t : Scanner} (h : Sim f s t) (he : s.err = none) : t.err = none := by
  have := h.err_eq
  rw [he] at this
  simpa using this

theorem Sim.advance {s t : Scanner} (h : Sim f s t) (a : Nat) :
    Sim f { s with start := s.start + a, tokAt := s.start }
      { t with start := t.start + a, tokAt := t.start } := by
  obtain ⟨h1, h2, h3, h4, h5, h6, h7, h8, h9, h10⟩ := h
  constructor <;> simp only [*]

theorem Sim.compact {s t : Scanner} (h : Sim f s t) : Sim f s.compact t.compact := by
  have hw := h.window
  obtain ⟨h1, h2, h3, h4, h5, h6, h7, h8, h9, h10⟩ := h
  unfold Scanner.compact
  rw [h5, h6, h4, hw, h3]
  split_ifs
  · constructor <;> simp only [*]
  · constructor <;> simp only [*]

theorem Sim.grow {s t : Scanner} (h : Sim f s t) : Sim f s.grow t.grow := by
  have hw := h.window
  obtain ⟨h1, h2, h3, h4, h5, h6, h7, h8, h9, h10⟩ := h
  unfold Scanner.grow
  constructor <;> simp only [*]

theorem Sim.fill {s t : Scanner} (h : Sim f s t) (he : s.err = none) :
    Sim f s.fill t.fill := by
  have he' := h.err_none he
  obtain ⟨h1, h2, h3, h4, h5, h6, h7, h8, h9, h10⟩ := h
  obtain ⟨k1, k2, k3⟩ := readLoop_mapErrors f (s.cap - s.stop) maxConsecutiveEmptyReads s.r
  unfold Scanner.fill
  rw [h1, h4, h6, h3]
  rcases hr : readLoop maxConsecutiveEmptyReads s.r (s.cap - s.stop) with ⟨d, e, r'⟩
  rcases hr' : readLoop maxConsecutiveEmptyReads (mapErrors f s.r) (s.cap - s.stop) with ⟨d', e', r''⟩
  rw [hr, hr'] at k1 k2 k3
  simp only at k1 k2 k3
  subst k1 k3
  cases e with
  | none =>
    cases e' with
    | none => constructor <;> simp only [*]
    | some x => simp at k2
  | some err =>
    cases e' with
    | none => simp at k2
    | some x =>
      simp only [setErr, he, he', true_or, if_true]
      constructor <;> simp only [Option.isSome_some, *]

end Scanner
end SseClient

namespace SseClient

/-! ## The scanner does not tell one error from another -/
namespace Scanner

variable {f : Err → Err}

theorem Sim.scanLoop (n : Nat) : ∀ {s t : Scanner}, Sim f s t →
    (scanLoop n t).1 = (scanLoop n s).1 ∧
      ((scanLoop n s).1.isSome → Sim f (scanLoop n s).2 (scanLoop n t).2) := by
  induction n with
  | zero => intro s t _; exact ⟨rfl, fun h => by simp [Scanner.scanLoop] at h⟩
  | succ n ih =>
    intro s t h
    have hsp : (if t.start < t.stop ∨ t.err.isSome then ScanLines t.window t.err.isSome
        else (0, none))
        = (if s.start < s.stop ∨ s.err.isSome then ScanLines s.window s.err.isSome
        else (0, none)) := by
      rw [h.window, h.start_eq, h.stop_eq, h.err_eq]
    rcases hs : (if s.start < s.stop ∨ s.err.isSome then ScanLines s.window s.err.isSome
        else (0, none)) with ⟨a, _ | tok⟩
    · by_cases he : s.err.isSome = true
      · have he' : t.err.isSome = true := by rw [h.err_eq]; exact he
        rw [scanLoop_stop n s a hs he, scanLoop_stop n t a (hsp.trans hs) he']
        exact ⟨rfl, fun h => by simp at h⟩
      · have he0 : s.err = none := by simpa using he
        have he0' : t.err = none := h.err_none he0
        rw [scanLoop_read n s a hs he0, scanLoop_read n t a (hsp.trans hs) he0']
        have h1 := h.start_eq
        have hc := (h.advance a).compact
        rw [h1] at hc ⊢
        have hcerr : ({ s with start := s.start + a, tokAt := s.start } : Scanner).compact.err
            = none := by
          rw [(compact_fields _).2.1]
          exact he0
        generalize ({ s with start := s.start + a, tokAt := s.start } : Scanner).compact = s2 at *
        generalize ({ t with start := s.start + a, tokAt := s.start } : Scanner).compact = t2 at *
        simp only
        rw [hc.stop_eq, hc.cap_eq, hc.max_eq]
        by_cases hfull : s2.stop = s2.cap
        · rw [if_pos hfull, if_pos hfull]
          by_cases hbig : s2.maxTokenSize ≤ s2.cap ∨ maxInt / 2 < s2.cap
          · rw [if_pos hbig, if_pos hbig]
            exact ⟨rfl, fun h => by simp at h⟩
          · rw [if_neg hbig, if_neg hbig]
            exact ih (hc.grow.fill (by simp [Scanner.grow, hcerr]))
        · rw [if_neg hfull, if_neg hfull]
          exact ih (hc.fill hcerr)
    · rw [scanLoop_token n s a tok hs, scanLoop_token n t a tok (hsp.trans hs)]
      refine ⟨rfl, fun _ => ?_⟩
      have := h.advance a
      rw [h.start_eq] at this ⊢
      exact this

theorem Sim.Scan {s t : Scanner} (h : Sim f s t) :
    (Scan t).1 = (Scan s).1 ∧ ((Scan s).1.isSome → Sim f (Scan s).2 (Scan t).2) := by
  unfold Scanner.Scan
  rw [h.r_eq, readBudget_mapErrors]
  exact Sim.scanLoop _ h

end Scanner

open Scanner

theorem Sim.streamLoop {f : Err → Err} (n : Nat) : ∀ {s t : Scanner} (cur : SseEvent),
    Sim f s t → (streamLoop n t cur).1 = (streamLoop n s cur).1 := by
  induction n with
  | zero => intro s t cur _; rfl
  | succ n ih =>
    intro s t cur h
    obtain ⟨h1, h2⟩ := h.Scan
    rcases hs : Scan s with ⟨_ | line, s'⟩
    · rcases ht : Scan t with ⟨tok, t'⟩
      rw [hs, ht] at h1
      simp only at h1
      subst h1
      simp only [SseClient.streamLoop, hs, ht]
    · rcases ht : Scan t with ⟨tok, t'⟩
      rw [hs, ht] at h1 h2
      simp only at h1
      subst h1
      have hsim : Sim f s' t' := h2 rfl
      simp only [SseClient.streamLoop, hs, ht]
      rw [hsim.gen_eq, hsim.tokAt_eq]
      split_ifs
      · rw [ih _ hsim]
      · rw [ih _ hsim]
      · rw [ih _ hsim]
      · rw [ih _ hsim]

theorem streamSseResponse_mapErrors (f : Err → Err) (r : Reader) :
    streamSseResponse (mapErrors f r) = streamSseResponse r := by
  have hsim : Sim f (NewScanner r) (NewScanner (mapErrors f r)) := by
    constructor <;> rfl
  simp only [streamSseResponse, runLoop, readBudget_mapErrors]
  rw [Sim.streamLoop _ _ hsim]

end SseClient

namespace SseClient

/-! ## A token is a slice of the buffer -/

theorem dropCR_pre (l : List Byte) : dropCR l <+: l := by
  unfold dropCR
  split_ifs
  · exact List.dropLast_prefix l
  · exact List.prefix_refl l

theorem ScanLines_token_pre {data token : List Byte} {atEOF : Bool} {a : Nat}
    (h : ScanLines data atEOF = (a, some token)) : token <+: data := by
  unfold ScanLines at h
  by_cases h1 : (atEOF && data.isEmpty) = true
  · rw [if_pos h1] at h
    cases h
  · rw [if_neg h1] at h
    rcases hi : IndexByte data LF with _ | i
    · rw [hi] at h
      simp only at h
      by_cases h2 : atEOF = true
      · rw [if_pos h2] at h
        simp only [Prod.mk.injEq, Option.some.injEq] at h
        rw [← h.2]
        exact dropCR_pre data
      · rw [if_neg h2] at h
        cases h
    · rw [hi] at h
      simp only [Prod.mk.injEq, Option.some.injEq] at h
      rw [← h.2]
      exact (dropCR_pre _).trans ( List.take_prefix _ _)

namespace Scanner

/-- The token of a `Scan` that returns `true` is the slice of the scanner's
buffer that starts at `tokAt`. -/
theorem scanLoop_token_in_buffer (n : Nat) : ∀ (s s' : Scanner) (token : List Byte),
    scanLoop n s = (some token, s') →
    (s'.buf.drop s'.tokAt).take token.length = token := by
  induction n with
  | zero => intro s s' token h; simp [scanLoop] at h
  | succ n ih =>
    intro s s' token h
    rcases hs : (if s.start < s.stop ∨ s.err.isSome then ScanLines s.window s.err.isSome
        else (0, none)) with ⟨a, _ | tok⟩
    · by_cases he : s.err.isSome = true
      · have := scanLoop_stop n s a hs he
        rw [h] at this
        cases this
      · have he0 : s.err = none := by simpa using he
        rw [scanLoop_read n s a hs he0] at h
        simp only at h
        split_ifs at h
        · cases h
        · exact ih _ _ _ h
        · exact ih _ _ _ h
    · rw [scanLoop_token n s a tok hs] at h
      simp only [Prod.mk.injEq, Option.some.injEq] at h
      obtain ⟨rfl, rfl⟩ := h
      have hp : tok <+: s.window := by
        split_ifs at hs
        · exact ScanLines_token_pre hs
        · cases hs
      have hp2 : tok <+: s.buf.drop s.start := hp.trans ( List.take_prefix _ _)
      exact (List.prefix_iff_eq_take.mp hp2).symm

theorem Scan_token_in_buffer (s s' : Scanner) (token : List Byte)
    (h : Scan s = (some token, s')) :
    (s'.buf.drop s'.tokAt).take token.length = token :=
  scanLoop_token_in_buffer _ s s' token h

end Scanner
end SseClient

namespace Handlers

/-! ## The provider switch of the two handlers -/

theorem providers_distinct :
    OpenAI ≠ Anthropic ∧ OpenAI ≠ AzureOpenAI ∧ OpenAI ≠ Ollama ∧ OpenAI ≠ GeminiVertexAI ∧
    OpenAI ≠ AnthropicVertexAI ∧ Anthropic ≠ AzureOpenAI ∧ Anthropic ≠ Ollama ∧
    Anthropic ≠ GeminiVertexAI ∧ Anthropic ≠ AnthropicVertexAI ∧ AzureOpenAI ≠ Ollama ∧
    AzureOpenAI ≠ GeminiVertexAI ∧ AzureOpenAI ≠ AnthropicVertexAI ∧
    Ollama ≠ GeminiVertexAI ∧ Ollama ≠ AnthropicVertexAI ∧
    GeminiVertexAI ≠ AnthropicVertexAI := by
  decide

theorem createProviderConfig_rejected (req : CreateModelConfigRequest) (spec : ModelConfigSpec) :
    rejected (createProviderConfig req spec) = true ↔
      invalidProviderConfig req.Provider.Type_ req.AzureParams req.GeminiParams
        req.AnthropicVertexParams := by
  obtain ⟨d1, d2, d3, d4, d5, d6, d7, d8, d9, d10, d11, d12, d13, d14, d15⟩ := providers_distinct
  unfold createProviderConfig invalidProviderConfig
  simp only [List.mem_cons, List.mem_singleton, List.not_mem_nil, or_false]
  by_cases h1 : req.Provider.Type_ = OpenAI
  · rw [h1]
    cases req.OpenAIParams <;> simp [rejected, d1, d2, d3, d4, d5]
  by_cases h2 : req.Provider.Type_ = Anthropic
  · rw [h2]
    cases req.AnthropicParams <;> simp [rejected, d1.symm, d6, d7, d8, d9]
  by_cases h3 : req.Provider.Type_ = AzureOpenAI
  · rw [h3]
    rcases req.AzureParams with _ | p
    · simp [rejected, d2.symm, d6.symm, d10, d11, d12]
    · by_cases hp : p.Endpoint = "" ∨ p.APIVersion = ""
      · simp [rejected, d2.symm, d6.symm, d10, d11, d12, hp]
      · simp [rejected, d2.symm, d6.symm, d10, d11, d12, hp]
  by_cases h4 : req.Provider.Type_ = Ollama
  · rw [h4]
    cases req.OllamaParams <;> simp [rejected, d3.symm, d7.symm, d10.symm, d13, d14]
  by_cases h5 : req.Provider.Type_ = GeminiVertexAI
  · rw [h5]
    rcases req.GeminiParams with _ | p
    · simp [rejected, d4.symm, d8.symm, d11.symm, d13.symm, d15]
    · by_cases hp : p.ProjectID = "" ∨ p.Location = ""
      · simp [rejected, d4.symm, d8.symm, d11.symm, d13.symm, d15, hp]
      · simp [rejected, d4.symm, d8.symm, d11.symm, d13.symm, d15, hp]
  by_cases h6 : req.Provider.Type_ = AnthropicVertexAI
  · rw [h6]
    rcases req.AnthropicVertexParams with _ | p
    · simp [rejected, d5.symm, d9.symm, d12.symm, d14.symm, d15.symm]
    · by_cases hp : p.ProjectID = "" ∨ p.Location = ""
      · simp [rejected, d5.symm, d9.symm, d12.symm, d14.symm, d15.symm, hp]
      · simp [rejected, d5.symm, d9.symm, d12.symm, d14.symm, d15.symm, hp]
  simp [rejected, h1, h2, h3, h4, h5, h6]

theorem updateProviderConfig_rejected (req : UpdateModelConfigRequest) (spec : ModelConfigSpec)
    (hspec : spec.Provider = req.Provider.Type_) :
    rejected (updateProviderConfig req spec) = true ↔
      invalidProviderConfig req.Provider.Type_ req.AzureParams req.GeminiParams
        req.AnthropicVertexParams := by
  obtain ⟨d1, d2, d3, d4, d5, d6, d7, d8, d9, d10, d11, d12, d13, d14, d15⟩ := providers_distinct
  unfold updateProviderConfig invalidProviderConfig
  rw [hspec]
  simp only [List.mem_cons, List.mem_singleton, List.not_mem_nil, or_false]
  by_cases h1 : req.Provider.Type_ = OpenAI
  · rw [h1]
    cases req.OpenAIParams <;> simp [rejected, d1, d2, d3, d4, d5]
  by_cases h2 : req.Provider.Type_ = Anthropic
  · rw [h2]
    cases req.AnthropicParams <;> simp [rejected, d1.symm, d6, d7, d8, d9]
  by_cases h3 : req.Provider.Type_ = AzureOpenAI
  · rw [h3]
    rcases req.AzureParams with _ | p
    · simp [rejected, d2.symm, d6.symm, d10, d11, d12]
    · by_cases hp : p.Endpoint = "" ∨ p.APIVersion = ""
      · simp [rejected, d2.symm, d6.symm, d10, d11, d12, hp]
      · simp [rejected, d2.symm, d6.symm, d10, d11, d12, hp]
  by_cases h4 : req.Provider.Type_ = Ollama
  · rw [h4]
    cases req.OllamaParams <;> simp [rejected, d3.symm, d7.symm, d10.symm, d13, d14]
  by_cases h5 : req.Provider.Type_ = GeminiVertexAI
  · rw [h5]
    rcases req.GeminiParams with _ | p
    · simp [rejected, d4.symm, d8.symm, d11.symm, d13.symm, d15]
    · by_cases hp : p.ProjectID = "" ∨ p.Location = ""
      · simp [rejected, d4.symm, d8.symm, d11.symm, d13.symm, d15, hp]
      · simp [rejected, d4.symm, d8.symm, d11.symm, d13.symm, d15, hp]
  by_cases h6 : req.Provider.Type_ = AnthropicVertexAI
  · rw [h6]
    rcases req.AnthropicVertexParams with _ | p
    · simp [rejected, d5.symm, d9.symm, d12.symm, d14.symm, d15.symm]
    · by_cases hp : p.ProjectID = "" ∨ p.Location = ""
      · simp [rejected, d5.symm, d9.symm, d12.symm, d14.symm, d15.symm, hp]
      · simp [rejected, d5.symm, d9.symm, d12.symm, d14.symm, d15.symm, hp]
  simp [rejected, h1, h2, h3, h4, h5, h6]

theorem create_badRequest_iff (k : Kube) (req : CreateModelConfigRequest) (st : CreateState)
    (h : createPrelude k req = Except.ok st) :
    (HandleCreateModelConfig k (some req)).response.isBadRequest = true ↔
      rejected (createProviderConfig req st.spec) = true := by
  simp only [HandleCreateModelConfig, h]
  rcases createProviderConfig req st.spec with msg | spec
  · simp [rejected, Response.isBadRequest]
  · simp only [rejected]
    rcases st.kube.createModelConfig { Name := req.Name, Spec := spec } with e | k2
    · simp [Response.isBadRequest]
    · simp [Response.isBadRequest]

theorem updatePrelude_provider (k : Kube) (name : String) (req : UpdateModelConfigRequest)
    (st : UpdateState) (h : updatePrelude k name req = Except.ok st) :
    st.modelConfig.Spec.Provider = req.Provider.Type_ := by
  revert h
  unfold updatePrelude
  dsimp only
  repeat' split
  all_goals intro h
  all_goals first
    | (cases h; done)
    | (cases h; rfl)

theorem update_badRequest_iff (k : Kube) (name : String) (req : UpdateModelConfigRequest)
    (st : UpdateState) (h : updatePrelude k name req = Except.ok st) :
    (HandleUpdateModelConfig k (some name) (some req)).response.isBadRequest = true ↔
      rejected (updateProviderConfig req st.modelConfig.Spec) = true := by
  simp only [HandleUpdateModelConfig, h]
  rcases updateProviderConfig req st.modelConfig.Spec with msg | spec
  · simp [rejected, Response.isBadRequest]
  · simp only [rejected]
    rcases st.kube.updateModelConfig { st.modelConfig with Spec := spec } with e | k2
    · simp [Response.isBadRequest]
    · simp [Response.isBadRequest]

end Handlers

namespace Handlers

/-! ## The first part of `HandleCreateModelConfig` -/

theorem createPrelude_error_kube (k : Kube) (req : CreateModelConfigRequest) (out : Outcome)
    (h : createPrelude k req = Except.error out) :
    out.kube = k ∧ out.response.isError = true ∧
      (out.calls = [Call.get Kind.modelConfig req.Name] ∨
        out.calls = [Call.get Kind.modelConfig req.Name, Call.create Kind.secret req.Name]) := by
  revert h
  unfold createPrelude
  dsimp only
  repeat' split
  all_goals intro h
  all_goals first
    | (cases h; done)
    | (cases h; exact ⟨rfl, rfl, by simp⟩)

theorem createPrelude_ok_cases (k : Kube) (req : CreateModelConfigRequest) (st : CreateState)
    (h : createPrelude k req = Except.ok st) :
    ((req.Provider.Type_ = Ollama ∨ req.APIKey = "") ∧
      st = ⟨k, createSpec req, { Name := "", StringData := [] },
        [Call.get Kind.modelConfig req.Name]⟩) ∨
    (¬ (req.Provider.Type_ = Ollama ∨ req.APIKey = "") ∧
      ∃ k', k.createSecret (createdSecret req) = Except.ok k' ∧
        st = ⟨k', { createSpec req with APIKeySecretRef := req.Name,
                                         APIKeySecretKey := secretKeyOf req.Provider.Type_ },
          createdSecret req,
          [Call.get Kind.modelConfig req.Name, Call.create Kind.secret req.Name]⟩) := by
  revert h
  unfold createPrelude CreateSecret
  dsimp only
  rcases k.getModelConfig req.Name with e | c
  · dsimp only
    split_ifs with h1 h2
    · intro h; cases h
    · intro h
      cases h
      exact Or.inl ⟨h2, rfl⟩
    · have e : ({ Name := req.Name, StringData := [(secretKeyOf req.Provider.Type_, req.APIKey)] } : Secret) = createdSecret req := rfl
      rw [e]
      rcases hc : k.createSecret (createdSecret req) with e2 | k'
      · intro h; cases h
      · intro h
        cases h
        exact Or.inr ⟨h2, k', rfl, rfl⟩
  · intro h; cases h

end Handlers

namespace Handlers

/-! ## `HandleCreateModelConfig`: what each path leaves behind -/

theorem createProviderConfig_refs (req : CreateModelConfigRequest) (spec spec' : ModelConfigSpec)
    (h : createProviderConfig req spec = Except.ok spec') :
    spec'.APIKeySecretRef = spec.APIKeySecretRef ∧
      spec'.APIKeySecretKey = spec.APIKeySecretKey := by
  revert h
  unfold createProviderConfig
  dsimp only
  repeat' split
  all_goals intro h
  all_goals first
    | (cases h; done)
    | (cases h; exact ⟨rfl, rfl⟩)

theorem createModelConfig_ok (k k' : Kube) (c : ModelConfig)
    (h : k.createModelConfig c = Except.ok k') :
    k' = { k with modelConfigs := c :: k.modelConfigs } := by
  revert h
  unfold Kube.createModelConfig
  split_ifs
  · intro h; cases h
  · intro h; cases h
  · intro h; cases h; rfl

theorem createSecret_ok (k k' : Kube) (s : Secret) (h : k.createSecret s = Except.ok k') :
    k' = { k with secrets := s :: k.secrets } ∧ ∀ x ∈ k.secrets, x.Name ≠ s.Name := by
  revert h
  unfold Kube.createSecret
  split_ifs with h1 h2
  · intro h; cases h
  · intro h; cases h
  · intro h
    cases h
    refine ⟨rfl, fun x hx hn => h2 ?_⟩
    exact List.any_eq_true.mpr ⟨x, hx, by simpa using hn⟩

/-- A successful create: the three parts succeeded, and the outcome is the
ModelConfig added to the store the first part left. -/
theorem create_created (k : Kube) (req : CreateModelConfigRequest) (c : ModelConfig)
    (h : (HandleCreateModelConfig k (some req)).response = Response.created c) :
    ∃ st spec, createPrelude k req = Except.ok st ∧
      createProviderConfig req st.spec = Except.ok spec ∧
      c = { Name := req.Name, Spec := spec } ∧
      HandleCreateModelConfig k (some req) =
        ⟨Response.created c, { st.kube with modelConfigs := c :: st.kube.modelConfigs },
          st.calls ++ [Call.create Kind.modelConfig req.Name]⟩ := by
  revert h
  unfold HandleCreateModelConfig
  dsimp only
  rcases hp : createPrelude k req with out | st
  · dsimp only
    intro h
    have := (createPrelude_error_kube k req out hp).2.1
    rw [h] at this
    cases this
  · dsimp only
    rcases hc : createProviderConfig req st.spec with e | spec
    · dsimp only
      intro h; cases h
    · dsimp only
      rcases hm : st.kube.createModelConfig { Name := req.Name, Spec := spec } with e | k'
      · dsimp only
        intro h; cases h
      · dsimp only
        intro h
        cases h
        refine ⟨st, spec, rfl, hc, rfl, ?_⟩
        rw [createModelConfig_ok _ _ _ hm]

end Handlers

namespace Handlers

theorem createPrelude_error_skip (k : Kube) (req : CreateModelConfigRequest) (out : Outcome)
    (hs : req.Provider.Type_ = Ollama ∨ req.APIKey = "")
    (h : createPrelude k req = Except.error out) :
    out.calls = [Call.get Kind.modelConfig req.Name] := by
  revert h
  unfold createPrelude
  dsimp only
  rw [if_pos hs]
  repeat' split
  all_goals intro h
  all_goals first
    | (cases h; done)
    | (cases h; rfl)

/-- The calls of the cleanup: those made before, and at most one Delete. -/
theorem createCleanup_calls (req : CreateModelConfigRequest) (st : CreateState) :
    (createCleanup req st).2 = st.calls ∨
      (createCleanup req st).2 = st.calls ++ [Call.delete Kind.secret st.secret.Name] := by
  unfold createCleanup
  repeat' split
  · exact Or.inr rfl
  · exact Or.inr rfl
  · exact Or.inl rfl

/-- The calls of `HandleCreateModelConfig` for a decoded request: those of the
first part, then possibly the Create of the ModelConfig, then possibly the
Delete of the cleanup. -/
theorem create_calls (k : Kube) (req : CreateModelConfigRequest) :
    (∃ out, createPrelude k req = Except.error out ∧
        (HandleCreateModelConfig k (some req)).calls = out.calls) ∨
    ∃ st, createPrelude k req = Except.ok st ∧ ∃ l,
      (HandleCreateModelConfig k (some req)).calls = st.calls ++ l ∧
      ∀ call ∈ l, call = Call.create Kind.modelConfig req.Name ∨
        call = Call.delete Kind.secret st.secret.Name := by
  unfold HandleCreateModelConfig
  dsimp only
  rcases hp : createPrelude k req with out | st
  · exact Or.inl ⟨out, rfl, rfl⟩
  · refine Or.inr ⟨st, rfl, ?_⟩
    dsimp only
    rcases hc : createProviderConfig req st.spec with e | spec
    · dsimp only
      rcases createCleanup_calls req st with h | h
      · exact ⟨[], by simp [h], by simp⟩
      · exact ⟨[Call.delete Kind.secret st.secret.Name], by simp [h], by simp⟩
    · dsimp only
      rcases hm : st.kube.createModelConfig { Name := req.Name, Spec := spec } with e | k'
      · dsimp only
        rcases createCleanup_calls req
          { st with calls := st.calls ++ [Call.create Kind.modelConfig req.Name] } with h | h
        · exact ⟨[Call.create Kind.modelConfig req.Name], by simp [h], by simp⟩
        · exact ⟨[Call.create Kind.modelConfig req.Name, Call.delete Kind.secret st.secret.Name],
            by simp [h], by simp⟩
      · exact ⟨[Call.create Kind.modelConfig req.Name], by simp, by simp⟩

/-- The calls of `HandleCreateModelConfig` that create a secret: none when the
secret step is skipped, at most the one for the request's name otherwise. -/
theorem create_secret_calls (k : Kube) (req : CreateModelConfigRequest) :
    ((req.Provider.Type_ = Ollama ∨ req.APIKey = "") →
      (HandleCreateModelConfig k (some req)).calls.filter Call.isCreateSecret = []) ∧
    ((HandleCreateModelConfig k (some req)).calls.filter Call.isCreateSecret = [] ∨
      (HandleCreateModelConfig k (some req)).calls.filter Call.isCreateSecret =
        [Call.create Kind.secret req.Name]) := by
  have hl : ∀ (l : List Call) (n : String),
      (∀ call ∈ l, call = Call.create Kind.modelConfig req.Name ∨
        call = Call.delete Kind.secret n) → l.filter Call.isCreateSecret = [] := by
    intro l n h
    rw [List.filter_eq_nil_iff]
    intro call hc
    rcases h call hc with rfl | rfl <;> simp [Call.isCreateSecret]
  rcases create_calls k req with ⟨out, hp, hc⟩ | ⟨st, hp, l, hc, hmem⟩
  · rw [hc]
    constructor
    · intro hs
      rw [createPrelude_error_skip k req out hs hp]
      rfl
    · rcases (createPrelude_error_kube k req out hp).2.2 with h | h
      · exact Or.inl (by rw [h]; rfl)
      · exact Or.inr (by rw [h]; rfl)
  · rw [hc, List.filter_append, hl l _ hmem, List.append_nil]
    rcases createPrelude_ok_cases k req st hp with ⟨hs, rfl⟩ | ⟨hn, k', _, rfl⟩
    · exact ⟨fun _ => rfl, Or.inl rfl⟩
    · exact ⟨fun hs => absurd hs hn, Or.inr rfl⟩

end Handlers

namespace Handlers

/-! ## The cleanup of `HandleCreateModelConfig` -/

/-- The cleanup when no secret was created: the variable `secret` is the empty
object, and a store without an object of the empty name is left as it is. -/
theorem createCleanup_skip (req : CreateModelConfigRequest) (st : CreateState)
    (hsec : st.secret.Name = "") (hname : ∀ s ∈ st.kube.secrets, s.Name ≠ "") :
    (createCleanup req st).1 = st.kube := by
  have hany : st.kube.secrets.any (fun x => decide (x.Name = "")) = false := by
    rw [List.any_eq_false]
    intro x hx
    simpa using hname x hx
  have hdelete : ∀ k', st.kube.deleteSecret st.secret ≠ Except.ok k' := by
    intro k'
    unfold Kube.deleteSecret
    rw [hsec, hany]
    split_ifs <;> first | contradiction | simp
  unfold createCleanup
  split
  · split
    · rename_i k' h
      exact absurd h (hdelete k')
    · rfl
  · rfl

/-- The cleanup when the secret was created: the Delete, when the store does
not fail it, takes the secret out again. -/
theorem createCleanup_created (req : CreateModelConfigRequest) (st : CreateState) (k : Kube)
    (hn : req.Provider.Type_ ≠ Ollama)
    (hk : st.kube = { k with secrets := st.secret :: k.secrets })
    (hfresh : ∀ x ∈ k.secrets, x.Name ≠ st.secret.Name)
    (hdel : Call.delete Kind.secret st.secret.Name ∉ k.failing) :
    (createCleanup req st).1 = k := by
  have hfilter : (st.secret :: k.secrets).filter (fun x => decide (x.Name ≠ st.secret.Name)) =
      k.secrets := by
    rw [List.filter_cons_of_neg (by simp)]
    rw [List.filter_eq_self]
    intro x hx
    simpa using hfresh x hx
  have hdelete : st.kube.deleteSecret st.secret = Except.ok k := by
    unfold Kube.deleteSecret
    rw [hk]
    dsimp only
    rw [if_neg hdel, if_pos (by simp), hfilter]
  unfold createCleanup
  rw [if_pos hn, hdelete]

end Handlers

namespace Handlers

/-- The cleanup after a successful first part restores the store the request
found, when the store does not fail the Delete of the request's secret and
holds no secret of the empty name. -/
theorem createCleanup_restores (k : Kube) (req : CreateModelConfigRequest)
    (st : CreateState) (calls : List Call)
    (hdel : Call.delete Kind.secret req.Name ∉ k.failing)
    (hname : ∀ s ∈ k.secrets, s.Name ≠ "")
    (hp : createPrelude k req = Except.ok st) :
    (createCleanup req { st with calls := calls }).1 = k := by
  rcases createPrelude_ok_cases k req st hp with ⟨_, rfl⟩ | ⟨hn, k', hk, rfl⟩
  · exact createCleanup_skip req _ rfl hname
  · obtain ⟨hk', hfresh⟩ := createSecret_ok _ _ _ hk
    exact createCleanup_created req _ k (fun h => hn (Or.inl h)) hk' hfresh hdel

/-- Every create request that is answered with an error leaves the store as it
found it, when the store does not fail the Delete of the request's secret and
holds no secret of the empty name. -/
theorem create_error_restores (k : Kube) (req : CreateModelConfigRequest)
    (hdel : Call.delete Kind.secret req.Name ∉ k.failing)
    (hname : ∀ s ∈ k.secrets, s.Name ≠ "")
    (herr : (HandleCreateModelConfig k (some req)).response.isError = true) :
    (HandleCreateModelConfig k (some req)).kube = k := by
  revert herr
  unfold HandleCreateModelConfig
  dsimp only
  rcases hp : createPrelude k req with out | st
  · intro _
    exact (createPrelude_error_kube k req out hp).1
  · dsimp only
    rcases hc : createProviderConfig req st.spec with e | spec
    · intro _
      exact createCleanup_restores k req st st.calls hdel hname hp
    · dsimp only
      rcases hm : st.kube.createModelConfig { Name := req.Name, Spec := spec } with e | k'
      · intro _
        exact createCleanup_restores k req st _ hdel hname hp
      · intro h
        cases h

end Handlers

namespace Handlers

/-! ## The first part of `HandleUpdateModelConfig` -/

theorem updatePrelude_error_kube (k : Kube) (name : String) (req : UpdateModelConfigRequest)
    (out : Outcome) (h : updatePrelude k name req = Except.error out) :
    out.kube = k ∧ out.response.isError = true := by
  revert h
  unfold updatePrelude
  dsimp only
  repeat' split
  all_goals intro h
  all_goals first
    | (cases h; done)
    | (cases h; exact ⟨rfl, rfl⟩)

/-- The first part of `HandleUpdateModelConfig`, when it succeeds: the spec of
the stored ModelConfig is replaced, and either the secret step is skipped, or
the secret named after the config is created (when absent) or updated. -/
theorem updatePrelude_ok_cases (k : Kube) (name : String) (req : UpdateModelConfigRequest)
    (st : UpdateState) (h : updatePrelude k name req = Except.ok st) :
    ∃ mc, k.getModelConfig name = Except.ok mc ∧
      ((req.keepsSecret ∧
          st = ⟨k, { mc with Spec := updateSpec req }, [Call.get Kind.modelConfig name]⟩) ∨
       (¬ req.keepsSecret ∧ ∃ apiKey, req.APIKey = some apiKey ∧
          st.modelConfig = { mc with Spec := { updateSpec req with APIKeySecretRef := name, APIKeySecretKey := secretKeyOf req.Provider.Type_ } } ∧
          ((k.createSecret ⟨name, [(secretKeyOf req.Provider.Type_, apiKey)]⟩ = Except.ok st.kube ∧
              st.calls = [Call.get Kind.modelConfig name, Call.get Kind.secret name,
                Call.create Kind.secret name]) ∨
           (∃ s, k.getSecret name = Except.ok s ∧
              k.updateSecret { s with StringData := setStringData s.StringData (secretKeyOf req.Provider.Type_) apiKey } = Except.ok st.kube ∧
              st.calls = [Call.get Kind.modelConfig name, Call.get Kind.secret name,
                Call.update Kind.secret name])))) := by
  revert h
  unfold updatePrelude
  dsimp only
  rcases hg : k.getModelConfig name with e | mc
  · dsimp only
    split_ifs <;> (intro h; cases h)
  · dsimp only
    refine fun h => ⟨mc, rfl, ?_⟩
    revert h
    rcases hk : req.APIKey with _ | apiKey
    · dsimp only
      intro h
      cases h
      exact Or.inl ⟨Or.inl hk, rfl⟩
    · dsimp only
      by_cases hs : apiKey ≠ "" ∧ req.Provider.Type_ ≠ Ollama
      · rw [if_neg (not_not.mpr hs)]
        have hkeep : ¬ req.keepsSecret := by
          rintro (h1 | h1 | h1)
          · rw [hk] at h1; cases h1
          · rw [hk] at h1
            exact hs.1 (Option.some.inj h1)
          · exact hs.2 h1
        rcases hsec : k.getSecret name with e | s
        · cases e
          · dsimp only
            rcases hc : k.createSecret ⟨name, [(secretKeyOf req.Provider.Type_, apiKey)]⟩ with e | k'
            · intro h; cases h
            · intro h
              cases h
              exact Or.inr ⟨hkeep, apiKey, rfl, rfl, Or.inl ⟨hc, rfl⟩⟩
          · intro h; cases h
          · intro h; cases h
        · dsimp only
          rcases hu : k.updateSecret { s with StringData := setStringData s.StringData (secretKeyOf req.Provider.Type_) apiKey } with e | k'
          · intro h; cases h
          · intro h
            cases h
            exact Or.inr ⟨hkeep, apiKey, rfl, rfl, Or.inr ⟨s, rfl, hu, rfl⟩⟩
      · rw [if_pos hs]
        intro h
        cases h
        refine Or.inl ⟨?_, rfl⟩
        by_cases ha : apiKey = ""
        · exact Or.inr (Or.inl (by rw [hk, ha]))
        · exact Or.inr (Or.inr (by
            by_contra hne
            exact hs ⟨ha, hne⟩))

end Handlers

namespace Handlers

/-! ## The store calls of `HandleUpdateModelConfig` -/

theorem getModelConfig_ok (k : Kube) (name : String) (c : ModelConfig)
    (h : k.getModelConfig name = Except.ok c) :
    c.Name = name ∧ c ∈ k.modelConfigs ∧ Call.get Kind.modelConfig name ∉ k.failing ∧
      k.modelConfigs.find? (fun x => x.Name = name) = some c := by
  revert h
  unfold Kube.getModelConfig
  split_ifs with hf
  · intro h; cases h
  · split
    · rename_i c' hfind
      intro h
      cases h
      refine ⟨?_, List.mem_of_find?_eq_some hfind, hf, hfind⟩
      simpa using List.find?_some hfind
    · intro h; cases h

theorem getSecret_ok (k : Kube) (name : String) (s : Secret)
    (h : k.getSecret name = Except.ok s) : s.Name = name ∧ s ∈ k.secrets := by
  revert h
  unfold Kube.getSecret
  split_ifs with hf
  · intro h; cases h
  · split
    · rename_i s' hfind
      intro h
      cases h
      refine ⟨?_, List.mem_of_find?_eq_some hfind⟩
      simpa using List.find?_some hfind
    · intro h; cases h

theorem updateSecret_ok (k k' : Kube) (s : Secret) (h : k.updateSecret s = Except.ok k') :
    k' = { k with secrets := k.secrets.map fun x => if x.Name = s.Name then s else x } := by
  revert h
  unfold Kube.updateSecret
  split_ifs
  · intro h; cases h
  · intro h; cases h; rfl
  · intro h; cases h

theorem updateModelConfig_ok (k k' : Kube) (c : ModelConfig)
    (h : k.updateModelConfig c = Except.ok k') :
    k' = { k with modelConfigs := k.modelConfigs.map fun x => if x.Name = c.Name then c else x } ∧
      Call.update Kind.modelConfig c.Name ∉ k.failing := by
  revert h
  unfold Kube.updateModelConfig
  split_ifs with h1 h2
  · intro h; cases h
  · intro h; cases h; exact ⟨rfl, h1⟩
  · intro h; cases h

/-- Putting an object in the place of those of its name leaves the objects
of another name as they are. -/
theorem filter_map_replace (l : List Secret) (s : Secret) :
    (l.map fun x => if x.Name = s.Name then s else x).filter (fun x => decide (x.Name ≠ s.Name)) =
      l.filter (fun x => decide (x.Name ≠ s.Name)) := by
  induction l with
  | nil => rfl
  | cons a l ih =>
    rw [List.map_cons]
    by_cases ha : a.Name = s.Name
    · rw [if_pos ha, List.filter_cons_of_neg (by simp), List.filter_cons_of_neg (by simp [ha]), ih]
    · rw [if_neg ha, List.filter_cons_of_pos (by simp [ha]),
        List.filter_cons_of_pos (by simp [ha]), ih]

/-- The first part of `HandleUpdateModelConfig` touches no ModelConfig and no
secret other than the one named after the config. -/
theorem updatePrelude_kube (k : Kube) (name : String) (req : UpdateModelConfigRequest)
    (st : UpdateState) (h : updatePrelude k name req = Except.ok st) :
    st.kube.modelConfigs = k.modelConfigs ∧ st.kube.failing = k.failing ∧
      st.kube.secrets.filter (fun x => decide (x.Name ≠ name)) =
        k.secrets.filter (fun x => decide (x.Name ≠ name)) ∧
      (req.keepsSecret → st.kube = k) := by
  obtain ⟨mc, _, h1 | ⟨hn, apiKey, _, _, h2 | ⟨s, hs, h2, _⟩⟩⟩ := updatePrelude_ok_cases k name req st h
  · rw [h1.2]
    exact ⟨rfl, rfl, rfl, fun _ => rfl⟩
  · rw [(createSecret_ok _ _ _ h2.1).1]
    refine ⟨rfl, rfl, ?_, fun hk => absurd hk hn⟩
    dsimp only
    rw [List.filter_cons_of_neg (by simp)]
  · rw [updateSecret_ok _ _ _ h2]
    refine ⟨rfl, rfl, ?_, fun hk => absurd hk hn⟩
    have hname := (getSecret_ok k name s hs).1
    dsimp only
    rw [← hname]
    exact filter_map_replace k.secrets { s with StringData := setStringData s.StringData (secretKeyOf req.Provider.Type_) apiKey }

/-- How `HandleUpdateModelConfig` ends for a decoded request: in its first
part, or after it with the store the first part left, or with the ModelConfig
updated. -/
theorem update_cases (k : Kube) (name : String) (req : UpdateModelConfigRequest) :
    (∃ out, updatePrelude k name req = Except.error out ∧
      HandleUpdateModelConfig k (some name) (some req) = out) ∨
    (∃ st, updatePrelude k name req = Except.ok st ∧
      (HandleUpdateModelConfig k (some name) (some req)).response.isError = true ∧
      (HandleUpdateModelConfig k (some name) (some req)).kube = st.kube) ∨
    (∃ st spec k', updatePrelude k name req = Except.ok st ∧
      updateProviderConfig req st.modelConfig.Spec = Except.ok spec ∧
      st.kube.updateModelConfig { st.modelConfig with Spec := spec } = Except.ok k' ∧
      HandleUpdateModelConfig k (some name) (some req) =
        ⟨Response.ok { st.modelConfig with Spec := spec }, k',
          st.calls ++ [Call.update Kind.modelConfig st.modelConfig.Name]⟩) := by
  unfold HandleUpdateModelConfig
  dsimp only
  rcases hp : updatePrelude k name req with out | st
  · exact Or.inl ⟨out, rfl, rfl⟩
  · dsimp only
    rcases hc : updateProviderConfig req st.modelConfig.Spec with e | spec
    · exact Or.inr (Or.inl ⟨st, rfl, rfl, rfl⟩)
    · dsimp only
      rcases hm : st.kube.updateModelConfig { st.modelConfig with Spec := spec } with e | k'
      · exact Or.inr (Or.inl ⟨st, rfl, rfl, rfl⟩)
      · exact Or.inr (Or.inr ⟨st, spec, k', rfl, hc, hm, rfl⟩)

end Handlers

namespace Handlers

/-! ## A successful update -/

/-- The switch of `HandleUpdateModelConfig` on a spec without params blocks:
it sets at most the block of the provider, and nothing else of the spec. -/
theorem updateProviderConfig_ok (req : UpdateModelConfigRequest) (spec spec' : ModelConfigSpec)
    (h1 : spec.OpenAI = none) (h2 : spec.Anthropic = none) (h3 : spec.AzureOpenAI = none)
    (h4 : spec.Ollama = none) (h5 : spec.GeminiVertexAI = none)
    (h6 : spec.AnthropicVertexAI = none)
    (h : updateProviderConfig req spec = Except.ok spec') :
    (spec'.paramsSet = [] ∨ spec'.paramsSet = [spec.Provider]) ∧
      spec'.Model = spec.Model ∧ spec'.Provider = spec.Provider ∧
      spec'.APIKeySecretRef = spec.APIKeySecretRef ∧
      spec'.APIKeySecretKey = spec.APIKeySecretKey := by
  revert h
  unfold updateProviderConfig
  repeat' split
  all_goals intro h
  all_goals first
    | (cases h; done)
    | (cases h; simp_all [ModelConfigSpec.paramsSet])

/-- Putting a ModelConfig in the place of those of its name makes it the one
found under that name. -/
theorem find_map_replace (l : List ModelConfig) (c mc : ModelConfig) (name : String)
    (hc : c.Name = name) (h : l.find? (fun x => x.Name = name) = some mc) :
    (l.map fun x => if x.Name = c.Name then c else x).find? (fun x => x.Name = name) =
      some c := by
  induction l with
  | nil => cases h
  | cons a l ih =>
    rw [List.map_cons]
    by_cases ha : a.Name = name
    · rw [if_pos (by rw [ha, hc]), List.find?_cons_of_pos _ (by simp [hc])]
    · rw [if_neg (by rw [hc]; exact ha), List.find?_cons_of_neg _ (by simp [ha])]
      rw [List.find?_cons_of_neg _ (by simp [ha])] at h
      exact ih h

end Handlers

namespace SseClient

/-! ## The first line that does not fit -/

theorem scanSpec_stop (M : Nat) (ls : List (List Byte)) (l : List Byte)
    (rest : List (List Byte)) (fin : List Byte)
    (hls : ∀ x ∈ ls, x.length < M) (hl : M ≤ l.length) :
    scanSpec M (ls ++ l :: rest) fin = ls.map dropCR := by
  induction ls with
  | nil =>
    simp only [List.nil_append, scanSpec, List.map_nil]
    rw [if_neg (by omega)]
  | cons a ls ih =>
    simp only [List.cons_append, scanSpec, List.map_cons, List.append_eq]
    rw [if_pos (hls a (List.mem_cons_self _ _)), ih (fun x hx => hls x (List.mem_cons_of_mem _ hx))]

theorem scanSpec_long_tail (M : Nat) (ls : List (List Byte)) (fin : List Byte)
    (hls : ∀ x ∈ ls, x.length < M) (hfin : M ≤ fin.length) :
    scanSpec M ls fin = ls.map dropCR := by
  induction ls with
  | nil =>
    simp only [scanSpec, List.map_nil]
    rw [if_pos (Or.inr hfin)]
  | cons a ls ih =>
    simp only [scanSpec, List.map_cons]
    rw [if_pos (hls a (List.mem_cons_self _ _)), ih (fun x hx => hls x (List.mem_cons_of_mem _ hx))]

/-- A newline-terminated line of 65536 bytes or more ends the production: the
records are those of the lines before it. -/
theorem records_stop_at_long_line (r : Reader) (ls : List (List Byte)) (l : List Byte)
    (rest : List (List Byte)) (fin : List Byte)
    (hls : ∀ x ∈ ls, LF ∉ x ∧ x.length < MaxScanTokenSize)
    (hl : LF ∉ l) (hlen : MaxScanTokenSize ≤ l.length)
    (hrest : ∀ x ∈ rest, LF ∉ x) (hfin : LF ∉ fin)
    (hr : delivered r = joinLines (ls ++ l :: rest) ++ fin) :
    records r = decode [] (ls.map dropCR) := by
  have hall : ∀ x ∈ ls ++ l :: rest, LF ∉ x := by
    intro x hx
    rcases List.mem_append.mp hx with h | h
    · exact (hls x h).1
    · rcases List.mem_cons.mp h with rfl | h
      · exact hl
      · exact hrest x h
  rcases records_cases_of_join r (ls ++ l :: rest) fin hall hfin hr with h | ⟨_, h2, _⟩
  · rw [h, scanSpec_stop _ _ _ _ _ (fun x hx => (hls x hx).2) hlen]
  · have := h2 l (by simp)
    omega

/-- A last line without newline of more than 65536 bytes ends the production:
the records are those of the lines before it. -/
theorem records_stop_at_long_tail (r : Reader) (ls : List (List Byte)) (fin : List Byte)
    (hls : ∀ x ∈ ls, LF ∉ x ∧ x.length < MaxScanTokenSize)
    (hfin : LF ∉ fin) (hlen : MaxScanTokenSize < fin.length)
    (hr : delivered r = joinLines ls ++ fin) :
    records r = decode [] (ls.map dropCR) := by
  rcases records_cases_of_join r ls fin (fun x hx => (hls x hx).1) hfin hr with h | ⟨h1, _, _⟩
  · rw [h, scanSpec_long_tail _ _ _ (fun x hx => (hls x hx).2) (by omega)]
  · omega

theorem boundaryLineFirst_records : records boundaryLineFirst = [] := by
  apply no_records_after_long_line (List.replicate MaxScanTokenSize 120)
    [[100, 97, 116, 97, 58, 32, 97], List.replicate (MaxScanTokenSize + 1) 120]
  · exact replicate_no_LF _
  · intro x hx
    simp only [List.mem_cons, List.mem_singleton, List.not_mem_nil, or_false] at hx
    rcases hx with rfl | rfl
    · decide
    · exact replicate_no_LF _
  · simp
  · simp [boundaryLineFirst, delivered_single]

end SseClient

namespace SseClient

/-! ## A last line that fills the buffer and ends with the stream -/
namespace Scanner

/-- The read of `Scan` when the last result of the stream does not fit. -/
theorem fill_last_part {s : Scanner} (hI : Inv s) (herr : s.err = none) (hlt : s.stop < s.cap)
    (Y : List Byte) (e : Err) (hr : s.r = [⟨Y, some e⟩]) (hk : s.cap - s.stop < Y.length) :
    s.fill.r = [⟨Y.drop (s.cap - s.stop), some e⟩] ∧ s.fill.err = none ∧
      s.fill.window = s.window ++ Y.take (s.cap - s.stop) := by
  have hw := window_fill hI
  have hread := readLoop_cons_lt maxConsecutiveEmptyReads Y (some e) [] (s.cap - s.stop)
    (by omega) hk
  rw [hr, hread] at hw
  refine ⟨?_, ?_, hw⟩
  · unfold fill
    rw [hr, hread]
  · unfold fill
    rw [hr, hread]
    exact herr

/-- The read of `Scan` when the last result of the stream fits: its error is
set with its bytes in the buffer. -/
theorem fill_last_whole {s : Scanner} (hI : Inv s) (herr : s.err = none)
    (Y : List Byte) (e : Err) (hr : s.r = [⟨Y, some e⟩]) (hk : Y.length ≤ s.cap - s.stop) :
    s.fill.err = some e ∧ s.fill.window = s.window ++ Y := by
  have hw := window_fill hI
  have hread := readLoop_cons_err maxConsecutiveEmptyReads Y e [] (s.cap - s.stop) hk
  rw [hr, hread] at hw
  refine ⟨?_, hw⟩
  unfold fill
  rw [hr, hread]
  simp [setErr, herr]

/-- When the stream reports its end with the read that delivers the last bytes
of an unterminated line, `Scan` returns that line if it fits the buffer, also
when it fills the buffer to its maximal size. -/
theorem scanLoop_last_read (n : Nat) : ∀ (s : Scanner) (Y : List Byte) (e : Err),
    Inv s → s.err = none → s.r = [⟨Y, some e⟩] → Y ≠ [] → LF ∉ s.window → LF ∉ Y →
    s.window.length + Y.length ≤ s.maxTokenSize → Y.length + 3 ≤ n →
    (scanLoop n s).1 = some (dropCR (s.window ++ Y)) := by
  induction n with
  | zero => intro s Y e _ _ _ _ _ _ _ hn; omega
  | succ n ih =>
    intro s Y e hI herr hr hY hW hYl hlen hn
    have hYpos : 0 < Y.length := List.length_pos.mpr hY
    have hidx : IndexByte s.window LF = none := IndexByte_eq_none.mpr hW
    have hsplit : (if s.start < s.stop ∨ s.err.isSome then ScanLines s.window s.err.isSome
        else (0, none)) = (0, none) := by
      by_cases h : s.start < s.stop <;> simp [herr, h, ScanLines_more hidx]
    rw [scanLoop_read n s 0 hsplit herr]
    have hI1 : Inv ({ s with start := s.start + 0, tokAt := s.start } : Scanner) :=
      Inv_advance hI 0 _ (Nat.zero_le _)
    have hw1 : ({ s with start := s.start + 0, tokAt := s.start } : Scanner).window
        = s.window := by
      rw [window_advance hI 0 _ (Nat.zero_le _)]; simp
    have hf1 : ({ s with start := s.start + 0, tokAt := s.start } : Scanner).r = s.r ∧
      ({ s with start := s.start + 0, tokAt := s.start } : Scanner).err = none ∧
      ({ s with start := s.start + 0, tokAt := s.start } : Scanner).maxTokenSize
        = s.maxTokenSize := ⟨rfl, herr, rfl⟩
    generalize ({ s with start := s.start + 0, tokAt := s.start } : Scanner) = s1 at *
    obtain ⟨g1, g2, g3⟩ := hf1
    have hI2 := Inv_compact hI1
    have hw2 := window_compact hI1
    obtain ⟨f1, f2, f3, f4⟩ := compact_fields s1
    have hfull := compact_full hI1
    have hw2l := window_length hI2
    generalize s1.compact = s2 at *
    have he2 : s2.err = none := by rw [f2, g2]
    have hm2 : s2.maxTokenSize = s.maxTokenSize := by rw [f3, g3]
    have hr2 : s2.r = [⟨Y, some e⟩] := by rw [f1, g1, hr]
    have hws : s2.window = s.window := by rw [hw2, hw1]
    -- what the read and the iterations after it give
    have step : ∀ s3 : Scanner, Inv s3 → s3.err = none → s3.stop < s3.cap →
        s3.r = [⟨Y, some e⟩] → s3.window = s.window → s3.maxTokenSize = s.maxTokenSize →
        (scanLoop n s3.fill).1 = some (dropCR (s.window ++ Y)) := by
      intro s3 hI3 he3 hlt3 hr3 hw3 hm3
      obtain ⟨k1, _, _, k4⟩ := fill_spec hI3 he3 hlt3
      by_cases hk : s3.cap - s3.stop < Y.length
      · obtain ⟨q1, q2, q3⟩ := fill_last_part hI3 he3 hlt3 Y e hr3 hk
        have hYmem : ∀ x ∈ Y.take (s3.cap - s3.stop), x ∈ Y := fun x hx => List.mem_of_mem_take hx
        have hYmem' : ∀ x ∈ Y.drop (s3.cap - s3.stop), x ∈ Y := fun x hx => List.mem_of_mem_drop hx
        have := ih s3.fill (Y.drop (s3.cap - s3.stop)) e k1 q2 q1
          (by
            intro h
            have hl := congrArg List.length h
            rw [List.length_drop] at hl
            simp at hl
            omega)
          (by
            rw [q3, hw3]
            intro h
            rcases List.mem_append.mp h with h | h
            · exact hW h
            · exact hYl (hYmem _ h))
          (fun h => hYl (hYmem' _ h))
          (by
            rw [q3, hw3, k4, hm3, List.length_append, List.length_take, List.length_drop]
            omega)
          (by
            rw [List.length_drop]
            omega)
        rw [this, q3, hw3, List.append_assoc, List.take_append_drop]
      · obtain ⟨q1, q2⟩ := fill_last_whole hI3 he3 Y e hr3 (by omega)
        have hnl : IndexByte s3.fill.window LF = none := by
          rw [q2, hw3]
          apply IndexByte_eq_none.mpr
          intro h
          rcases List.mem_append.mp h with h | h
          · exact hW h
          · exact hYl h
        have hne : s3.fill.window ≠ [] := by
          rw [q2]
          intro h
          exact hY (List.append_eq_nil.mp h).2
        have hsp : (if s3.fill.start < s3.fill.stop ∨ s3.fill.err.isSome
            then ScanLines s3.fill.window s3.fill.err.isSome else (0, none))
            = (s3.fill.window.length, some (dropCR s3.fill.window)) := by
          simp [q1, ScanLines_eof_rest hnl hne]
        obtain ⟨m, rfl⟩ : ∃ m, n = m + 1 := ⟨n - 1, by omega⟩
        rw [scanLoop_token m s3.fill _ _ hsp, q2, hw3]
    simp only
    by_cases hc : s2.stop = s2.cap
    · rw [if_pos hc]
      have h0 := hfull hc
      have hbig : ¬ (s2.maxTokenSize ≤ s2.cap ∨ maxInt / 2 < s2.cap) := by
        have := hI2.cap_le
        have := hI2.max_le
        have hl : s.window.length = s2.stop - s2.start := by rw [← hws, hw2l]
        rw [hm2]
        omega
      rw [if_neg hbig]
      push_neg at hbig
      obtain ⟨hG, hlt⟩ := Inv_grow hI2 hc hbig.1
      have hwg := window_grow hI2
      exact step s2.grow hG (by simp [grow, he2]) hlt (by simp [grow, hr2])
        (by rw [hwg, hws]) (by rw [← hm2]; simp [grow])
    · rw [if_neg hc]
      have hlt : s2.stop < s2.cap := by
        have := hI2.stop_le
        have := hI2.buf_le
        omega
      exact step s2 hI2 he2 hlt hr2 hws hm2

/-- The first `Scan` of a stream that delivers an unterminated line of at most
the maximal token size and reports its end with the last bytes of it. -/
theorem Scan_last_read (X : List Byte) (e : Err) (hX : X ≠ []) (hLF : LF ∉ X)
    (hlen : X.length ≤ MaxScanTokenSize) :
    (Scan (NewScanner [⟨X, some e⟩])).1 = some (dropCR X) := by
  have := scanLoop_last_read (readBudget [⟨X, some e⟩] + 2) (NewScanner [⟨X, some e⟩]) X e
    (Inv_NewScanner _) rfl rfl hX (by simp [NewScanner, window]) hLF
    (by simpa [NewScanner, window] using hlen) (by simp [readBudget])
  simpa [Scan, NewScanner, window] using this

end Scanner

open Scanner

/-- The records of a stream that delivers one unterminated line of exactly
the maximal token size and reports its end with the last bytes of it: the
line is read. -/
theorem records_full_last_line (X : List Byte) (e : Err) (hLF : LF ∉ X)
    (hlen : X.length = MaxScanTokenSize) :
    records [⟨X, some e⟩] = decode [] [dropCR X] := by
  have hX : X ≠ [] := by
    intro h
    rw [h] at hlen
    simp [MaxScanTokenSize] at hlen
  have hs : splitLines (delivered [⟨X, some e⟩]) = ([], X) := by
    rw [delivered_single]
    simpa [joinLines] using splitLines_of_join [] X (by simp) hLF
  rw [records_eq_scanned]
  rcases scanned_cases [⟨X, some e⟩] with h | ⟨_, _, h⟩
  · exfalso
    rw [hs] at h
    simp only [scanSpec] at h
    rw [if_pos (Or.inr (by omega))] at h
    have hscan := Scan_last_read X e hX hLF (by omega)
    rcases hsc : Scan (NewScanner [⟨X, some e⟩]) with ⟨t, s'⟩
    rw [hsc] at hscan
    simp only at hscan
    subst hscan
    rw [scannedLines_some _ _ _ _ hsc] at h
    cases h
  · rw [h, hs]
    rfl

end SseClient

namespace SseClient

/-! ## C1: the payloads are those of the `data:` lines -/

/-- C1 (as amended): for every stream whose lines are all shorter than the
scanner's maximal token size (64 KiB), however the stream delivers its bytes
and whatever ends it, the payloads of the records of `streamSseResponse` are,
in order, exactly the bytes after the prefix `data:` of the lines that start
with `data:`, a last line without a newline included; each `data:` line gives
a record of its own. A line is taken without the one carriage return that may
end it, directly before the newline or at the end of a last line without a
newline. -/
theorem C1_payloads_of_data_lines (r : Reader)
    (h : ∀ l ∈ rawLines (delivered r), l.length < MaxScanTokenSize) :
    (records r).map Prod.snd = dataPayloads (lines (delivered r)) := by
  rw [records_of_short_lines r h, decode_payloads]

/-- C1, witness: `data: a`, newline, `data: b` without a newline gives the two
payloads ` a` and ` b`. -/
theorem C1_payloads_of_data_lines_witness :
    (∀ l ∈ rawLines (delivered twoDataLines), l.length < MaxScanTokenSize) ∧
      (records twoDataLines).map Prod.snd = [[32, 97], [32, 98]] :=
  ⟨by decide, by rw [C1_payloads_of_data_lines twoDataLines (by decide)]; decide⟩

/-- C1, counterexample to the claim as stated (for every input, the raw bytes
after the prefix): after a line of 65536 bytes the line `data: a` gives no
record; and the last line `data: a` followed by a carriage return, without a
newline, gives the payload ` a`, while the bytes after its prefix are ` a`
and the carriage return. -/
theorem C1_overlong_line_counterexample :
    (records longLineThenData).map Prod.snd
      ≠ dataPayloads (lines (delivered longLineThenData)) ∧
    (records dataCRAtEnd).map Prod.snd = [[32, 97]] ∧
    dataPayloads (rawLines (delivered dataCRAtEnd)) = [[32, 97, 13]] := by
  refine ⟨?_, by decide, by decide⟩
  intro h
  have hm := longLineThenData_lines
  rw [← h, longLineThenData_records] at hm
  simp at hm

end SseClient

namespace SseClient

/-! ## C2: the event type of a record -/

/-- C2: for every stream and every record `streamSseResponse` produces, the
record is that of a `data:` line of the stream (the `i`-th record that of the
`i`-th `data:` line), its payload is what follows `data:`, and its event type
is what follows `event:` in the most recent `event:` line after the previous
`data:` line (or after the start of the stream), empty when there is no such
line. In particular the text `data: a`, newline, `data: b`, newline gives the
records `("", " a")` and `("", " b")`. -/
theorem C2_event_type_of_record :
    (∀ (r : Reader) (i : Nat) (rec : List Byte × List Byte), (records r)[i]? = some rec →
      ∃ T1 d T2, lines (delivered r) = T1 ++ d :: T2 ∧ HasPrefix d dataPrefix = true ∧
        (dataPayloads T1).length = i ∧
        rec = (pendingEvent T1.reverse, d.drop dataPrefix.length)) ∧
    (∀ r : Reader, delivered r = dataAdataB →
      records r = [([], [32, 97]), ([], [32, 98])]) := by
  constructor
  · intro r i rec h
    obtain ⟨k, hk⟩ := records_prefix r
    rw [hk] at h
    obtain ⟨T1, d, T2, e1, e2, e3, e4⟩ := decode_getElem _ _ _ _ h
    refine ⟨T1, d, T2 ++ (lines (delivered r)).drop k, ?_, e2, e3, e4⟩
    conv_lhs => rw [← List.take_append_drop k (lines (delivered r)), e1]
    simp
  · intro r h
    rw [records_of_short_lines r (by rw [h]; decide), h]
    decide

/-- C2, witness: the second record of `data: a`, `data: b`. -/
theorem C2_event_type_of_record_witness :
    (records [⟨dataAdataB, none⟩])[1]? = some ([], [32, 98]) ∧
    ∃ T1 d T2, lines (delivered [⟨dataAdataB, none⟩]) = T1 ++ d :: T2 ∧
      HasPrefix d dataPrefix = true ∧ (dataPayloads T1).length = 1 ∧
      (([], [32, 98]) : List Byte × List Byte)
        = (pendingEvent T1.reverse, d.drop dataPrefix.length) :=
  ⟨by decide, C2_event_type_of_record.1 [⟨dataAdataB, none⟩] 1 ([], [32, 98]) (by decide)⟩

end SseClient

namespace SseClient

/-! ## C3: streams of `event:`/`data:` pairs -/

/-- C3 (as amended): for every stream whose lines are all shorter than the
scanner's maximal token size and in which every `event:` line is immediately
followed by a `data:` line, `streamSseResponse` produces as many records as
there are `data:` lines, and the record of each `data:` line holds what
follows `data:` in it and what follows `event:` in the line immediately
before it (nothing when that line is no `event:` line). In particular the text
`event: ping`, newline, `data: hello`, newline gives exactly the record
`(" ping", " hello")`. -/
theorem C3_paired_records :
    (∀ r : Reader, (∀ l ∈ rawLines (delivered r), l.length < MaxScanTokenSize) →
      eventsPaired (lines (delivered r)) = true →
      (records r).length = (dataPayloads (lines (delivered r))).length ∧
        records r = pairedRecords [] (lines (delivered r))) ∧
    (∀ r : Reader, delivered r = pingHello →
      records r = [([32, 112, 105, 110, 103], [32, 104, 101, 108, 108, 111])]) := by
  constructor
  · intro r h hp
    rw [records_of_short_lines r h]
    exact ⟨decode_length _ _, decode_of_eventsPaired _ hp⟩
  · intro r h
    rw [records_of_short_lines r (by rw [h]; decide), h]
    decide

/-- C3, witness: the stream that delivers `event: ping`, `data: hello` in one
read. -/
theorem C3_paired_records_witness :
    (∀ l ∈ rawLines (delivered [⟨pingHello, none⟩]), l.length < MaxScanTokenSize) ∧
    eventsPaired (lines (delivered [⟨pingHello, none⟩])) = true ∧
    (records [⟨pingHello, none⟩]).length = 1 ∧
    records [⟨pingHello, none⟩] = pairedRecords [] (lines (delivered [⟨pingHello, none⟩])) :=
  ⟨by decide, by decide,
    (C3_paired_records.1 [⟨pingHello, none⟩] (by decide) (by decide)).1.trans (by decide),
    (C3_paired_records.1 [⟨pingHello, none⟩] (by decide) (by decide)).2⟩

/-- C3, counterexample to the claim as stated (for all inputs): after a line
of 65536 bytes the pair `event: ping`, `data: hello` gives no record, though
every `event:` line is immediately followed by one `data:` line. -/
theorem C3_overlong_line_counterexample :
    eventsPaired (lines (delivered longLineThenPair)) = true ∧
    (records longLineThenPair).length
      ≠ (dataPayloads (lines (delivered longLineThenPair))).length := by
  rw [longLineThenPair_lines, longLineThenPair_records]
  constructor
  · simp only [eventsPaired, long_not_event]
    decide
  · simp only [dataPayloads, List.filter_cons, long_not_data]
    decide

end SseClient

namespace SseClient

/-! ## C4: lines after the last `data:` line -/

/-- C4 (as amended): appending lines that do not start with `data:` (`event:`
lines and lines with neither prefix; the last of them, `last`, may lack its
newline) to a stream of lines leaves the records of `streamSseResponse`
unchanged: an `event:` line with no `data:` line after it contributes no
record. This holds as well when the last line `fin` of the stream had no
newline before the lines were appended, unless that line has exactly the
scanner's maximal token size of 65536 bytes. In particular the text
`event: x`, newline, gives no record. -/
theorem C4_trailing_lines_give_no_record :
    (∀ (r r' : Reader) (ls extra : List (List Byte)) (last : List Byte), (∀ l ∈ ls, LF ∉ l) →
      (∀ l ∈ extra, LF ∉ l ∧ HasPrefix l dataPrefix = false) →
      LF ∉ last → HasPrefix last dataPrefix = false →
      delivered r = joinLines ls → delivered r' = joinLines (ls ++ extra) ++ last →
      records r' = records r) ∧
    (∀ (r r' : Reader) (ls extra : List (List Byte)) (fin last : List Byte),
      (∀ l ∈ ls, LF ∉ l) → (∀ l ∈ extra, LF ∉ l ∧ HasPrefix l dataPrefix = false) →
      LF ∉ last → HasPrefix last dataPrefix = false →
      LF ∉ fin → fin ≠ [] → fin.length ≠ MaxScanTokenSize →
      delivered r = joinLines ls ++ fin →
      delivered r' = joinLines (ls ++ fin :: extra) ++ last →
      records r' = records r) ∧
    (∀ r : Reader, delivered r = eventX → records r = []) := by
  refine ⟨?_, ?_, ?_⟩
  · intro r r' ls extra last hls hex hlast hld hr hr'
    rw [records_of_joinLines r ls hls hr,
      records_with_tail r' ls extra last hls hex hlast hld hr']
  · intro r r' ls extra fin last hls hex hlast hld hfin hne hlen hr hr'
    have hs : splitLines (delivered r) = (ls, fin) := by
      rw [hr]
      exact splitLines_of_join ls fin hls hfin
    have e : ls ++ fin :: extra = (ls ++ [fin]) ++ extra := by simp
    rw [e] at hr'
    rw [records_eq_decode r (by rw [hs]; exact hlen), hs,
      records_with_tail r' (ls ++ [fin]) extra last (by
        intro l hl
        rcases List.mem_append.mp hl with h | h
        · exact hls l h
        · rw [List.mem_singleton.mp h]; exact hfin) hex hlast hld hr',
      scanSpec_terminate _ ls fin hne]
  · intro r h
    rw [records_of_short_lines r (by rw [h]; decide), h]
    decide

/-- C4, witness: `event: x` appended to `data: a`, `data: b`. -/
theorem C4_trailing_lines_give_no_record_witness :
    records [⟨dataAdataB ++ eventX, none⟩] = records [⟨dataAdataB, none⟩] :=
  C4_trailing_lines_give_no_record.1 [⟨dataAdataB, none⟩] [⟨dataAdataB ++ eventX, none⟩]
    [[100, 97, 116, 97, 58, 32, 97], [100, 97, 116, 97, 58, 32, 98]]
    [[101, 118, 101, 110, 116, 58, 32, 120]] [] (by decide) (by decide) (by decide)
    (by decide) (by decide) (by decide)

/-- C4, counterexample to the claim as stated (for every input): the stream
`fullLineAtEnd` ends in a `data:` line of 65536 bytes without a newline, which
is read when the stream reports its end with the last bytes, and gives a
record. With the line `event: x` appended the `data:` line is followed by a
newline, no longer fits the buffer of 65536 bytes, and the record is lost. -/
theorem C4_full_size_last_line_counterexample :
    HasPrefix [101, 118, 101, 110, 116, 58, 32, 120] dataPrefix = false ∧
    delivered fullLineAtEnd = fullDataLine ∧
    delivered fullLineThenEvent =
      joinLines ([] ++ fullDataLine :: [[101, 118, 101, 110, 116, 58, 32, 120]]) ∧
    fullDataLine.length = MaxScanTokenSize ∧
    records fullLineAtEnd = [([], List.replicate 65531 120)] ∧
    records fullLineThenEvent = [] := by
  have hlen : fullDataLine.length = MaxScanTokenSize := by
    unfold fullDataLine
    rw [List.length_append, List.length_replicate]
    rfl
  have hCR : CR ∉ fullDataLine := by
    unfold fullDataLine
    intro h
    rcases List.mem_append.mp h with h | h
    · revert h; decide
    · have := List.eq_of_mem_replicate h
      revert this
      decide
  have hLF : LF ∉ fullDataLine := by
    unfold fullDataLine
    intro h
    rcases List.mem_append.mp h with h | h
    · revert h; decide
    · exact replicate_no_LF _ h
  refine ⟨by decide, delivered_single _ _, delivered_single _ _, hlen, ?_, ?_⟩
  · unfold fullLineAtEnd
    rw [records_full_last_line fullDataLine Err.EOF hLF hlen, dropCR_eq_self _ hCR]
    have h1 : HasPrefix fullDataLine eventPrefix = false := by decide
    have h2 : HasPrefix fullDataLine dataPrefix = true := by decide
    have h3 : TrimPrefix fullDataLine dataPrefix = List.replicate 65531 120 := by
      unfold TrimPrefix
      rw [h2, if_pos rfl]
      unfold fullDataLine
      exact List.drop_left' rfl
    simp only [decode, h1, h2, h3]
    rw [if_pos trivial, if_neg (by decide)]
  · apply no_records_after_long_line fullDataLine [[101, 118, 101, 110, 116, 58, 32, 120]]
    · exact hLF
    · decide
    · omega
    · exact delivered_single _ _

end SseClient

namespace SseClient

/-! ## C5: lines with neither prefix -/

/-- C5 (as amended): lines that start with neither `event:` nor `data:` and
are shorter than the scanner's maximal token size are ignored: for every list
of lines whose lines with neither prefix are all shorter than 64 KiB, removing
all lines with neither prefix does not change the records `streamSseResponse`
produces. -/
theorem C5_ignored_lines (r r' : Reader) (ls : List (List Byte)) (hls : ∀ l ∈ ls, LF ∉ l)
    (hshort : ∀ l ∈ ls, isField l = false → l.length < MaxScanTokenSize)
    (hr : delivered r = joinLines ls) (hr' : delivered r' = joinLines (ls.filter isField)) :
    records r' = records r := by
  rw [records_of_joinLines r ls hls hr, records_of_joinLines r' (ls.filter isField)
    (fun l hl => hls l (List.mem_of_mem_filter hl)) hr']
  exact decode_scanSpec_filter _ ls hshort []

/-- C5, witness: an empty line, a comment and an `id:` line around
`data: a`. -/
theorem C5_ignored_lines_witness :
    records [⟨joinLines [[100, 97, 116, 97, 58, 32, 97]], none⟩] =
      records [⟨joinLines [[], [58, 32, 120], [100, 97, 116, 97, 58, 32, 97],
        [105, 100, 58, 32, 49]], none⟩] :=
  C5_ignored_lines _ _ [[], [58, 32, 120], [100, 97, 116, 97, 58, 32, 97],
    [105, 100, 58, 32, 49]] (by decide) (by decide) (by decide) (by decide)

/-- C5, counterexample to the claim as stated (for every list of lines): a
line of 65536 bytes with neither prefix is not ignored, the `data: a` after it
gives a record only once the long line is removed. -/
theorem C5_overlong_line_counterexample :
    records [⟨joinLines ([List.replicate MaxScanTokenSize 120,
        [100, 97, 116, 97, 58, 32, 97]].filter isField), none⟩]
      ≠ records [⟨joinLines [List.replicate MaxScanTokenSize 120,
        [100, 97, 116, 97, 58, 32, 97]], none⟩] := by
  have h1 : [List.replicate MaxScanTokenSize 120, [100, 97, 116, 97, 58, 32, 97]].filter isField
      = [[100, 97, 116, 97, 58, 32, 97]] := by
    rw [List.filter_cons_of_neg (by decide)]
    decide
  have h2 : records [⟨joinLines [List.replicate MaxScanTokenSize 120,
      [100, 97, 116, 97, 58, 32, 97]], none⟩] = [] :=
    no_records_after_long_line (List.replicate MaxScanTokenSize 120)
      [[100, 97, 116, 97, 58, 32, 97]] _ (replicate_no_LF _) (by decide) (by simp)
      (by simp [delivered_single])
  rw [h1, h2]
  decide

end SseClient

namespace SseClient

/-! ## C6: line endings -/

/-- C6 (as amended): the stream is read line by line, a line ending in a
newline or in a carriage return and a newline: for every list of lines, none
containing a carriage return or a newline and each shorter than 65535 bytes,
the records `streamSseResponse` produces are the same whether the lines are
ended by LF or by CRLF, and no carriage return or newline appears in an event
type or payload; and for every stream whatsoever, no newline appears in an
event type or payload. -/
theorem C6_line_endings :
    (∀ (r r' : Reader) (ls : List (List Byte)),
      (∀ l ∈ ls, CR ∉ l ∧ LF ∉ l ∧ l.length + 1 < MaxScanTokenSize) →
      delivered r = joinWith [LF] ls → delivered r' = joinWith [CR, LF] ls →
      records r' = records r ∧
        ∀ rec ∈ records r, CR ∉ rec.1 ∧ LF ∉ rec.1 ∧ CR ∉ rec.2 ∧ LF ∉ rec.2) ∧
    (∀ (r : Reader), ∀ rec ∈ records r, LF ∉ rec.1 ∧ LF ∉ rec.2) := by
  refine ⟨?_, records_no_LF⟩
  intro r r' ls h hr hr'
  rw [joinWith_LF] at hr
  rw [joinWith_CRLF] at hr'
  have e1 : records r = decode [] ls := by
    rw [records_of_joinLines r ls (fun l hl => (h l hl).2.1) hr,
      scanSpec_short _ _ _ (fun l hl => by have := (h l hl).2.2; omega)
        (by simp [MaxScanTokenSize])]
    simp only [if_true, List.append_nil]
    rw [map_dropCR_self ls (fun l hl => (h l hl).1)]
  have e2 : records r' = decode [] ls := by
    rw [records_of_joinLines r' _ (by
        intro l hl
        obtain ⟨x, hx, rfl⟩ := List.mem_map.mp hl
        have := (h x hx).2.1
        simp only [List.mem_append, List.mem_singleton, not_or]
        exact ⟨this, by decide⟩) hr',
      scanSpec_short _ _ _ (by
        intro l hl
        obtain ⟨x, hx, rfl⟩ := List.mem_map.mp hl
        have := (h x hx).2.2
        simpa using this) (by simp [MaxScanTokenSize])]
    simp only [if_true, List.append_nil]
    rw [map_dropCR_append_CR]
  refine ⟨by rw [e1, e2], ?_⟩
  intro rec hrec
  rw [e1] at hrec
  have a := decode_fields_free CR ls (fun l hl => (h l hl).1) [] (by simp) rec hrec
  have b := decode_fields_free LF ls (fun l hl => (h l hl).2.1) [] (by simp) rec hrec
  exact ⟨a.1, b.1, a.2, b.2⟩

/-- C6, witness: the lines `event: ping`, `data: hello` ended by LF and by
CRLF. -/
theorem C6_line_endings_witness :
    records [⟨joinWith [CR, LF] [[101, 118, 101, 110, 116, 58, 32, 112, 105, 110, 103],
        [100, 97, 116, 97, 58, 32, 104, 101, 108, 108, 111]], none⟩]
      = records [⟨pingHello, none⟩] :=
  (C6_line_endings.1 [⟨pingHello, none⟩] _
    [[101, 118, 101, 110, 116, 58, 32, 112, 105, 110, 103],
      [100, 97, 116, 97, 58, 32, 104, 101, 108, 108, 111]] (by decide) (by decide)
    (by decide)).1

/-- C6, counterexample to the claim as stated: ended by bare carriage returns,
the lines `data: a`, `data: b` give one record, not two, and its payload holds
a carriage return; and a `data:` line of 65535 bytes gives a record when it is
ended by LF and none when it is ended by CRLF. -/
theorem C6_bare_CR_counterexample :
    records [⟨joinWith [CR] [[100, 97, 116, 97, 58, 32, 97], [100, 97, 116, 97, 58, 32, 98]], none⟩]
      ≠ records [⟨joinWith [LF] [[100, 97, 116, 97, 58, 32, 97], [100, 97, 116, 97, 58, 32, 98]],
        none⟩] ∧
    (∃ rec ∈ records [⟨joinWith [CR] [[100, 97, 116, 97, 58, 32, 97],
        [100, 97, 116, 97, 58, 32, 98]], none⟩], CR ∈ rec.2) ∧
    records [⟨joinWith [CR, LF] [longestDataLine], none⟩]
      ≠ records [⟨joinWith [LF] [longestDataLine], none⟩] := by
  refine ⟨by decide, by decide, ?_⟩
  have hLF : LF ∉ longestDataLine := by
    simp only [longestDataLine, List.mem_append, not_or]
    exact ⟨by decide, replicate_no_LF _⟩
  have hlen : longestDataLine.length = 65535 := by
    unfold longestDataLine
    rw [List.length_append, List.length_replicate]
    rfl
  have h1 : records [⟨joinWith [CR, LF] [longestDataLine], none⟩] = [] :=
    no_records_after_long_line (longestDataLine ++ [CR]) [] _
      (by
        simp only [List.mem_append, List.mem_singleton, not_or]
        exact ⟨hLF, by decide⟩)
      (by simp) (by rw [List.length_append, hlen]; decide)
      (by simp [delivered_single, joinWith, joinLines])
  have h2 : records [⟨joinWith [LF] [longestDataLine], none⟩]
      = decode [] (scanSpec MaxScanTokenSize [longestDataLine] []) :=
    records_of_joinLines _ [longestDataLine] (by simpa using hLF)
      (by simp [delivered_single, joinWith, joinLines])
  have hd : HasPrefix (dropCR longestDataLine) dataPrefix = true := by
    rw [HasPrefix_dropCR _ _ CR_not_mem_dataPrefix]
    decide
  rw [h1, h2]
  simp only [scanSpec]
  rw [if_pos (by rw [hlen]; decide)]
  simp [decode, hd]

end SseClient

namespace SseClient

/-! ## C7: read errors and the end of the stream -/

/-- C7: read errors are not distinguished from a clean end of stream: for
every stream, replacing every error its reads report by another error (by
`io.EOF` in particular, so that the stream ends normally where it failed)
changes neither what the goroutine of `streamSseResponse` does nor the records
it produces; so a stream that delivers its bytes in the reads `chunks` and
then fails with the error `e` gives the records of the stream that delivers
the same reads and then reports `io.EOF`. The sequence ends with the two
closes and no error value. A last line that a failing read leaves without a
newline is a line like any other. -/
theorem C7_read_error_like_end_of_stream :
    (∀ (r : Reader) (f : Err → Err),
      streamSseResponse (mapErrors f r) = streamSseResponse r ∧
        records (mapErrors f r) = records r) ∧
    (∀ (chunks : List (List Byte)) (e : Err),
      records (chunks.map (fun d => ⟨d, none⟩) ++ [⟨[], some e⟩])
        = records (chunks.map (fun d => ⟨d, none⟩) ++ [⟨[], some Err.EOF⟩])) ∧
    (∀ r : Reader, ∃ evs : List SseEvent,
      streamSseResponse r = evs.map Effect.send ++ [Effect.closeReader, Effect.closeChan]) ∧
    records [⟨[100, 97, 116, 97, 58, 32, 97, 10, 100, 97, 116, 97, 58, 32, 98],
        some (Err.other 1)⟩] = [([], [32, 97]), ([], [32, 98])] := by
  refine ⟨fun r f => ⟨streamSseResponse_mapErrors f r, ?_⟩, ?_, fun r => ⟨(runLoop r).1, rfl⟩,
    by decide⟩
  · simp only [records, streamSseResponse_mapErrors]
  · intro chunks e
    have h := streamSseResponse_mapErrors (fun _ => Err.EOF)
      (chunks.map (fun d => (⟨d, none⟩ : ReadResult)) ++ [⟨[], some e⟩])
    have hm : mapErrors (fun _ => Err.EOF)
        (chunks.map (fun d => (⟨d, none⟩ : ReadResult)) ++ [⟨[], some e⟩])
        = chunks.map (fun d => (⟨d, none⟩ : ReadResult)) ++ [⟨[], some Err.EOF⟩] := by
      simp [mapErrors, List.map_append, List.map_map, Function.comp_def]
    rw [hm] at h
    simp only [records, h]

/-! ## C8: closing the stream -/

/-- C8: however the loop of the producer ends (end of stream, read error, a
line that is too long), the producer closes the input stream exactly once,
after the last record has been sent and before it closes the channel. -/
theorem C8_stream_closed_once (r : Reader) :
    (streamSseResponse r).count Effect.closeReader = 1 ∧
    ∃ evs : List SseEvent,
      streamSseResponse r = evs.map Effect.send ++ [Effect.closeReader, Effect.closeChan] := by
  refine ⟨?_, (runLoop r).1, rfl⟩
  simp only [streamSseResponse, List.count_append]
  have h : List.count Effect.closeReader ((runLoop r).1.map Effect.send) = 0 := by
    rw [List.count_eq_zero]
    intro hmem
    obtain ⟨e, _, he⟩ := List.mem_map.mp hmem
    cases he
  rw [h]
  decide

/-! ## C9: the payload of a record and the buffer of the scanner -/

set_option maxRecDepth 100000 in
/-- C9 (the code departs from the claim): the payload of a record is a slice
of the scanner's buffer. On the stream `twoReads` the first record is sent with
the payload `aaa...`, which are the bytes of its slice when the scanner has
read the first line; after the decoder has read the second line, the bytes of
that slice are `bbb...`, the payload of the second record. -/
theorem C9_payload_overwritten_by_next_line :
    (runLoop twoReads).1.map SseEvent.fields
      = [([], List.replicate 2100 97), ([], List.replicate 2100 98)] ∧
    ((runLoop twoReads).1.map fun e => e.dataNow (NewScanner twoReads).Scan.2).head?
      = some (List.replicate 2100 97) ∧
    (runLoop twoReads).1.map (fun e => e.dataNow (runLoop twoReads).2)
      = [List.replicate 2100 98, List.replicate 2100 98] := by
  decide!

end SseClient

namespace Handlers

/-! ## C10: provider validation -/

/-- C10: once the request is decoded and the existence and secret steps have
succeeded, `HandleCreateModelConfig` and `HandleUpdateModelConfig` answer with
a bad-request error if and only if the provider type is none of OpenAI,
Anthropic, AzureOpenAI, Ollama, GeminiVertexAI, AnthropicVertexAI, or it is
AzureOpenAI with the azureOpenAI parameters absent or with an empty Endpoint
or APIVersion, or it is GeminiVertexAI or AnthropicVertexAI with the matching
parameters absent or with an empty ProjectID or Location; create and update
apply the same rule. -/
theorem C10_provider_validation :
    (∀ (k : Kube) (req : CreateModelConfigRequest) (st : CreateState),
      createPrelude k req = Except.ok st →
      ((HandleCreateModelConfig k (some req)).response.isBadRequest = true ↔
        invalidProviderConfig req.Provider.Type_ req.AzureParams req.GeminiParams
          req.AnthropicVertexParams)) ∧
    (∀ (k : Kube) (configName : String) (req : UpdateModelConfigRequest) (st : UpdateState),
      updatePrelude k configName req = Except.ok st →
      ((HandleUpdateModelConfig k (some configName) (some req)).response.isBadRequest = true ↔
        invalidProviderConfig req.Provider.Type_ req.AzureParams req.GeminiParams
          req.AnthropicVertexParams)) := by
  constructor
  · intro k req st h
    rw [create_badRequest_iff k req st h, createProviderConfig_rejected]
  · intro k configName req st h
    rw [update_badRequest_iff k configName req st h,
      updateProviderConfig_rejected req _ (updatePrelude_provider k configName req st h)]

/-- C10, witness: a create request for AzureOpenAI without parameters, on an
empty store, is answered with a bad-request error. -/
theorem C10_provider_validation_witness :
    createPrelude emptyKube azureWithoutParams = Except.ok azureState ∧
    (HandleCreateModelConfig emptyKube (some azureWithoutParams)).response.isBadRequest
      = true :=
  ⟨by rfl, (C10_provider_validation.1 emptyKube azureWithoutParams azureState (by rfl)).mpr
    (Or.inr (Or.inl ⟨rfl, Or.inl rfl⟩))⟩

end Handlers

namespace Handlers

/-- The key of the secret for the provider type OpenAI. -/
theorem secretKeyOf_OpenAI : secretKeyOf "OpenAI" = "OPENAI_API_KEY" := by
  unfold secretKeyOf String.toUpper
  rw [String.map_eq]
  decide

/-- C11: the secret creation rule of `HandleCreateModelConfig`. If the provider
is Ollama or the request's apiKey is empty, no call creates a secret, and when
the request succeeds the store's secrets are as before and the created
ModelConfig has empty APIKeySecretRef and APIKeySecretKey. Otherwise, when the
request succeeds, exactly one call creates a secret, the one named after the
request, the store has gained that secret holding the API key under the key
upper-case(provider type) + "_API_KEY", and the created ModelConfig's
APIKeySecretRef and APIKeySecretKey are that name and that key. The created
ModelConfig is the one added to the store. Whatever the answer, no call
creates a secret of another name, and at most one call creates a secret. -/
theorem C11_secret_creation_rule (k : Kube) (req : CreateModelConfigRequest) :
    ((req.Provider.Type_ = Ollama ∨ req.APIKey = "") →
      (HandleCreateModelConfig k (some req)).calls.filter Call.isCreateSecret = [] ∧
      ∀ c, (HandleCreateModelConfig k (some req)).response = Response.created c →
        (HandleCreateModelConfig k (some req)).kube.secrets = k.secrets ∧
        (HandleCreateModelConfig k (some req)).kube.modelConfigs = c :: k.modelConfigs ∧
        c.Name = req.Name ∧ c.Spec.APIKeySecretRef = "" ∧ c.Spec.APIKeySecretKey = "") ∧
    (¬ (req.Provider.Type_ = Ollama ∨ req.APIKey = "") →
      ∀ c, (HandleCreateModelConfig k (some req)).response = Response.created c →
        (HandleCreateModelConfig k (some req)).calls.filter Call.isCreateSecret =
          [Call.create Kind.secret req.Name] ∧
        (HandleCreateModelConfig k (some req)).kube.secrets =
          { Name := req.Name,
            StringData := [(req.Provider.Type_.toUpper ++ "_API_KEY", req.APIKey)] } ::
            k.secrets ∧
        (HandleCreateModelConfig k (some req)).kube.modelConfigs = c :: k.modelConfigs ∧
        c.Name = req.Name ∧ c.Spec.APIKeySecretRef = req.Name ∧
        c.Spec.APIKeySecretKey = req.Provider.Type_.toUpper ++ "_API_KEY") ∧
    ((HandleCreateModelConfig k (some req)).calls.filter Call.isCreateSecret = [] ∨
      (HandleCreateModelConfig k (some req)).calls.filter Call.isCreateSecret =
        [Call.create Kind.secret req.Name]) := by
  refine ⟨?_, ?_, (create_secret_calls k req).2⟩
  · intro hs
    refine ⟨(create_secret_calls k req).1 hs, ?_⟩
    intro c hc
    obtain ⟨st, spec, hp, hpc, rfl, hout⟩ := create_created k req _ hc
    rcases createPrelude_ok_cases k req st hp with ⟨_, rfl⟩ | ⟨hn, _⟩
    · have hr := createProviderConfig_refs req _ _ hpc
      rw [hout]
      exact ⟨rfl, rfl, rfl, hr.1, hr.2⟩
    · exact absurd hs hn
  · intro hn c hc
    obtain ⟨st, spec, hp, hpc, rfl, hout⟩ := create_created k req _ hc
    rcases createPrelude_ok_cases k req st hp with ⟨hs, _⟩ | ⟨_, k', hk, rfl⟩
    · exact absurd hs hn
    · have hr := createProviderConfig_refs req _ _ hpc
      have hk' := (createSecret_ok _ _ _ hk).1
      rw [hout]
      refine ⟨rfl, ?_, ?_, rfl, hr.1, hr.2⟩
      · dsimp only
        rw [hk']
        rfl
      · dsimp only
        rw [hk']

/-- The rule at two requests on the empty store: the OpenAI request with the
key `sk-1` creates the secret `m` with `OPENAI_API_KEY`, the Ollama request
with the same key creates none. -/
theorem C11_secret_creation_rule_witness :
    ((HandleCreateModelConfig emptyKube (some openAIWithKey)).calls.filter Call.isCreateSecret =
        [Call.create Kind.secret "m"] ∧
      (HandleCreateModelConfig emptyKube (some openAIWithKey)).kube.secrets =
        [{ Name := "m", StringData := [("OPENAI_API_KEY", "sk-1")] }]) ∧
    ((HandleCreateModelConfig emptyKube (some ollamaWithKey)).calls.filter Call.isCreateSecret = [] ∧
      (HandleCreateModelConfig emptyKube (some ollamaWithKey)).kube.secrets = []) := by
  constructor
  · have h := (C11_secret_creation_rule emptyKube openAIWithKey).2.1 (by decide) _ rfl
    refine ⟨h.1, ?_⟩
    rw [h.2.1]
    show [({ Name := "m", StringData := [(secretKeyOf "OpenAI", "sk-1")] } : Secret)] = _
    rw [secretKeyOf_OpenAI]
  · have h := (C11_secret_creation_rule emptyKube ollamaWithKey).1 (by decide)
    exact ⟨h.1, (h.2 _ rfl).1⟩

end Handlers

namespace Handlers

/-- C12: the cleanup of `HandleCreateModelConfig` after a failure. Every create
request that is answered with an error leaves the store as it found it, when
the store does not fail the Delete of the request's secret and holds no
object of the empty name. But a Delete is issued for an object the request did
not create: the request `azureWithoutParams` (provider AzureOpenAI, empty
apiKey, no parameters) on the empty store is answered with a bad-request
error, creates no secret, and still issues a Delete for the secret of the
empty name. -/
theorem C12_cleanup_after_failure :
    (∀ (k : Kube) (req : CreateModelConfigRequest),
      Call.delete Kind.secret req.Name ∉ k.failing →
      (∀ s ∈ k.secrets, s.Name ≠ "") →
      (HandleCreateModelConfig k (some req)).response.isError = true →
      (HandleCreateModelConfig k (some req)).kube = k) ∧
    (HandleCreateModelConfig emptyKube (some azureWithoutParams)).response =
      Response.badRequest "azureOpenAI parameters are required for AzureOpenAI provider" ∧
    (HandleCreateModelConfig emptyKube (some azureWithoutParams)).calls =
      [Call.get Kind.modelConfig "m", Call.delete Kind.secret ""] :=
  ⟨create_error_restores, rfl, rfl⟩

/-- The cleanup at `azureWithKey` (provider AzureOpenAI, the apiKey `sk-1`, no
parameters) on the empty store: the secret `m` is created and deleted again,
and the store is empty as before. -/
theorem C12_cleanup_after_failure_witness :
    (HandleCreateModelConfig emptyKube (some azureWithKey)).calls =
      [Call.get Kind.modelConfig "m", Call.create Kind.secret "m",
        Call.delete Kind.secret "m"] ∧
    (HandleCreateModelConfig emptyKube (some azureWithKey)).kube = emptyKube :=
  ⟨rfl, C12_cleanup_after_failure.1 emptyKube azureWithKey (by decide) (by decide) rfl⟩

end Handlers

namespace Handlers

/-- The key of the secret for the provider type AzureOpenAI. -/
theorem secretKeyOf_AzureOpenAI : secretKeyOf "AzureOpenAI" = "AZUREOPENAI_API_KEY" := by
  unfold secretKeyOf String.toUpper
  rw [String.map_eq]
  decide

/-- C13, as stated, fails: on the store `storeWithM` the update of `m` with
provider AzureOpenAI, the apiKey `sk-2` and no parameters is answered with a
bad-request error, and the secret `m` has been modified: it now holds the key
`AZUREOPENAI_API_KEY`. -/
theorem C13_rejected_update_counterexample :
    (HandleUpdateModelConfig storeWithM (some "m") (some azureUpdateWithKey)).response =
      Response.badRequest "azureOpenAI parameters are required when provider is AzureOpenAI" ∧
    (HandleUpdateModelConfig storeWithM (some "m") (some azureUpdateWithKey)).response.isError =
      true ∧
    storeWithM.secrets = [{ Name := "m", StringData := [] }] ∧
    (HandleUpdateModelConfig storeWithM (some "m") (some azureUpdateWithKey)).kube.secrets =
      [{ Name := "m", StringData := [("AZUREOPENAI_API_KEY", "sk-2")] }] ∧
    (HandleUpdateModelConfig storeWithM (some "m") (some azureUpdateWithKey)).kube ≠
      storeWithM := by
  have hs : (HandleUpdateModelConfig storeWithM (some "m") (some azureUpdateWithKey)).kube.secrets =
      [{ Name := "m", StringData := [("AZUREOPENAI_API_KEY", "sk-2")] }] := by
    rw [← secretKeyOf_AzureOpenAI]
    rfl
  refine ⟨rfl, rfl, rfl, hs, ?_⟩
  intro h
  rw [h] at hs
  revert hs
  decide

/-- C13, amended: a rejected update leaves the ModelConfigs untouched, and the
secrets too except the one named after the config. For every update request
that is answered with an error, the ModelConfigs of the store are as before
and so is every secret of another name than the config; the whole store is as
before when the request has no apiKey, an empty apiKey or the provider Ollama,
and when the handler returns in its first part (not found, or a failure of
the store in reading the ModelConfig or in reading or writing the secret).
Otherwise, when the first part has succeeded, the store of the outcome is
the one in which the secret has been created (when absent) or updated with the
request's apiKey under the key of the provider type. -/
theorem C13_rejected_update_touches_only_the_secret (k : Kube) (name : String)
    (req : UpdateModelConfigRequest)
    (herr : (HandleUpdateModelConfig k (some name) (some req)).response.isError = true) :
    (HandleUpdateModelConfig k (some name) (some req)).kube.modelConfigs = k.modelConfigs ∧
    (HandleUpdateModelConfig k (some name) (some req)).kube.secrets.filter
        (fun s => decide (s.Name ≠ name)) = k.secrets.filter (fun s => decide (s.Name ≠ name)) ∧
    (req.keepsSecret → (HandleUpdateModelConfig k (some name) (some req)).kube = k) ∧
    (∀ out, updatePrelude k name req = Except.error out →
      (HandleUpdateModelConfig k (some name) (some req)).kube = k) ∧
    (¬ req.keepsSecret → ∀ st, updatePrelude k name req = Except.ok st →
      ∃ apiKey, req.APIKey = some apiKey ∧
        (k.createSecret ⟨name, [(secretKeyOf req.Provider.Type_, apiKey)]⟩ =
            Except.ok (HandleUpdateModelConfig k (some name) (some req)).kube ∨
          ∃ s, k.getSecret name = Except.ok s ∧
            k.updateSecret { s with StringData := setStringData s.StringData (secretKeyOf req.Provider.Type_) apiKey } = Except.ok (HandleUpdateModelConfig k (some name) (some req)).kube)) := by
  rcases update_cases k name req with ⟨out, hp, ho⟩ | ⟨st, hp, _, hk⟩ | ⟨st, spec, k', _, _, _, ho⟩
  · have hk := (updatePrelude_error_kube k name req out hp).1
    rw [ho, hk]
    refine ⟨rfl, rfl, fun _ => rfl, fun _ _ => rfl, ?_⟩
    intro _ st hst
    rw [hp] at hst
    cases hst
  · obtain ⟨h1, _, h3, h4⟩ := updatePrelude_kube k name req st hp
    rw [hk]
    refine ⟨h1, h3, h4, ?_, ?_⟩
    · intro out ho
      rw [hp] at ho
      cases ho
    · intro hn st' hst
      rw [hp] at hst
      cases hst
      obtain ⟨mc, _, ⟨hks, _⟩ | ⟨_, apiKey, ha, _, hc | ⟨s, hs, hu, _⟩⟩⟩ := updatePrelude_ok_cases k name req st hp
      · exact absurd hks hn
      · exact ⟨apiKey, ha, Or.inl hc.1⟩
      · exact ⟨apiKey, ha, Or.inr ⟨s, hs, hu⟩⟩
  · rw [ho] at herr
    cases herr

/-- The amended claim at two rejected updates of `m` on `storeWithM`: with the
apiKey `sk-2` the ModelConfigs are as before, and without a ModelConfig of
the name `x` the whole store is. -/
theorem C13_rejected_update_touches_only_the_secret_witness :
    (HandleUpdateModelConfig storeWithM (some "m") (some azureUpdateWithKey)).kube.modelConfigs =
      storeWithM.modelConfigs ∧
    (HandleUpdateModelConfig storeWithM (some "x") (some azureUpdateWithKey)).kube =
      storeWithM :=
  ⟨(C13_rejected_update_touches_only_the_secret storeWithM "m" azureUpdateWithKey rfl).1,
    (C13_rejected_update_touches_only_the_secret storeWithM "x" azureUpdateWithKey rfl).2.2.2.1
      _ rfl⟩

end Handlers

namespace Handlers

/-- C14: `HandleUpdateModelConfig` replaces the whole spec. After a successful
update the ModelConfig of the answer is the one stored under the config's name,
with the model and provider of the request. When the request has no apiKey, an
empty apiKey or the provider Ollama, no call reads or writes a secret, the
secrets of the store are as before, and the stored ModelConfig has empty
APIKeySecretRef and APIKeySecretKey, whatever the store held before. And of
the provider-specific params blocks of the stored spec at most one is set,
the one of the request's provider type. -/
theorem C14_update_replaces_spec (k : Kube) (name : String) (req : UpdateModelConfigRequest)
    (c : ModelConfig)
    (h : (HandleUpdateModelConfig k (some name) (some req)).response = Response.ok c) :
    c.Name = name ∧
    (HandleUpdateModelConfig k (some name) (some req)).kube.getModelConfig name = Except.ok c ∧
    c.Spec.Model = req.Model ∧ c.Spec.Provider = req.Provider.Type_ ∧
    (req.keepsSecret →
      (HandleUpdateModelConfig k (some name) (some req)).calls.filter Call.isSecretCall = [] ∧
      (HandleUpdateModelConfig k (some name) (some req)).kube.secrets = k.secrets ∧
      c.Spec.APIKeySecretRef = "" ∧ c.Spec.APIKeySecretKey = "") ∧
    (c.Spec.paramsSet = [] ∨ c.Spec.paramsSet = [req.Provider.Type_]) := by
  rcases update_cases k name req with ⟨out, hp, ho⟩ | ⟨st, _, he, _⟩ | ⟨st, spec, k', hp, hc, hu, ho⟩
  · have he := (updatePrelude_error_kube k name req out hp).2
    rw [ho] at h
    rw [h] at he
    cases he
  · rw [h] at he
    cases he
  · rw [ho] at h
    cases h
    rw [ho]
    obtain ⟨hk', _⟩ := updateModelConfig_ok _ _ _ hu
    obtain ⟨hmcs, hfail, _, hkeep⟩ := updatePrelude_kube k name req st hp
    obtain ⟨mc, hg, hst⟩ := updatePrelude_ok_cases k name req st hp
    obtain ⟨hname, _, hnf, hfind⟩ := getModelConfig_ok k name mc hg
    have hstname : st.modelConfig.Name = name := by
      rcases hst with ⟨_, rfl⟩ | ⟨_, _, _, hm, _⟩
      · exact hname
      · rw [hm]; exact hname
    have hget : k'.getModelConfig name = Except.ok { st.modelConfig with Spec := spec } := by
      have hfm := find_map_replace k.modelConfigs { st.modelConfig with Spec := spec } mc name hstname hfind
      rw [hk']
      unfold Kube.getModelConfig
      dsimp only at hfm ⊢
      rw [hfail, if_neg hnf, hmcs, hfm]
    have hspec : (st.modelConfig.Spec = updateSpec req ∧ req.keepsSecret) ∨
        (st.modelConfig.Spec = { updateSpec req with APIKeySecretRef := name, APIKeySecretKey := secretKeyOf req.Provider.Type_ } ∧ ¬ req.keepsSecret) := by
      rcases hst with ⟨hk, rfl⟩ | ⟨hk, _, _, hm, _⟩
      · exact Or.inl ⟨rfl, hk⟩
      · exact Or.inr ⟨by rw [hm], hk⟩
    have hblocks := updateProviderConfig_ok req st.modelConfig.Spec spec
      (by rcases hspec with ⟨e, _⟩ | ⟨e, _⟩ <;> rw [e] <;> rfl)
      (by rcases hspec with ⟨e, _⟩ | ⟨e, _⟩ <;> rw [e] <;> rfl)
      (by rcases hspec with ⟨e, _⟩ | ⟨e, _⟩ <;> rw [e] <;> rfl)
      (by rcases hspec with ⟨e, _⟩ | ⟨e, _⟩ <;> rw [e] <;> rfl)
      (by rcases hspec with ⟨e, _⟩ | ⟨e, _⟩ <;> rw [e] <;> rfl)
      (by rcases hspec with ⟨e, _⟩ | ⟨e, _⟩ <;> rw [e] <;> rfl) hc
    have hprov : st.modelConfig.Spec.Provider = req.Provider.Type_ := by
      rcases hspec with ⟨e, _⟩ | ⟨e, _⟩ <;> rw [e] <;> rfl
    have hmodel : st.modelConfig.Spec.Model = req.Model := by
      rcases hspec with ⟨e, _⟩ | ⟨e, _⟩ <;> rw [e] <;> rfl
    obtain ⟨hb, hm, hpv, hr, hkey⟩ := hblocks
    refine ⟨hstname, hget, hm.trans hmodel, hpv.trans hprov, ?_, ?_⟩
    · intro hks
      have hstk := hkeep hks
      rcases hst with ⟨_, hst⟩ | ⟨hn, _⟩
      · refine ⟨?_, ?_, ?_, ?_⟩
        · rw [hst]
          rfl
        · rw [hk', hstk]
        · change spec.APIKeySecretRef = ""
          rw [hr, hst]
          rfl
        · change spec.APIKeySecretKey = ""
          rw [hkey, hst]
          rfl
      · exact absurd hks hn
    · rw [← hprov]
      exact hb

/-- The update of `m` on `storeWithM`, where it refers to the secret `m`, with
an OpenAI request without apiKey: the stored ModelConfig refers to no secret
any more. -/
theorem C14_update_replaces_spec_witness :
    (storeWithM.getModelConfig "m").map (fun c => c.Spec.APIKeySecretRef) = Except.ok "m" ∧
    (HandleUpdateModelConfig storeWithM (some "m") (some openAIUpdateWithoutKey)).response =
      Response.ok updatedM ∧
    updatedM.Spec.APIKeySecretRef = "" ∧ updatedM.Spec.APIKeySecretKey = "" ∧
    (HandleUpdateModelConfig storeWithM (some "m") (some openAIUpdateWithoutKey)).kube.getModelConfig
      "m" = Except.ok updatedM :=
  ⟨rfl, rfl,
    ((C14_update_replaces_spec storeWithM "m" openAIUpdateWithoutKey updatedM rfl).2.2.2.2.1
      (Or.inl rfl)).2.2.1,
    ((C14_update_replaces_spec storeWithM "m" openAIUpdateWithoutKey updatedM rfl).2.2.2.2.1
      (Or.inl rfl)).2.2.2,
    (C14_update_replaces_spec storeWithM "m" openAIUpdateWithoutKey updatedM rfl).2.1⟩

end Handlers

namespace SseClient

/-- C15, as stated (over-long meaning longer than 64 KiB), fails: in
`boundaryLineFirst` the first line longer than 65536 bytes is the third, no
line before it is longer than 65536 bytes, and the lines before it hold the
record of `data: a`; but the first line, of exactly 65536 bytes, already ends
the production, and no record is produced. -/
theorem C15_line_of_64KiB_counterexample :
    delivered boundaryLineFirst =
      joinLines ([List.replicate MaxScanTokenSize 120, [100, 97, 116, 97, 58, 32, 97]] ++
        [List.replicate (MaxScanTokenSize + 1) 120]) ∧
    (∀ x ∈ [List.replicate MaxScanTokenSize (120 : Byte), [100, 97, 116, 97, 58, 32, 97]],
      x.length ≤ MaxScanTokenSize) ∧
    MaxScanTokenSize < (List.replicate (MaxScanTokenSize + 1) (120 : Byte)).length ∧
    decode [] ([List.replicate MaxScanTokenSize 120, [100, 97, 116, 97, 58, 32, 97]].map dropCR) =
      [([], [32, 97])] ∧
    records boundaryLineFirst = [] := by
  refine ⟨by simp [boundaryLineFirst, delivered_single], ?_, by simp, ?_, boundaryLineFirst_records⟩
  · intro x hx
    simp only [List.mem_cons, List.mem_singleton, List.not_mem_nil, or_false] at hx
    rcases hx with rfl | rfl
    · simp
    · decide
  · have h1 : HasPrefix (List.replicate MaxScanTokenSize 120) eventPrefix = false := by decide
    have h2 : HasPrefix (List.replicate MaxScanTokenSize 120) dataPrefix = false := by decide
    rw [map_dropCR_self]
    · simp only [decode, h1, h2]
      decide
    · intro x hx
      simp only [List.mem_cons, List.mem_singleton, List.not_mem_nil, or_false] at hx
      rcases hx with rfl | rfl
      · intro h
        have := List.eq_of_mem_replicate h
        revert this
        decide
      · decide

/-- C15, amended: `streamSseResponse` stops at the first line that does not
fit the scanner's buffer of 64 KiB. A newline-terminated line of 65536 bytes
or more (a carriage return before the newline counted), or a last line
without newline of more than 65536 bytes, ends the production: the records
are exactly those of the lines before it, none is produced for that line or
for any later line, whatever those hold. The sequence then ends as it always
does, with the stream and the channel closed and nothing else sent. For
inputs whose lines are all shorter than 65536 bytes every line is
processed. -/
theorem C15_stops_at_first_line_that_does_not_fit :
    (∀ (r : Reader) (ls : List (List Byte)) (l : List Byte) (rest : List (List Byte))
        (fin : List Byte),
      (∀ x ∈ ls, LF ∉ x ∧ x.length < MaxScanTokenSize) →
      LF ∉ l → MaxScanTokenSize ≤ l.length →
      (∀ x ∈ rest, LF ∉ x) → LF ∉ fin →
      delivered r = joinLines (ls ++ l :: rest) ++ fin →
      records r = decode [] (ls.map dropCR)) ∧
    (∀ (r : Reader) (ls : List (List Byte)) (fin : List Byte),
      (∀ x ∈ ls, LF ∉ x ∧ x.length < MaxScanTokenSize) →
      LF ∉ fin → MaxScanTokenSize < fin.length →
      delivered r = joinLines ls ++ fin →
      records r = decode [] (ls.map dropCR)) ∧
    (∀ r : Reader, (∀ l ∈ rawLines (delivered r), l.length < MaxScanTokenSize) →
      records r = decode [] (lines (delivered r))) ∧
    (∀ r : Reader, ∃ evs : List SseEvent,
      streamSseResponse r = evs.map Effect.send ++ [Effect.closeReader, Effect.closeChan]) :=
  ⟨records_stop_at_long_line, records_stop_at_long_tail, records_of_short_lines,
    fun r => ⟨(runLoop r).1, rfl⟩⟩

/-- The amended claim at `dataLongData`: the line `data: a` before the line of
65536 bytes gives its record, the line `data: b` after it gives none. -/
theorem C15_stops_at_first_line_that_does_not_fit_witness :
    records dataLongData = [([], [32, 97])] :=
  (C15_stops_at_first_line_that_does_not_fit.1 dataLongData [[100, 97, 116, 97, 58, 32, 97]]
    (List.replicate MaxScanTokenSize 120) [[100, 97, 116, 97, 58, 32, 98]] []
    (by decide) (replicate_no_LF _) (by simp) (by decide) (by decide)
    (by simp [dataLongData, delivered_single])).trans (by decide)

end SseClient
